import Mathlib

/-!
# QtAV audio output: sample scaling, pending-chunk ledger and write pacing

A shallow embedding of `src/output/audio/AudioOutput.cpp`.

Conventions of the embedding
* C `int` / `qint64` values are `Int`; where the source narrows or may overflow
  (the sample scalers) the conversion is written out with `toInt32` / `toInt64`.
* `>> 8` on a signed value is the arithmetic shift, i.e. `/ 256` on `Int`
  (floor division for a positive divisor).
* `qreal` values are doubles: rationals, with every arithmetic operation of the source
  on them rounded to the nearest double (`roundDouble`). Infinities and NaN are not
  represented.
* A `QByteArray` is a `List Nat` of byte values; multi-byte samples are read and
  written little-endian.
* The backend driver, the wall clock and the sample products of the float and double
  scalers are the environment: they appear as oracle fields that the engine reads in order, and every call made
  to the backend is logged in the backend record.
-/

namespace QtAV

/-! ## Machine integers -/

/-- Conversion of an integer value to a 32-bit `int` (two's complement wrap). -/
def toInt32 (x : Int) : Int := (x + 2147483648) % 4294967296 - 2147483648

/-- Conversion of an integer value to a 64-bit `qint64` (two's complement wrap). -/
def toInt64 (x : Int) : Int :=
  (x + 9223372036854775808) % 18446744073709551616 - 9223372036854775808

/-- Conversion of an integer value to `char` (signed 8 bit). -/
def toInt8 (x : Int) : Int := (x + 128) % 256 - 128

/-- Conversion of an integer value to `quint8`. -/
def toUInt8 (x : Int) : Int := x % 256

/-- The libavutil clip `av_clip_uint8_c(int a)`:
`if (a&(~0xFF)) return (~a)>>31; else return a;` with the result converted to `uint8_t`.
The argument has type `int`, so a wider value is narrowed by the caller. -/
def av_clip_uint8 (a : Int) : Int :=
  if a < 0 ∨ 255 < a then toUInt8 ((-a - 1) / 2147483648) else a

/-- The libavutil clip `av_clip_int16_c(int a)`:
`if ((a+0x8000U) & ~0xFFFF) return (a>>31) ^ 0x7FFF; else return a;`.
The argument has type `int`, so a wider value is narrowed by the caller. -/
def av_clip_int16 (a : Int) : Int :=
  if a < -32768 ∨ 32767 < a then (if a < 0 then -32768 else 32767) else a

/-- The libavutil clip `av_clipl_int32_c(int64_t a)`:
`if ((a+0x80000000u) & ~UINT64_C(0xFFFFFFFF)) return (int32_t)((a>>63) ^ 0x7FFFFFFF);
else return (int32_t)a;`. -/
def av_clipl_int32 (a : Int) : Int :=
  if a < -2147483648 ∨ 2147483647 < a then (if a < 0 then -2147483648 else 2147483647) else a

/-! ## Sample scalers (from libavfilter/af_volume) -/

/-- Loop body of `scale_samples_u8`:
`av_clip_uint8(((((qint64)src[i] - 128) * volume + 128) >> 8) + 128)`. -/
def scale_sample_u8 (s volume : Int) : Int :=
  av_clip_uint8 (toInt32 (toInt64 (toInt64 (toInt64 (toInt64 (s - 128) * volume) + 128) / 256) + 128))

/-- Loop body of `scale_samples_u8_small`:
`av_clip_uint8((((src[i] - 128) * volume + 128) >> 8) + 128)`, all in `int`. -/
def scale_sample_u8_small (s volume : Int) : Int :=
  av_clip_uint8 (toInt32 (toInt32 (toInt32 (toInt32 (s - 128) * volume) + 128) / 256 + 128))

/-- Loop body of `scale_samples_s16`:
`av_clip_int16(((qint64)smp_src[i] * volume + 128) >> 8)`. -/
def scale_sample_s16 (s volume : Int) : Int :=
  av_clip_int16 (toInt32 (toInt64 (toInt64 (s * volume) + 128) / 256))

/-- Loop body of `scale_samples_s16_small`:
`av_clip_int16((smp_src[i] * volume + 128) >> 8)`, all in `int`. -/
def scale_sample_s16_small (s volume : Int) : Int :=
  av_clip_int16 (toInt32 (toInt32 (s * volume) + 128) / 256)

/-- Loop body of `scale_samples_s32`:
`av_clipl_int32((((qint64)smp_src[i] * volume + 128) >> 8))`. -/
def scale_sample_s32 (s volume : Int) : Int :=
  av_clipl_int32 (toInt64 (toInt64 (s * volume) + 128) / 256)

/-- The function `scale_samples_u8` on an array of `quint8` samples. -/
def scale_samples_u8 (src : List Int) (volume : Int) : List Int :=
  src.map (fun s => scale_sample_u8 s volume)

/-- The function `scale_samples_u8_small` on an array of `quint8` samples. -/
def scale_samples_u8_small (src : List Int) (volume : Int) : List Int :=
  src.map (fun s => scale_sample_u8_small s volume)

/-- The function `scale_samples_s16` on an array of `int16_t` samples. -/
def scale_samples_s16 (src : List Int) (volume : Int) : List Int :=
  src.map (fun s => scale_sample_s16 s volume)

/-- The function `scale_samples_s16_small` on an array of `int16_t` samples. -/
def scale_samples_s16_small (src : List Int) (volume : Int) : List Int :=
  src.map (fun s => scale_sample_s16_small s volume)

/-- The function `scale_samples_s32` on an array of `qint32` samples. -/
def scale_samples_s32 (src : List Int) (volume : Int) : List Int :=
  src.map (fun s => scale_sample_s32 s volume)

/-! ## Sample formats -/

/-- Modelled from the spec: the sample encodings of `AudioFormat::SampleFormat`
(QtAV/AudioFormat.h is not part of the sources): unsigned-8, signed-16, signed-32,
float and double, interleaved or planar, and the unknown encoding. -/
inductive SampleFormat where
  | SampleFormat_Unknown
  | SampleFormat_Unsigned8
  | SampleFormat_Signed16
  | SampleFormat_Signed32
  | SampleFormat_Float
  | SampleFormat_Double
  | SampleFormat_Unsigned8Planar
  | SampleFormat_Signed16Planar
  | SampleFormat_Signed32Planar
  | SampleFormat_FloatPlanar
  | SampleFormat_DoublePlanar
  deriving DecidableEq, Repr

open SampleFormat

/-- The scaling functions a `scale_samples_func` pointer can hold. -/
inductive scale_samples_func where
  | u8
  | u8_small
  | s16
  | s16_small
  | s32
  | flt
  | dbl
  deriving DecidableEq, Repr

/-! ## IEEE double arithmetic -/

/-- Rounding of a real to the nearest integer, a tie going to the even neighbour. -/
def roundHalfEven (t : ℚ) : Int :=
  if Int.fract t < 1 / 2 then ⌊t⌋
  else if 1 / 2 < Int.fract t then ⌊t⌋ + 1
  else if ⌊t⌋ % 2 = 0 then ⌊t⌋ else ⌊t⌋ + 1

/-- The binary exponent of a double: `floor(log2 |x|)`, and -1022 for the subnormal
range and zero. -/
def doubleExponent (x : ℚ) : Int := if x = 0 then -1022 else max (Int.log 2 |x|) (-1022)

/-- The spacing of the doubles around `x`: `2 ^ (exponent - 52)`. -/
def doubleUlp (x : ℚ) : ℚ := 2 ^ (doubleExponent x - 52)

/-- The double nearest to `x`, a tie going to the even significand (the rounding of every
IEEE-754 binary64 operation): 53 bits of significand, exponents from -1022, subnormals
below. The exponent is not bounded above: a result beyond the largest double, which is
an infinity in the source, stays a finite value greater than every double. -/
def roundDouble (x : ℚ) : ℚ := roundHalfEven (x / doubleUlp x) * doubleUlp x

/-- The finite doubles: the values that rounding leaves as they are, below `2^1024`. -/
def isDouble (x : ℚ) : Bool := decide (roundDouble x = x ∧ |x| < 2 ^ 1024)

/-- The C cast `(int)x` of a real value: truncation toward zero. -/
def truncToInt (x : ℚ) : Int := Int.tdiv x.num x.den

/-- The integer gain computed in `get_scaler`: `(int)(vol * 256.0 + 0.5)`, the product
and the sum in double arithmetic. The cast is undefined in C for a value outside the range
of `int`; the value is not wrapped here. -/
def gain_i (vol : ℚ) : Int := truncToInt (roundDouble (roundDouble (vol * 256) + 1 / 2))

/-- The `switch` of `get_scaler` on the sample format, for the integer gain `v`. -/
def select_scaler (fmt : SampleFormat) (v : Int) : Option scale_samples_func :=
  match fmt with
  | SampleFormat_Unsigned8 | SampleFormat_Unsigned8Planar =>
    if v < 0x1000000 then some .u8_small else some .u8
  | SampleFormat_Signed16 | SampleFormat_Signed16Planar =>
    if v < 0x10000 then some .s16_small else some .s16
  | SampleFormat_Signed32 | SampleFormat_Signed32Planar => some .s32
  | SampleFormat_Float | SampleFormat_FloatPlanar => some .flt
  | SampleFormat_Double | SampleFormat_DoublePlanar => some .dbl
  | SampleFormat_Unknown => none

/-- The function `get_scaler(fmt, vol, voli)`: the selected scaler and the value stored
through `voli`. -/
def get_scaler (fmt : SampleFormat) (vol : ℚ) : Option scale_samples_func × Int :=
  (select_scaler fmt (gain_i vol), gain_i vol)

/-! ## Audio format -/

/-- Modelled from the spec: the format descriptor `AudioFormat` (QtAV/AudioFormat.h is
not part of the sources): sample encoding, channel layout and count, sample rate. -/
structure AudioFormat where
  sample_format : SampleFormat
  channel_layout : Nat
  channels : Nat
  sample_rate : Nat
  deriving DecidableEq, Repr

namespace AudioFormat

/-- The accessor `sampleFormat()`. -/
def sampleFormat (f : AudioFormat) : SampleFormat := f.sample_format

/-- Modelled from the spec: `isUnsigned()`, true for the unsigned-8 encodings, the only
unsigned encodings of the descriptor. -/
def isUnsigned (f : AudioFormat) : Bool :=
  match f.sample_format with
  | SampleFormat_Unsigned8 | SampleFormat_Unsigned8Planar => true
  | _ => false

/-- Modelled from the spec: `isFloat()`, true for the float and double encodings. -/
def isFloat (f : AudioFormat) : Bool :=
  match f.sample_format with
  | SampleFormat_Float | SampleFormat_FloatPlanar
  | SampleFormat_Double | SampleFormat_DoublePlanar => true
  | _ => false

/-- Modelled from the spec: `bytesPerSample()`, derived from the sample encoding alone
(1 for unsigned-8, 2 for signed-16, 4 for signed-32 and float, 8 for double, 0 for the
unknown encoding). -/
def bytesPerSample (f : AudioFormat) : Nat :=
  match f.sample_format with
  | SampleFormat_Unsigned8 | SampleFormat_Unsigned8Planar => 1
  | SampleFormat_Signed16 | SampleFormat_Signed16Planar => 2
  | SampleFormat_Signed32 | SampleFormat_Signed32Planar => 4
  | SampleFormat_Float | SampleFormat_FloatPlanar => 4
  | SampleFormat_Double | SampleFormat_DoublePlanar => 8
  | SampleFormat_Unknown => 0

/-- Modelled from the spec: bytes of one frame (one sample for every channel). -/
def bytesPerFrame (f : AudioFormat) : Nat := f.bytesPerSample * f.channels

/-- Modelled from the spec: `durationForBytes(bytes)`, the playback duration of `bytes`
bytes, `bytes / (sample_rate * bytes_per_frame)` seconds, returned in microseconds. -/
def durationForBytes (f : AudioFormat) (bytes : Int) : Int :=
  Int.tdiv (bytes * 1000000) ((f.sample_rate : Int) * (f.bytesPerFrame : Int))

end AudioFormat

/-! ## Byte buffers and sample access -/

/-- A `QByteArray`: the list of its byte values. -/
abbrev QByteArray := List Nat

/-- Value of a little-endian byte group. -/
def leValue : List Nat → Nat
  | [] => 0
  | b :: bs => b % 256 + 256 * leValue bs

/-- The `w` little-endian bytes of a value. -/
def leBytes : Nat → Nat → List Nat
  | 0, _ => []
  | w + 1, x => x % 256 :: leBytes w (x / 256)

/-- Raw (unsigned) values of the first `n` samples of `w` bytes each: `((T*)buf)[i]` for
`i < n`. -/
def readSamples (w : Nat) : Nat → QByteArray → List Nat
  | 0, _ => []
  | n + 1, buf => leValue (buf.take w) :: readSamples w n (buf.drop w)

/-- Bytes of a sequence of `w`-byte samples, each value reduced to `w` bytes. -/
def writeSamples (w : Nat) (vals : List Int) : QByteArray :=
  (vals.map (fun v => leBytes w (v % (256 : Int) ^ w).toNat)).flatten

/-- The samples of a buffer as the integers a typed pointer reads: unsigned for `quint8`,
two's complement for `int16_t` and `qint32`. -/
def loadSamples (w : Nat) (signed : Bool) (n : Nat) (buf : QByteArray) : List Int :=
  (readSamples w n buf).map (fun (raw : Nat) =>
    if signed ∧ (256 : Int) ^ w ≤ 2 * (raw : Int) then (raw : Int) - (256 : Int) ^ w else (raw : Int))

/-- In-place result of a scaler on a buffer: the first `n` samples are replaced by `out`,
the bytes after them are kept. -/
def storeSamples (w : Nat) (n : Nat) (out : List Int) (buf : QByteArray) : QByteArray :=
  writeSamples w out ++ buf.drop (w * n)

/-- The template `scale_samples<T>` for `float` / `double`:
`smp_dst[i] = smp_src[i] * (T)volume`, on the raw bit patterns of the samples. The IEEE
multiplication is the parameter `mul`. -/
def scale_samples_real (mul : ℚ → Int → Int) (src : List Int) (volume : ℚ) : List Int :=
  src.map (fun s => mul volume s)

/-! ## Pending-chunk ledger -/

/-- The record `AudioOutputPrivate::FrameInfo`; the constructor defaults are `(0, 0)`. -/
structure FrameInfo where
  timestamp : ℚ
  data_size : Int
  deriving DecidableEq, Repr

/-- Modelled from the spec: the fixed-capacity ring `ring<T>` of utils/ring.h (not part
of the sources). `push_back` appends to the back, on overflow the newest entries are
retained; `pop_front` removes from the front and does nothing on an empty ring; `front`
peeks the oldest entry and reads as the default-constructed entry on an empty ring. -/
structure ring where
  capacity : Nat
  entries : List FrameInfo
  deriving DecidableEq, Repr

namespace ring

/-- Modelled from the spec: the constructor `ring<FrameInfo>(capacity)`, an empty ring. -/
def create (capacity : Nat) : ring := { capacity := capacity, entries := [] }

/-- Modelled from the spec: `push_back`, keeping the newest `capacity` entries. -/
def push_back (r : ring) (t : FrameInfo) : ring :=
  { r with entries := (r.entries ++ [t]).drop (r.entries.length + 1 - r.capacity) }

/-- Modelled from the spec: `pop_front`. -/
def pop_front (r : ring) : ring := { r with entries := r.entries.tail }

/-- Modelled from the spec: `front`. -/
def front (r : ring) : FrameInfo := r.entries.headD { timestamp := 0, data_size := 0 }

/-- Modelled from the spec: `empty`. -/
def empty (r : ring) : Bool := r.entries.isEmpty

end ring

/-! ## Backend driver -/

/-- The flags of `AudioOutputBackend::BufferControl` that `waitForNextBuffer` tests; a
field is true when the corresponding bit is set. -/
structure BufferControl where
  Blocking : Bool
  CountCallback : Bool
  BytesCallback : Bool
  PlayedBytes : Bool
  PlayedCount : Bool
  OffsetBytes : Bool
  OffsetIndex : Bool
  deriving DecidableEq, Repr

/-- A backend driver seen from the engine. The driver is external: its answers are the
oracle fields (`readings`, `writeResult`, `openResult`, ...), read in call order, and the
calls the engine makes are recorded (`queries`, `written`, `opens`, `volumeCalls`, ...). -/
structure AudioOutputBackend where
  name : String
  available : Bool
  bufferControl : BufferControl
  supportedFeatures : Nat
  /-- Answer of the `k`-th progress query (`getWritableBytes`, `getPlayedBytes`,
  `getPlayedCount`, `getOffsetByBytes` or `getOffset`, whichever the strategy calls). -/
  readings : Nat → Int
  /-- Answer of the `k`-th `write`. -/
  writeResult : Nat → Bool
  /-- Number of progress queries made so far. -/
  queries : Nat
  /-- The buffers handed to `write`, oldest first. -/
  written : List QByteArray
  /-- Answer of the `k`-th `open()`. -/
  openResult : Nat → Bool
  /-- Answer of the `k`-th `close()`. -/
  closeResult : Nat → Bool
  /-- Answer of the `k`-th `play()`. -/
  playResult : Nat → Bool
  /-- Answer of the `k`-th `setVolume`. -/
  setVolumeResult : Nat → Bool
  /-- Answer of the `k`-th `setMute`. -/
  setMuteResult : Nat → Bool
  /-- Number of `open()` calls made so far. -/
  opens : Nat
  /-- Number of `close()` calls made so far. -/
  closes : Nat
  /-- Number of `play()` calls made so far. -/
  plays : Nat
  /-- The values handed to `setVolume`, oldest first. -/
  volumeCalls : List ℚ
  /-- The values handed to `setMute`, oldest first. -/
  muteCalls : List Bool
  /-- True between a successful `open()` and the next `close()`. -/
  opened : Bool
  /-- The member `buffer_size`, set by the engine before `open()`. -/
  buffer_size : Int
  /-- The member `buffer_count`, set by the engine before `open()`. -/
  buffer_count : Int
  /-- The member `format`, set by the engine before `open()`. -/
  format : AudioFormat

namespace AudioOutputBackend

/-- A progress query: the next reading, and the backend with the query counted. -/
def query (b : AudioOutputBackend) : Int × AudioOutputBackend :=
  (b.readings b.queries, { b with queries := b.queries + 1 })

/-- The call `write(data)`: the driver's answer, and the backend with the buffer logged. -/
def write (b : AudioOutputBackend) (data : QByteArray) : Bool × AudioOutputBackend :=
  (b.writeResult b.written.length, { b with written := b.written ++ [data] })

/-- The call `open()` (`open` is a keyword of Lean): the driver's answer, and the backend
with the call counted. -/
def openDevice (b : AudioOutputBackend) : Bool × AudioOutputBackend :=
  (b.openResult b.opens, { b with opens := b.opens + 1, opened := b.openResult b.opens })

/-- The call `close()`: the driver's answer, and the backend with the call counted. -/
def close (b : AudioOutputBackend) : Bool × AudioOutputBackend :=
  (b.closeResult b.closes, { b with closes := b.closes + 1, opened := false })

/-- The call `play()`: the driver's answer, and the backend with the call counted. -/
def play (b : AudioOutputBackend) : Bool × AudioOutputBackend :=
  (b.playResult b.plays, { b with plays := b.plays + 1 })

/-- The call `setVolume(value)`: the driver's answer, and the backend with the call
logged. -/
def setVolume (b : AudioOutputBackend) (value : ℚ) : Bool × AudioOutputBackend :=
  (b.setVolumeResult b.volumeCalls.length, { b with volumeCalls := b.volumeCalls ++ [value] })

/-- The call `setMute(value)`: the driver's answer, and the backend with the call
logged. -/
def setMute (b : AudioOutputBackend) (value : Bool) : Bool × AudioOutputBackend :=
  (b.setMuteResult b.muteCalls.length, { b with muteCalls := b.muteCalls ++ [value] })

end AudioOutputBackend

/-- The environment of the engine: the wall clock and the floating-point unit. -/
structure Env where
  /-- Milliseconds of wall time that pass during the `k`-th wait on the condition. -/
  passes : Nat → Int
  /-- Wall clock, in milliseconds. -/
  now : Int
  /-- Timeouts (ms) of the waits on the condition variable made so far, oldest first. -/
  sleeps : List Int
  /-- IEEE product `sample * (float)volume` on a 32-bit pattern. -/
  mulFloat : ℚ → Int → Int
  /-- IEEE product `sample * (double)volume` on a 64-bit pattern. -/
  mulDouble : ℚ → Int → Int

/-! ## Engine state -/

/-- The state `AudioOutputPrivate` (with `paused` and `available` of `AVOutputPrivate`).
The `QElapsedTimer` is `timer`: `none` when invalid, else its start time. -/
structure AudioOutputPrivate where
  paused : Bool
  available : Bool
  mute : Bool
  sw_volume : Bool
  sw_mute : Bool
  volume_i : Int
  vol : ℚ
  speed : ℚ
  format : AudioFormat
  data : QByteArray
  nb_buffers : Nat
  buffer_size : Int
  features : Nat
  play_pos : Int
  processed_remain : Int
  msecs_ahead : Int
  timer : Option Int
  scale_samples : Option scale_samples_func
  backend : Option AudioOutputBackend
  update_backend : Bool
  backends : List String
  index_enqueue : Int
  index_deuqueue : Int
  frame_infos : ring
  env : Env

namespace AudioOutputPrivate

/-- The method `bufferSizeTotal()`: `nb_buffers * buffer_size`. -/
def bufferSizeTotal (d : AudioOutputPrivate) : Int := (d.nb_buffers : Int) * d.buffer_size

/-- The method `resetStatus()`. -/
def resetStatus (d : AudioOutputPrivate) : AudioOutputPrivate :=
  { d with
    play_pos := 0
    processed_remain := 0
    msecs_ahead := 0
    timer := none
    frame_infos := ring.create d.nb_buffers }

/-- The method `updateSampleScaleFunc()`:
`scale_samples = get_scaler(format.sampleFormat(), vol, &volume_i)`. -/
def updateSampleScaleFunc (d : AudioOutputPrivate) : AudioOutputPrivate :=
  { d with
    scale_samples := (get_scaler d.format.sampleFormat d.vol).1
    volume_i := (get_scaler d.format.sampleFormat d.vol).2 }

/-- A wait on the condition variable with timeout `ms` (`cond.wait(&mutex, ms)`): the
timeout is logged and the wall clock advances by what the environment lets pass. -/
def condWait (d : AudioOutputPrivate) (ms : Int) : AudioOutputPrivate :=
  { d with env := { d.env with
      now := d.env.now + d.env.passes d.env.sleeps.length
      sleeps := d.env.sleeps ++ [ms] } }

/-- The method `uwait(us)`: `cond.wait(&mutex, (us+500LL)/1000LL)`. -/
def uwait (d : AudioOutputPrivate) (us : Int) : AudioOutputPrivate :=
  d.condWait (Int.tdiv (us + 500) 1000)

/-- The call `timer.elapsed()`, for a timer started at `start`. -/
def elapsed (d : AudioOutputPrivate) (start : Int) : Int := d.env.now - start

/-- The call `timer.restart()`: the milliseconds since the timer was started, and the
state with the timer started now. Qt leaves the returned value unspecified for an invalid
timer (it reads as 0 here; the engine does not use it in that case). -/
def timerRestart (d : AudioOutputPrivate) : Int × AudioOutputPrivate :=
  (match d.timer with
   | some start => d.env.now - start
   | none => 0,
   { d with timer := some d.env.now })

end AudioOutputPrivate

open AudioOutputPrivate

/-- The Qt function `qFuzzyCompare(double p1, double p2)`:
`qAbs(p1 - p2) * 1000000000000. <= qMin(qAbs(p1), qAbs(p2))`, the difference and the
product in double arithmetic. -/
def qFuzzyCompare (p1 p2 : ℚ) : Bool :=
  decide (roundDouble (|roundDouble (p1 - p2)| * 1000000000000) ≤ min |p1| |p2|)

/-- The method `AudioOutput::volume()`: `qMax<qreal>(vol, 0)`. -/
def volume (d : AudioOutputPrivate) : ℚ := max d.vol 0

/-- The method `AudioOutput::isMute()`. -/
def isMute (d : AudioOutputPrivate) : Bool := d.mute

/-- The method `AudioOutput::isOpen()`. -/
def isOpen (d : AudioOutputPrivate) : Bool := d.available

/-- The method `AudioOutput::bufferCount()`. -/
def bufferCount (d : AudioOutputPrivate) : Int := (d.nb_buffers : Int)

/-- The call `d.scale_samples(dst, dst, nb_samples, d.volume_i, volume())` through the
function pointer `f`, in place on `buf`. -/
def applyScaler (env : Env) (f : scale_samples_func) (nb_samples : Nat) (volume_i : Int)
    (volumef : ℚ) (buf : QByteArray) : QByteArray :=
  match f with
  | .u8 => storeSamples 1 nb_samples (scale_samples_u8 (loadSamples 1 false nb_samples buf) volume_i) buf
  | .u8_small =>
    storeSamples 1 nb_samples (scale_samples_u8_small (loadSamples 1 false nb_samples buf) volume_i) buf
  | .s16 => storeSamples 2 nb_samples (scale_samples_s16 (loadSamples 2 true nb_samples buf) volume_i) buf
  | .s16_small =>
    storeSamples 2 nb_samples (scale_samples_s16_small (loadSamples 2 true nb_samples buf) volume_i) buf
  | .s32 => storeSamples 4 nb_samples (scale_samples_s32 (loadSamples 4 true nb_samples buf) volume_i) buf
  | .flt =>
    storeSamples 4 nb_samples (scale_samples_real env.mulFloat (loadSamples 4 false nb_samples buf) volumef) buf
  | .dbl =>
    storeSamples 8 nb_samples (scale_samples_real env.mulDouble (loadSamples 8 false nb_samples buf) volumef) buf

/-- The silence byte chosen in `receiveData`: `char s = 0;
if (format.isUnsigned() && !format.isFloat()) s = 1<<((format.bytesPerSample() << 3)-1);`. -/
def muteByte (f : AudioFormat) : Int :=
  if f.isUnsigned && !f.isFloat then toInt8 (toInt32 (2 ^ (f.bytesPerSample * 8 - 1))) else 0

/-- The call `QByteArray::fill(s)`: every byte becomes `s`, the size is kept. -/
def fill (buf : QByteArray) (s : Int) : QByteArray :=
  List.replicate buf.length (toUInt8 s).toNat

/-- Size in bytes of the sample type a scaling function casts the buffer to. -/
def sampleSize : scale_samples_func → Nat
  | .u8 => 1
  | .u8_small => 1
  | .s16 => 2
  | .s16_small => 2
  | .s32 => 4
  | .flt => 4
  | .dbl => 8

/-- Lines 411-427 of `receiveData`: the buffer `d.data` prepared from the chunk, muted or
scaled. The result is `none` where the source has no defined result:
`data.size()/format.bytesPerSample()` divides by zero, or the scaling function runs past
the end of the buffer (`nb_samples` samples of its own sample type do not fit). -/
def prepareData (d : AudioOutputPrivate) (data : QByteArray) : Option QByteArray :=
  if isMute d && d.sw_mute then
    some (fill data (muteByte d.format))
  else if !qFuzzyCompare (volume d) 1 && d.sw_volume && d.scale_samples.isSome then
    match d.scale_samples with
    | some f =>
      if d.format.bytesPerSample = 0 then none
      else if data.length < sampleSize f * (data.length / d.format.bytesPerSample) then none
      else
        some (applyScaler d.env f (data.length / d.format.bytesPerSample) d.volume_i (volume d) data)
    | none => some data
  else some data

/-- The byte retirement loop of `waitForNextBuffer` (`remove < 0`):
`while (free_bytes >= next && next > 0) { free_bytes -= next; if (empty) break;
pop_front(); next = front().data_size; }`. On an empty ledger `next` is 0 and the loop
ends; on a non-empty one the `empty()` test is false. -/
def retireBytes : Int → List FrameInfo → List FrameInfo
  | _, [] => []
  | free_bytes, e :: es =>
    if free_bytes ≥ e.data_size ∧ e.data_size > 0 then retireBytes (free_bytes - e.data_size) es
    else e :: es

/-- The count retirement loop of `waitForNextBuffer`:
`while (remove-- > 0) { if (empty) break; pop_front(); }`. -/
def retireCount : Int → List FrameInfo → List FrameInfo
  | _, [] => []
  | remove, e :: es => if remove > 0 then retireCount (remove - 1) es else e :: es

/-- Lines 742-765 of `waitForNextBuffer`: retire ledger entries for the value `remove`
and return true. -/
def retire (d : AudioOutputPrivate) (remove : Int) : Bool × AudioOutputPrivate :=
  if remove < 0 then
    (true, { d with frame_infos := { d.frame_infos with
      entries := retireBytes (-remove) d.frame_infos.entries } })
  else
    (true, { d with frame_infos := { d.frame_infos with
      entries := retireCount remove d.frame_infos.entries } })

/-! ## The wait algorithm

Every wait loop takes a fuel argument: `none` means the loop was still running when the
fuel ran out. The constant `no_wait` of the source is `false` and is dropped from the
loop conditions. -/

/-- The wait loop of the `BytesCallback` branch, lines 636-656. The result is
`(true, d)` when the loop is left through its condition and `(false, d)` when the
function returns false from inside the loop. -/
def bytesCallbackLoop (processed next : Int) :
    Nat → Int → AudioOutputBackend → AudioOutputPrivate → Option (Bool × AudioOutputPrivate)
  | 0, _, _, _ => none
  | fuel + 1, last_wait, b, d =>
    if d.processed_remain - processed < next ∨ d.processed_remain < (d.data.length : Int) then
      let us := d.format.durationForBytes (next - (d.processed_remain - processed))
      let d1 := d.condWait (Int.tdiv us 1000)
      let d2 := { d1 with processed_remain := b.query.1, backend := some b.query.2 }
      if d2.processed_remain < 0 then some (false, d2)
      else
        match d2.timer with
        | none => some (false, d2)
        | some start =>
          if us ≥ last_wait ∧ d2.elapsed start > 1000 then some (false, d2)
          else bytesCallbackLoop processed next fuel us b.query.2 d2
    else some (true, d)

/-- The wait loop of the `PlayedBytes` branch, lines 665-673. -/
def playedBytesLoop (next : Int) :
    Nat → AudioOutputBackend → AudioOutputPrivate → Option AudioOutputPrivate
  | 0, _, _ => none
  | fuel + 1, b, d =>
    if d.processed_remain < next then
      let us := d.format.durationForBytes (next - d.processed_remain)
      let d1 := if us < 1000 then d.uwait 10000 else d.uwait us
      playedBytesLoop next fuel b.query.2
        { d1 with processed_remain := b.query.1, backend := some b.query.2 }
    else some d

/-- The wait loop of the `PlayedCount` branch, lines 684-696, on the variables `c` and
`us`; the result carries the final `c`. -/
def playedCountLoop :
    Nat → Int → Int → AudioOutputBackend → AudioOutputPrivate → Option (Int × AudioOutputPrivate)
  | 0, _, _, _, _ => none
  | fuel + 1, c, us, b, d =>
    if c < 1 then
      let us1 := if us ≤ 0 then d.format.durationForBytes d.frame_infos.front.data_size else us
      let elapsed := d.timerRestart.1
      let d1 := d.timerRestart.2
      let us2 := if elapsed > 0 ∧ us1 > elapsed * 1000 then us1 - elapsed * 1000 else us1
      let us3 := if us2 < 1000 then 10000 else us2
      let d2 := d1.uwait us3
      playedCountLoop fuel b.query.1 us3 b.query.2 { d2 with backend := some b.query.2 }
    else some (c, d)

/-- The wait loop of the `OffsetBytes` branch, lines 708-717, on the variables
`processed` and `writable_size`; the result carries the final `processed`. -/
def offsetBytesLoop (next : Int) :
    Nat → Int → Int → AudioOutputBackend → AudioOutputPrivate → Option (Int × AudioOutputPrivate)
  | 0, _, _, _, _ => none
  | fuel + 1, processed, writable_size, b, d =>
    if writable_size < (d.data.length : Int) ∧ next > 0 then
      let us := d.format.durationForBytes (next - writable_size)
      let d1 := d.uwait us
      let s := b.query.1
      let processed1 := processed + (s - d1.play_pos)
      let processed2 := if processed1 < 0 then processed1 + d1.bufferSizeTotal else processed1
      offsetBytesLoop next fuel processed2 (d1.processed_remain + processed2) b.query.2
        { d1 with play_pos := s, backend := some b.query.2 }
    else some (processed, d)

/-- The wait loop of the `OffsetIndex` branch, lines 729-736, on the variable
`processed`; the result carries the final `processed`. -/
def offsetIndexLoop :
    Nat → Int → AudioOutputBackend → AudioOutputPrivate → Option (Int × AudioOutputPrivate)
  | 0, _, _, _ => none
  | fuel + 1, processed, b, d =>
    if processed < 1 then
      let d1 := d.uwait (d.format.durationForBytes d.frame_infos.front.data_size)
      let n := b.query.1
      let processed1 := n - d1.play_pos
      let processed2 := if processed1 < 0 then processed1 + bufferCount d1 else processed1
      offsetIndexLoop fuel processed2 b.query.2 { d1 with play_pos := n, backend := some b.query.2 }
    else some (processed, d)

/-- The method `AudioOutput::waitForNextBuffer()`. The result is `none` when a wait loop
is still running after `fuel` rounds, and also for a backend that declares none of the
seven strategies (`qFatal` ends the program). -/
def waitForNextBuffer (fuel : Nat) (d : AudioOutputPrivate) : Option (Bool × AudioOutputPrivate) :=
  match d.backend with
  | none => some (false, d)
  | some b =>
    let f := b.bufferControl
    if f.Blocking then some (retire d 1)
    else if f.CountCallback then some (retire d 1)
    else if f.BytesCallback then
      let d1 := d.timerRestart.2
      let processed := d1.processed_remain
      let d2 := { d1 with processed_remain := b.query.1, backend := some b.query.2 }
      if d2.processed_remain < 0 then some (false, d2)
      else
        let next := d2.frame_infos.front.data_size
        match bytesCallbackLoop processed next fuel 0 b.query.2 d2 with
        | none => none
        | some (false, d3) => some (false, d3)
        | some (true, d3) =>
          let processed1 := d3.processed_remain - processed
          some (retire { d3 with processed_remain := d3.processed_remain - (d3.data.length : Int) }
            (-processed1))
    else if f.PlayedBytes then
      let d1 := { d with processed_remain := b.query.1, backend := some b.query.2 }
      let next := d1.frame_infos.front.data_size
      match playedBytesLoop next fuel b.query.2 d1 with
      | none => none
      | some d2 => some (retire d2 (-d2.processed_remain))
    else if f.PlayedCount then
      let d1 := match d.timer with
        | none => { d with timer := some d.env.now }
        | some _ => d
      match playedCountLoop fuel b.query.1 0 b.query.2 { d1 with backend := some b.query.2 } with
      | none => none
      | some (c, d2) => some (retire d2 c)
    else if f.OffsetBytes then
      let s := b.query.1
      let processed := s - d.play_pos
      let processed1 := if processed < 0 then processed + d.bufferSizeTotal else processed
      let d1 := { d with play_pos := s, backend := some b.query.2 }
      let next := d1.frame_infos.front.data_size
      match offsetBytesLoop next fuel processed1 (d1.processed_remain + processed1) b.query.2 d1 with
      | none => none
      | some (processed2, d2) =>
        some (retire { d2 with
          processed_remain := d2.processed_remain + processed2 - (d2.data.length : Int) }
          (-processed2))
    else if f.OffsetIndex then
      let n := b.query.1
      let processed := n - d.play_pos
      let processed1 := if processed < 0 then processed + bufferCount d else processed
      match offsetIndexLoop fuel processed1 b.query.2
          { d with play_pos := n, backend := some b.query.2 } with
      | none => none
      | some (processed2, d1) => some (retire d1 processed2)
    else none

/-! ## The write path -/

/-- The method `AudioOutput::receiveData(data, pts)`. The result is `none` when the call
does not return (see `prepareData` and `waitForNextBuffer`). -/
def receiveData (fuel : Nat) (d : AudioOutputPrivate) (data : QByteArray) (pts : ℚ) :
    Option (Bool × AudioOutputPrivate) :=
  if d.paused then some (false, d)
  else
    match prepareData d data with
    | none => none
    | some buf =>
      match waitForNextBuffer fuel { d with data := buf } with
      | none => none
      | some (false, d1) => some (false, d1.resetStatus)
      | some (true, d1) =>
        let d2 := { d1 with
          frame_infos := d1.frame_infos.push_back { timestamp := pts, data_size := (data.length : Int) } }
        match d2.backend with
        | none => some (false, d2)
        | some b =>
          if !isOpen d2 then some (false, d2)
          else some ((b.write d2.data).1, { d2 with backend := some (b.write d2.data).2 })

/-- The method `AudioOutput::setAudioFormat(format)`. -/
def setAudioFormat (d : AudioOutputPrivate) (format : AudioFormat) : AudioOutputPrivate :=
  if d.format = format then d
  else { d.updateSampleScaleFunc with format := format }

/-! ## Volume, mute, open, close and backend selection -/

/-- Modelled from the spec: the feature flag `AudioOutput::SetVolume` (the enum
`DeviceFeature` of QtAV/AudioOutput.h is not part of the sources), as a bit mask. -/
def SetVolume : Nat := 1

/-- Modelled from the spec: the feature flag `AudioOutput::SetMute`, as a bit mask. -/
def SetMute : Nat := 2

/-- The method `AudioOutputPrivate::tryVolume(value)`. The result is `none` when
`backend->setVolume` is called through a null `backend`. -/
def tryVolume (d : AudioOutputPrivate) (value : ℚ) : Option AudioOutputPrivate :=
  if !d.available then some d
  else if d.features &&& SetVolume ≠ 0 then
    match d.backend with
    | none => none
    | some b =>
      if !(b.setVolume value).1 then
        some { d with sw_volume := true, backend := some ((b.setVolume value).2.setVolume 1).2 }
      else some { d with sw_volume := false, backend := some (b.setVolume value).2 }
  else some { d with sw_volume := true }

/-- The method `AudioOutputPrivate::tryMute(value)`. -/
def tryMute (d : AudioOutputPrivate) (value : Bool) : AudioOutputPrivate :=
  if !d.available then d
  else
    match d.backend with
    | some b =>
      if d.features &&& SetMute ≠ 0 then
        { d with sw_mute := !(b.setMute value).1, backend := some (b.setMute value).2 }
      else { d with sw_mute := true }
    | none => { d with sw_mute := true }

/-- The method `AudioOutput::setVolume(value)`. -/
def setVolume (d : AudioOutputPrivate) (value : ℚ) : Option AudioOutputPrivate :=
  if value < 0 then some d
  else if d.vol = value then some d
  else tryVolume ({ d with vol := value } : AudioOutputPrivate).updateSampleScaleFunc value

/-- The method `AudioOutput::setMute(value)`. -/
def setMute (d : AudioOutputPrivate) (value : Bool) : AudioOutputPrivate :=
  if d.mute = value then d
  else tryMute { d with mute := value } value

/-- The slot `AudioOutput::reportVolume(value)`:
`if (qFuzzyCompare(value + 1.0, volume() + 1.0)) return;`, the two sums in double
arithmetic. -/
def reportVolume (d : AudioOutputPrivate) (value : ℚ) : AudioOutputPrivate :=
  if qFuzzyCompare (roundDouble (value + 1)) (roundDouble (volume d + 1)) then d
  else { d with vol := value, sw_volume := false }

/-- The slot `AudioOutput::reportMute(value)`. -/
def reportMute (d : AudioOutputPrivate) (value : Bool) : AudioOutputPrivate :=
  if value = isMute d then d
  else { d with mute := value, sw_mute := false }

/-- The method `AudioOutput::timestamp()`: `d.frame_infos.front().timestamp`. -/
def timestamp (d : AudioOutputPrivate) : ℚ := d.frame_infos.front.timestamp

/-- The method `AudioOutput::bufferSize()`. -/
def bufferSize (d : AudioOutputPrivate) : Int := d.buffer_size

/-- The loop of `playInitialData`, `count` rounds of
`backend->write(buf); frame_infos.push_back(e);`. -/
def playInitialLoop (buf : QByteArray) (e : FrameInfo) :
    Nat → AudioOutputBackend → ring → AudioOutputBackend × ring
  | 0, b, r => (b, r)
  | count + 1, b, r => playInitialLoop buf e count (b.write buf).2 (r.push_back e)

/-- The silence byte of `playInitialData`: 0x80 for the unsigned-8 encodings, else 0. -/
def initialByte (f : AudioFormat) : Nat :=
  if f.sampleFormat = SampleFormat_Unsigned8 ∨ f.sampleFormat = SampleFormat_Unsigned8Planar
  then 0x80 else 0

/-- The method `AudioOutputPrivate::playInitialData()`. `QByteArray(buffer_size, c)` is
empty for a size that is not positive. -/
def playInitialData (d : AudioOutputPrivate) : AudioOutputPrivate :=
  match d.backend with
  | none => d
  | some b =>
    { d with
      backend := some (playInitialLoop (List.replicate d.buffer_size.toNat (initialByte d.format))
        { timestamp := 0, data_size := d.buffer_size } d.nb_buffers b d.frame_infos).1.play.2
      frame_infos := (playInitialLoop (List.replicate d.buffer_size.toNat (initialByte d.format))
        { timestamp := 0, data_size := d.buffer_size } d.nb_buffers b d.frame_infos).2 }

/-- The method `AudioOutput::open()` (`open` is a keyword of Lean). The back pointer
`backend->audio` is not modelled. -/
def openOutput (d : AudioOutputPrivate) : Option (Bool × AudioOutputPrivate) :=
  match (({ d with available := false } : AudioOutputPrivate).resetStatus).backend with
  | none => some (false, ({ d with available := false } : AudioOutputPrivate).resetStatus)
  | some b =>
    if !({ b with buffer_size := bufferSize d, buffer_count := bufferCount d,
                  format := d.format } : AudioOutputBackend).openDevice.1 then
      some (false, { ({ d with available := false } : AudioOutputPrivate).resetStatus with
        backend := some ({ b with buffer_size := bufferSize d, buffer_count := bufferCount d,
                                  format := d.format } : AudioOutputBackend).openDevice.2 })
    else
      match tryVolume { ({ d with available := false } : AudioOutputPrivate).resetStatus with
          backend := some ({ b with buffer_size := bufferSize d, buffer_count := bufferCount d,
                                    format := d.format } : AudioOutputBackend).openDevice.2
          available := true } (volume d) with
      | none => none
      | some d3 => some (true, playInitialData (tryMute d3 (isMute d3)))

/-- The method `AudioOutput::close()`. -/
def close (d : AudioOutputPrivate) : Bool × AudioOutputPrivate :=
  match (({ d with available := false } : AudioOutputPrivate).resetStatus).backend with
  | none => (false, ({ d with available := false } : AudioOutputPrivate).resetStatus)
  | some b =>
    (b.close.1, { ({ d with available := false } : AudioOutputPrivate).resetStatus with
      backend := some b.close.2 })

/-- The method `AudioOutput::supportedDeviceFeatures()`. -/
def supportedDeviceFeatures (d : AudioOutputPrivate) : Nat :=
  match d.backend with
  | none => 0
  | some b => b.supportedFeatures

/-- The method `AudioOutput::setDeviceFeatures(value)`. -/
def setDeviceFeatures (d : AudioOutputPrivate) (value : Nat) : AudioOutputPrivate :=
  if d.features = value &&& supportedDeviceFeatures d then d
  else { d with features := value &&& supportedDeviceFeatures d }

/-- The `foreach` of `setBackends`: the backend bound after probing the names in order.
`create` is the factory `AudioOutputBackend::create`, which is not part of the sources: it
gives the backend created for a name, or nothing when creation fails. -/
def probeBackends (create : String → Option AudioOutputBackend) :
    List String → Option AudioOutputBackend
  | [] => none
  | name :: rest =>
    match create name with
    | none => probeBackends create rest
    | some b => if b.available then some b else probeBackends create rest

/-- The method `AudioOutput::setBackends(backendNames)`. The previous backend is closed
and deleted; the signal connections and the emitted signal are not modelled. -/
def setBackends (create : String → Option AudioOutputBackend) (d : AudioOutputPrivate)
    (backendNames : List String) : AudioOutputPrivate :=
  if d.backends = backendNames then d
  else
    match probeBackends create backendNames with
    | some b =>
      setDeviceFeatures { d with update_backend := false, backends := backendNames, backend := some b }
        b.supportedFeatures
    | none => { d with update_backend := false, backends := backendNames, backend := none }

/-! ## The OpenSL backend (AudioOutputOpenSL.cpp) -/

/-- The call `QByteArray::resize(size)`: the first bytes are kept, a size that is not
positive empties the array. Qt leaves the added bytes uninitialised; they read as 0
here. -/
def resize (q : QByteArray) (size : Int) : QByteArray :=
  q.take size.toNat ++ List.replicate (size.toNat - q.length) 0

/-- The call `memcpy(q.constData() + offset, data.constData(), data.size())` on a
destination range that lies inside `q`. -/
def memcpy (q : QByteArray) (offset : Nat) (data : QByteArray) : QByteArray :=
  q.take offset ++ data ++ q.drop (offset + data.length)

/-- The part of the state of `AudioOutputOpenSL` that `open`, `close` and `write` use.
The driver is an oracle: `setupResult k` tells whether the player set-up of the `k`-th
`open()` succeeds, `enqueueResult k` whether the `k`-th `Enqueue` call succeeds. `copies`
and `enqueued` record the range (offset into `queue_data`, size) of every `memcpy` and
of every successful `Enqueue`, oldest first. -/
structure AudioOutputOpenSL where
  buffer_size : Int
  buffer_count : Int
  queue_data : QByteArray
  queue_data_write : Int
  buffers_queued : Nat
  setupResult : Nat → Bool
  enqueueResult : Nat → Bool
  opens : Nat
  enqueueCalls : Nat
  copies : List (Int × Int)
  enqueued : List (Int × Int)

namespace AudioOutputOpenSL

/-- The method `AudioOutputOpenSL::open()` (`open` is a keyword of Lean):
`queue_data.resize(buffer_size*buffer_count)` first, then the set-up of the player, which
returns false at the first driver call that fails. The semaphore is not modelled. -/
def openDevice (o : AudioOutputOpenSL) : Bool × AudioOutputOpenSL :=
  (o.setupResult o.opens,
    { o with
      queue_data := resize o.queue_data (o.buffer_size * o.buffer_count)
      opens := o.opens + 1 })

/-- The method `AudioOutputOpenSL::close()`: `queue_data.clear(); queue_data_write = 0;
return true`. -/
def close (o : AudioOutputOpenSL) : Bool × AudioOutputOpenSL :=
  (true, { o with queue_data := [], queue_data_write := 0 })

/-- The method `AudioOutputOpenSL::write(data)`, taken after `sem.acquire()` has returned.
The result is `none` where the `memcpy` has no defined behaviour: its destination range
does not lie inside `queue_data`. A failing `Enqueue` returns false before the queue count
and the write offset are advanced. -/
def write (o : AudioOutputOpenSL) (data : QByteArray) : Option (Bool × AudioOutputOpenSL) :=
  let s := min ((o.queue_data.length : Int) - o.queue_data_write) (data.length : Int)
  let w := if s < (data.length : Int) then 0 else o.queue_data_write
  if w < 0 ∨ (o.queue_data.length : Int) < w + (data.length : Int) then none
  else
    let o1 := { o with
      queue_data_write := w
      queue_data := memcpy o.queue_data w.toNat data
      copies := o.copies ++ [(w, (data.length : Int))]
      enqueueCalls := o.enqueueCalls + 1 }
    if !o.enqueueResult o.enqueueCalls then some (false, o1)
    else
      some (true, { o1 with
        buffers_queued := (o.buffers_queued + 1) % 4294967296
        enqueued := o.enqueued ++ [(w, (data.length : Int))]
        queue_data_write :=
          if w + (data.length : Int) = (o1.queue_data.length : Int) then 0
          else w + (data.length : Int) })

/-- A sequence of `write` calls, the returned values dropped. -/
def writes : AudioOutputOpenSL → List QByteArray → Option AudioOutputOpenSL
  | o, [] => some o
  | o, data :: rest =>
    match o.write data with
    | none => none
    | some r => writes r.2 rest

end AudioOutputOpenSL

/-! ## Observations used in the statements -/

/-- The buffers handed to `write` so far by the bound backend (none without a backend). -/
def writtenOf (d : AudioOutputPrivate) : List QByteArray :=
  match d.backend with
  | some b => b.written
  | none => []

/-- What the wait step never touches: the `paused` and `available` flags, the prepared
buffer, the buffer count, and the backend's record of writes and its answers to them. -/
def Frame (d d1 : AudioOutputPrivate) : Prop :=
  d1.paused = d.paused ∧ d1.available = d.available ∧ d1.data = d.data ∧
  d1.nb_buffers = d.nb_buffers ∧
  d1.backend.map AudioOutputBackend.written = d.backend.map AudioOutputBackend.written ∧
  d1.backend.map AudioOutputBackend.writeResult = d.backend.map AudioOutputBackend.writeResult

/-- Sum of squared distances of the samples from the silence value. -/
def sumSq (silence : Int) (l : List Int) : Int :=
  (l.map (fun x => (x - silence) ^ 2)).sum

/-! ## Concrete engines used as examples -/

/-- A clock that lets 10 ms pass during every wait, with identity float products. -/
def demoEnv : Env :=
  { passes := fun _ => 10
    now := 0
    sleeps := []
    mulFloat := fun _ x => x
    mulDouble := fun _ x => x }

/-- Signed-16 stereo at 48 kHz. -/
def stereo16 : AudioFormat :=
  { sample_format := SampleFormat_Signed16, channel_layout := 3, channels := 2, sample_rate := 48000 }

/-- Unsigned-8 mono at 8 kHz. -/
def mono8 : AudioFormat :=
  { sample_format := SampleFormat_Unsigned8, channel_layout := 1, channels := 1, sample_rate := 8000 }

/-- No strategy bit set. -/
def noControl : BufferControl :=
  { Blocking := false, CountCallback := false, BytesCallback := false, PlayedBytes := false,
    PlayedCount := false, OffsetBytes := false, OffsetIndex := false }

/-- A fake backend with the given strategy whose every reading is `r`, whose `open`,
`close`, `play` and `write` succeed and whose `setVolume` and `setMute` fail. -/
def fakeBackend (ctl : BufferControl) (r : Int) : AudioOutputBackend :=
  { name := "fake"
    available := true
    bufferControl := ctl
    supportedFeatures := 0
    readings := fun _ => r
    writeResult := fun _ => true
    queries := 0
    written := []
    openResult := fun _ => true
    closeResult := fun _ => true
    playResult := fun _ => true
    setVolumeResult := fun _ => false
    setMuteResult := fun _ => false
    opens := 0
    closes := 0
    plays := 0
    volumeCalls := []
    muteCalls := []
    opened := false
    buffer_size := 0
    buffer_count := 0
    format := stereo16 }

/-- An open engine on signed-16 stereo with two buffers of four bytes, gain 1, not muted,
bound to the backend `b`, holding the ledger `entries`. -/
def demoEngine (b : Option AudioOutputBackend) (entries : List FrameInfo) : AudioOutputPrivate :=
  { paused := false
    available := true
    mute := false
    sw_volume := true
    sw_mute := true
    volume_i := 256
    vol := 1
    speed := 1
    format := stereo16
    data := []
    nb_buffers := 2
    buffer_size := 4
    features := 0
    play_pos := 0
    processed_remain := 0
    msecs_ahead := 0
    timer := none
    scale_samples := none
    backend := b
    update_backend := false
    backends := []
    index_enqueue := -1
    index_deuqueue := -1
    frame_infos := { capacity := 2, entries := entries }
    env := demoEnv }

/-- An `OffsetBytes` engine whose ledger is full: two buffers of four bytes are pending,
the play cursor was last seen at byte 6 and has wrapped to 0, two bytes of room are left
over from the previous write. -/
def fullLedgerEngine : AudioOutputPrivate :=
  { demoEngine (some (fakeBackend { noControl with OffsetBytes := true } 0))
      [{ timestamp := 0, data_size := 4 }, { timestamp := 1, data_size := 4 }] with
    play_pos := 6
    processed_remain := 2 }

/-- A `Blocking` engine with one pending entry. -/
def blockingEngine : AudioOutputPrivate :=
  demoEngine (some (fakeBackend { noControl with Blocking := true } 0))
    [{ timestamp := 0, data_size := 4 }]

/-- A `PlayedBytes` engine with two pending entries whose backend reports 4 played bytes
at every query. -/
def playedBytesEngine : AudioOutputPrivate :=
  demoEngine (some (fakeBackend { noControl with PlayedBytes := true } 4))
    [{ timestamp := 0, data_size := 4 }, { timestamp := 1, data_size := 4 }]

/-- A `PlayedBytes` engine with one pending four-byte entry whose backend reports zero
played bytes at every query. -/
def stalledPlayedBytes : AudioOutputPrivate :=
  demoEngine (some (fakeBackend { noControl with PlayedBytes := true } 0))
    [{ timestamp := 0, data_size := 4 }]

/-- A `PlayedCount` engine with one pending four-byte entry whose backend reports zero
played buffers at every query. -/
def stalledPlayedCount : AudioOutputPrivate :=
  demoEngine (some (fakeBackend { noControl with PlayedCount := true } 0))
    [{ timestamp := 0, data_size := 4 }]

/-- An `OffsetBytes` engine with one pending four-byte entry and a four-byte chunk to
write, whose backend reports the play cursor at byte 0, where it was last seen, at every
query. -/
def stalledOffsetBytes : AudioOutputPrivate :=
  { demoEngine (some (fakeBackend { noControl with OffsetBytes := true } 0))
      [{ timestamp := 0, data_size := 4 }] with
    data := [1, 2, 3, 4] }

/-- An `OffsetIndex` engine with one pending four-byte entry whose backend reports the
play cursor at buffer 0, where it was last seen, at every query. -/
def stalledOffsetIndex : AudioOutputPrivate :=
  demoEngine (some (fakeBackend { noControl with OffsetIndex := true } 0))
    [{ timestamp := 0, data_size := 4 }]

/-- The silence value of a sample encoding: the bias 128 for the unsigned-8 encodings,
0 for every other encoding. It is also the value of every byte of a silent buffer. -/
def silenceValue (fmt : SampleFormat) : Nat :=
  if fmt = SampleFormat_Unsigned8 ∨ fmt = SampleFormat_Unsigned8Planar then 128 else 0

/-- No amplification: every output sample is at most as far from the silence value as
the input sample at the same place, and so the sum of squares and the RMS of the output
are at most those of the input. -/
def NoAmplify (silence : Int) (src out : List Int) : Prop :=
  List.Forall₂ (fun x y => |y - silence| ≤ |x - silence|) src out ∧
  sumSq silence out ≤ sumSq silence src ∧
  Real.sqrt ((sumSq silence out : ℝ) / (out.length : ℝ))
    ≤ Real.sqrt ((sumSq silence src : ℝ) / (src.length : ℝ))

/-- A muted engine (software mute) on unsigned-8 mono with a `Blocking` backend. -/
def mutedEngine : AudioOutputPrivate :=
  { blockingEngine with mute := true, format := mono8 }

/-- Saturation of `x` to the range `[lo, hi]`. -/
def clampTo (lo hi x : Int) : Int :=
  if x < lo then lo else if hi < x then hi else x

/-- The engine at gain 0.5 on signed-16 stereo, scaler and integer gain up to date. -/
def halfGainEngine : AudioOutputPrivate :=
  { blockingEngine with vol := 1 / 2, volume_i := 128, scale_samples := some .s16_small }

/-- A `BytesCallback` engine whose backend answers -1 to `getWritableBytes`. -/
def failingBytesEngine : AudioOutputPrivate :=
  demoEngine (some (fakeBackend { noControl with BytesCallback := true } (-1)))
    [{ timestamp := 0, data_size := 4 }]

/-- An engine without a backend that still holds one ledger entry and non-zero position
counters (the state `setBackends` leaves when no listed backend can be created). -/
def unboundEngine : AudioOutputPrivate :=
  { demoEngine none [{ timestamp := 0, data_size := 4 }] with
    play_pos := 3
    processed_remain := 5 }

/-- A closed engine (`isOpen()` false) bound to a `Blocking` backend, ledger empty. -/
def closedEngine : AudioOutputPrivate :=
  { demoEngine (some (fakeBackend { noControl with Blocking := true } 0)) [] with
    available := false }

/-- The `Blocking` engine, paused. -/
def pausedEngine : AudioOutputPrivate :=
  { blockingEngine with paused := true }

/-- An operation on the ledger: a push of an entry (a write) or a pop (a retirement by
the wait step). -/
inductive LedgerOp where
  | push (e : FrameInfo)
  | pop

/-- A ledger together with its history: the entries pushed so far, oldest first, the
number of entries retired by `pop_front`, and the number of entries dropped by a
`push_back` that met a full ledger. -/
structure LedgerRun where
  ledger : ring
  pushed : List FrameInfo
  retired : Nat
  dropped : Nat

/-- One ledger operation, with the history kept. A pop on an empty ledger retires
nothing. -/
def LedgerRun.step (t : LedgerRun) : LedgerOp → LedgerRun
  | .push e =>
    { ledger := t.ledger.push_back e
      pushed := t.pushed ++ [e]
      retired := t.retired
      dropped := t.dropped + (t.ledger.entries.length + 1 - t.ledger.capacity) }
  | .pop =>
    { ledger := t.ledger.pop_front
      pushed := t.pushed
      retired := if t.ledger.empty then t.retired else t.retired + 1
      dropped := t.dropped }

/-- The ledger after a sequence of operations on the empty ledger of a reset engine. -/
def runLedger (capacity : Nat) (ops : List LedgerOp) : LedgerRun :=
  ops.foldl LedgerRun.step { ledger := ring.create capacity, pushed := [], retired := 0, dropped := 0 }

/-- The history of a ledger accounts for its content: the entries are the pushed ones
without the first `retired + dropped`. -/
def LedgerRun.Consistent (t : LedgerRun) : Prop :=
  t.retired + t.dropped ≤ t.pushed.length ∧
  t.ledger.entries = t.pushed.drop (t.retired + t.dropped)

/-- The scenario engine before `open()`: buffer_size 4096, buffer_count 8, signed-16
stereo at 48 kHz, gain 1, not muted, bound to a `PlayedBytes` backend whose `k`-th
reading is `readings k`. -/
def scenarioInit (readings : Nat → Int) : AudioOutputPrivate :=
  { demoEngine
      (some { fakeBackend { noControl with PlayedBytes := true } 0 with readings := readings }) [] with
    available := false
    nb_buffers := 8
    buffer_size := 4096
    frame_infos := ring.create 8 }

/-- The scenario engine after `open()`. -/
def scenarioOpened (readings : Nat → Int) : AudioOutputPrivate :=
  ((openOutput (scenarioInit readings)).getD (false, scenarioInit readings)).2

/-- The backend of the scenario engine after `open()`. -/
def scenarioBackend (readings : Nat → Int) : AudioOutputBackend :=
  (scenarioOpened readings).backend.getD (fakeBackend noControl 0)

/-- A chunk of 4096 bytes. -/
def chunk4096 : QByteArray := List.replicate 4096 0

/-- Readings of a backend that reports the total of consumed bytes, 4096 more at every
tick: 4096, 8192, 12288, ... -/
def cumulativeReadings (k : Nat) : Int := 4096 * ((k : Int) + 1)

/-- The states of the scenario: an open, non-paused engine at gain 1, not muted, bound to
the `PlayedBytes` backend `b`, whose ledger of capacity 8 holds at most 8 entries, each
of 4096 bytes. -/
def PlayedBytesScenario (d : AudioOutputPrivate) (b : AudioOutputBackend) : Prop :=
  d.paused = false ∧ d.available = true ∧ d.mute = false ∧ d.vol = 1 ∧
  d.frame_infos.capacity = 8 ∧ d.frame_infos.entries.length ≤ 8 ∧
  (∀ e ∈ d.frame_infos.entries, e.data_size = 4096) ∧
  d.backend = some b ∧ b.bufferControl = { noControl with PlayedBytes := true }

/-- An open `Blocking` engine on signed-16 stereo at gain 1 whose backend declares
`SetVolume` and `SetMute`, both enabled, and fails every `setVolume` and `setMute` call. -/
def failingVolumeEngine : AudioOutputPrivate :=
  { demoEngine
      (some { fakeBackend { noControl with Blocking := true } 0 with supportedFeatures := 3 })
      [] with
    features := 3 }

/-- The `Blocking` engine on the unknown encoding at gain 0.5, software volume on, with
the null scaler `get_scaler` returns for that encoding. -/
def unknownFormatEngine : AudioOutputPrivate :=
  { blockingEngine with
    vol := 1 / 2
    volume_i := 128
    format := { stereo16 with sample_format := SampleFormat_Unknown }
    scale_samples := (get_scaler SampleFormat_Unknown (1 / 2)).1 }

/-- A backend factory: the name "null" cannot be created, "busy" gives a backend that
reports itself unavailable, every other name gives an available backend of that name. -/
def demoCreate (name : String) : Option AudioOutputBackend :=
  if name = "null" then none
  else if name = "busy" then
    some { fakeBackend noControl 0 with name := name, available := false }
  else some { fakeBackend noControl 0 with name := name }

/-- Every strategy bit set. -/
def allControl : BufferControl :=
  { Blocking := true, CountCallback := true, BytesCallback := true, PlayedBytes := true,
    PlayedCount := true, OffsetBytes := true, OffsetIndex := true }

/-- An engine with two pending entries whose backend declares every strategy but
`Blocking` and answers -1 to every query. -/
def countCallbackEngine : AudioOutputPrivate :=
  demoEngine (some (fakeBackend { allControl with Blocking := false } (-1)))
    [{ timestamp := 0, data_size := 4 }, { timestamp := 1, data_size := 4 }]

/-- A clock that lets 1001 ms pass during every wait. -/
def slowEnv : Env := { demoEnv with passes := fun _ => 1001 }

/-- A `BytesCallback` backend whose first `getWritableBytes` reading is 0 and whose every
later reading is 8. -/
def growingBytesBackend : AudioOutputBackend :=
  { fakeBackend { noControl with BytesCallback := true } 0 with
    readings := fun k => if k = 0 then 0 else 8 }

/-- A `BytesCallback` engine with one pending four-byte entry and a four-byte chunk to
write, on the backend whose reading grows from 0 to 8, with the clock that lets 10 ms
pass during a wait. -/
def bytesOnTimeEngine : AudioOutputPrivate :=
  { demoEngine (some growingBytesBackend) [{ timestamp := 0, data_size := 4 }] with
    data := [1, 2, 3, 4] }

/-- The same engine with the clock that lets 1001 ms pass during a wait. -/
def lateWakeEngine : AudioOutputPrivate :=
  { bytesOnTimeEngine with env := slowEnv }

/-- The wrapped distance of the specification from the cursor reading `prev` to the
reading `new` in a buffer of `span` bytes: `new - prev`, plus `span` when `new < prev`. -/
def wrappedDistance (span prev new : Int) : Int :=
  if new < prev then new - prev + span else new - prev

/-- The sum of the wrapped distances over the consecutive pairs of the sequence that
starts with `prev` and goes on with the listed readings. -/
def wrappedSum (span : Int) : Int → List Int → Int
  | _, [] => 0
  | prev, s :: rest => wrappedDistance span prev s + wrappedSum span s rest

/-- The readings the backend gives to its next `n` queries, in order. -/
def nextReadings (b : AudioOutputBackend) : Nat → List Int
  | 0 => []
  | n + 1 => b.readings b.queries :: nextReadings b.query.2 n

/-- An `OffsetBytes` engine with two pending four-byte entries and a four-byte chunk to
write, in a buffer of 2 x 4 bytes with the cursor last seen at byte 0, whose backend
reports the cursor at 3, then at 1 (after a wrap), then at 5. -/
def wrappingCursorEngine : AudioOutputPrivate :=
  { demoEngine
      (some { fakeBackend { noControl with OffsetBytes := true } 0 with
        readings := fun k => if k = 0 then 3 else if k = 1 then 1 else 5 })
      [{ timestamp := 0, data_size := 4 }, { timestamp := 1, data_size := 4 }] with
    data := [1, 2, 3, 4] }

/-- The OpenSL backend as constructed (`buffers_queued(0)`, `queue_data_write(0)`, empty
`queue_data`), with the given buffer size and count and a driver that accepts every
call. -/
def freshOpenSL (buffer_size buffer_count : Int) : AudioOutputOpenSL :=
  { buffer_size := buffer_size
    buffer_count := buffer_count
    queue_data := []
    queue_data_write := 0
    buffers_queued := 0
    setupResult := fun _ => true
    enqueueResult := fun _ => true
    opens := 0
    enqueueCalls := 0
    copies := []
    enqueued := [] }

/-- Two byte ranges (offset, size) have a byte in common. -/
def rangesMeet (a c : Int × Int) : Prop :=
  a.1 < c.1 + c.2 ∧ c.1 < a.1 + a.2

/-- The ranges of the `buffer_count - 1` most recently enqueued chunks, newest first. -/
def recentlyEnqueued (o : AudioOutputOpenSL) : List (Int × Int) :=
  o.enqueued.reverse.take (o.buffer_count.toNat - 1)

/-- The engine state the constructor of `AudioOutputPrivate` leaves (before the
constructor of `AudioOutput` calls `setBackends`): closed, no backend bound, 8 buffers of
4096 bytes, gain 1. The clock and the format descriptor, whose default values are not in
the sources, are parameters. -/
def constructed (env : Env) (format : AudioFormat) : AudioOutputPrivate :=
  { paused := false
    available := false
    mute := false
    sw_volume := true
    sw_mute := true
    volume_i := 256
    vol := 1
    speed := 1
    format := format
    data := []
    nb_buffers := 8
    buffer_size := 4096
    features := 0
    play_pos := 0
    processed_remain := 0
    msecs_ahead := 0
    timer := none
    scale_samples := none
    backend := none
    update_backend := true
    backends := []
    index_enqueue := -1
    index_deuqueue := -1
    frame_infos := ring.create 8
    env := env }

/-- A call on the engine: `open()`, `close()`, `setBackends(names)` or
`receiveData(data, pts)`. -/
inductive Call where
  | doOpen
  | doClose
  | doSetBackends (names : List String)
  | doReceiveData (data : QByteArray) (pts : ℚ)

/-- The state after a call (`none` when the call does not return). -/
def applyCall (create : String → Option AudioOutputBackend) (fuel : Nat)
    (d : AudioOutputPrivate) : Call → Option AudioOutputPrivate
  | .doOpen => (openOutput d).map (fun r => r.2)
  | .doClose => some (close d).2
  | .doSetBackends names => some (setBackends create d names)
  | .doReceiveData data pts => (receiveData fuel d data pts).map (fun r => r.2)

/-- The state after a sequence of calls. -/
def runCalls (create : String → Option AudioOutputBackend) (fuel : Nat) :
    AudioOutputPrivate → List Call → Option AudioOutputPrivate
  | d, [] => some d
  | d, c :: rest => (applyCall create fuel d c).bind (fun d1 => runCalls create fuel d1 rest)

/-- The property of C28: an engine that reports itself open has a backend bound, and the
last `open()` of that backend succeeded and it has not been closed since. -/
def OpenMeansDeviceOpen (d : AudioOutputPrivate) : Prop :=
  isOpen d = true → ∃ b, d.backend = some b ∧ b.opened = true

/-- A factory whose one backend, "OpenSL", declares the `SetVolume` and `SetMute`
features; it creates nothing for any other name. -/
def hardwareCreate (name : String) : Option AudioOutputBackend :=
  if name = "OpenSL" then
    some { fakeBackend noControl 0 with name := name, supportedFeatures := 3 }
  else none

/-! ## Lemmas on double rounding -/

theorem truncToInt_floor (x : ℚ) (h : 0 ≤ x) : truncToInt x = ⌊x⌋ := by
  unfold truncToInt
  rw [Rat.floor_def]
  exact Int.tdiv_eq_ediv (Rat.num_nonneg.mpr h) (by exact_mod_cast Nat.zero_le _)

theorem roundHalfEven_intCast (n : Int) : roundHalfEven (n : ℚ) = n := by
  simp [roundHalfEven]

theorem roundHalfEven_cases (t : ℚ) : roundHalfEven t = ⌊t⌋ ∧ Int.fract t ≤ 1 / 2 ∨
    roundHalfEven t = ⌊t⌋ + 1 ∧ 1 / 2 ≤ Int.fract t := by
  unfold roundHalfEven
  split_ifs with h1 h2 h3
  · exact Or.inl ⟨rfl, h1.le⟩
  · exact Or.inr ⟨rfl, h2.le⟩
  · exact Or.inl ⟨rfl, not_lt.mp h2⟩
  · exact Or.inr ⟨rfl, not_lt.mp h1⟩

theorem roundHalfEven_err (t : ℚ) : |(roundHalfEven t : ℚ) - t| ≤ 1 / 2 := by
  have hf := Int.self_sub_floor t
  have h0 := Int.fract_nonneg t
  have h1 := Int.fract_lt_one t
  rw [abs_le]
  rcases roundHalfEven_cases t with ⟨h, hh⟩ | ⟨h, hh⟩ <;> rw [h] <;> push_cast <;>
    constructor <;> linarith

theorem le_roundHalfEven (t : ℚ) (n : Int) (h : (n : ℚ) ≤ t) : n ≤ roundHalfEven t := by
  have : n ≤ ⌊t⌋ := Int.le_floor.mpr h
  rcases roundHalfEven_cases t with ⟨h, _⟩ | ⟨h, _⟩ <;> rw [h] <;> omega

theorem roundHalfEven_le (t : ℚ) (n : Int) (h : t ≤ (n : ℚ)) : roundHalfEven t ≤ n := by
  by_cases ht : t = n
  · rw [ht, roundHalfEven_intCast]
  · have hlt : t < n := lt_of_le_of_ne h ht
    have : ⌊t⌋ < n := Int.floor_lt.mpr hlt
    rcases roundHalfEven_cases t with ⟨h, _⟩ | ⟨h, _⟩ <;> rw [h] <;> omega

theorem doubleUlp_pos (x : ℚ) : 0 < doubleUlp x := by
  unfold doubleUlp
  positivity

/-- The rounding error is at most half the spacing. -/
theorem roundDouble_err_ulp (x : ℚ) : |roundDouble x - x| ≤ doubleUlp x / 2 := by
  have hu := doubleUlp_pos x
  have h := roundHalfEven_err (x / doubleUlp x)
  have : roundDouble x - x = ((roundHalfEven (x / doubleUlp x) : ℚ) - x / doubleUlp x) * doubleUlp x := by
    unfold roundDouble
    field_simp
  rw [this, abs_mul, abs_of_pos hu]
  calc _ ≤ 1 / 2 * doubleUlp x := mul_le_mul_of_nonneg_right h hu.le
    _ = _ := by ring

theorem doubleExponent_cases (x : ℚ) :
    doubleExponent x = -1022 ∨ (x ≠ 0 ∧ doubleExponent x = Int.log 2 |x|) := by
  unfold doubleExponent
  split_ifs with h0
  · exact Or.inl rfl
  · rcases le_total (Int.log 2 |x|) (-1022) with h | h
    · exact Or.inl (max_eq_right h)
    · exact Or.inr ⟨h0, max_eq_left h⟩

theorem zpow_two_sub (e : Int) : (2 : ℚ) ^ (e - 52) = 2 ^ e / 2 ^ 52 := by
  rw [zpow_sub₀ (by norm_num)]
  norm_cast

theorem doubleUlp_le (x : ℚ) : doubleUlp x ≤ |x| / 2 ^ 52 + 1 / 2 ^ 1074 := by
  unfold doubleUlp
  rcases doubleExponent_cases x with h | ⟨h0, h⟩
  · rw [h]
    have : (2 : ℚ) ^ ((-1022 : Int) - 52) = 1 / 2 ^ 1074 := by
      rw [show ((-1022 : Int) - 52) = -((1074 : Nat) : Int) by norm_num, zpow_neg, zpow_natCast]
      simp
    rw [this]
    have : 0 ≤ |x| / 2 ^ 52 := by positivity
    linarith
  · rw [h]
    have hx : 0 < |x| := abs_pos.mpr h0
    have h1 := Int.zpow_log_le_self (b := 2) (by norm_num) hx
    rw [zpow_two_sub]
    have : (0 : ℚ) ≤ 1 / 2 ^ 1074 := by positivity
    have h2 : (2 : ℚ) ^ Int.log 2 |x| / 2 ^ 52 ≤ |x| / 2 ^ 52 := by
      apply div_le_div_of_nonneg_right _ (by positivity)
      exact_mod_cast h1
    linarith

/-- The rounding error of a double operation: relative error at most `2^-53`, or
absolute error at most `2^-1075` in the subnormal range. -/
theorem roundDouble_err (x : ℚ) : |roundDouble x - x| ≤ |x| / 2 ^ 53 + 1 / 2 ^ 1075 := by
  have h1 := roundDouble_err_ulp x
  have h2 := doubleUlp_le x
  have e1 : |x| / 2 ^ 53 = |x| / 2 ^ 52 / 2 := by ring
  have e2 : (1 : ℚ) / 2 ^ 1075 = 1 / 2 ^ 1074 / 2 := by ring
  rw [e1, e2]
  linarith

theorem roundDouble_zero : roundDouble 0 = 0 := by
  simp [roundDouble, roundHalfEven]

/-- The exponent of a value below `2^(e+1)` is at most `e`. -/
theorem doubleExponent_le (x : ℚ) (e : Int) (h2 : |x| < 2 ^ (e + 1)) (he : -1022 ≤ e) :
    doubleExponent x ≤ e := by
  rcases doubleExponent_cases x with h | ⟨h0, h⟩
  · rw [h]; exact he
  · rw [h]
    have hx : 0 < |x| := abs_pos.mpr h0
    have := (Int.lt_zpow_iff_log_lt (b := 2) (by norm_num) hx).mp (by exact_mod_cast h2)
    omega

/-- A multiple of the spacing around `x` that is not above `x` is not above the double
nearest to `x`. -/
theorem le_roundDouble_of_grid (x : ℚ) (n : Int) (h : (n : ℚ) * doubleUlp x ≤ x) :
    (n : ℚ) * doubleUlp x ≤ roundDouble x := by
  have hu := doubleUlp_pos x
  unfold roundDouble
  apply mul_le_mul_of_nonneg_right _ hu.le
  exact_mod_cast le_roundHalfEven _ n ((le_div_iff₀ hu).mpr h)

theorem roundDouble_le_of_grid (x : ℚ) (n : Int) (h : x ≤ (n : ℚ) * doubleUlp x) :
    roundDouble x ≤ (n : ℚ) * doubleUlp x := by
  have hu := doubleUlp_pos x
  unfold roundDouble
  apply mul_le_mul_of_nonneg_right _ hu.le
  exact_mod_cast roundHalfEven_le _ n ((div_le_iff₀ hu).mpr h)

theorem roundDouble_of_grid (x : ℚ) (n : Int) (h : x = (n : ℚ) * doubleUlp x) :
    roundDouble x = x :=
  le_antisymm ((roundDouble_le_of_grid x n h.le).trans h.ge)
    (h.le.trans (le_roundDouble_of_grid x n h.ge))

/-- An integer multiple `m * 2^e` of a power of two not below the spacing around `x`
is a multiple of that spacing. -/
theorem grid_of_zpow (x : ℚ) (m e : Int) (he : doubleExponent x - 52 ≤ e) :
    ∃ n : Int, (m : ℚ) * 2 ^ e = (n : ℚ) * doubleUlp x := by
  obtain ⟨k, hk⟩ := Int.eq_ofNat_of_zero_le (sub_nonneg.mpr he)
  refine ⟨m * 2 ^ k, ?_⟩
  unfold doubleUlp
  have : e = (k : Int) + (doubleExponent x - 52) := by omega
  rw [this, zpow_add₀ (by norm_num), zpow_natCast]
  push_cast
  ring

/-- Every value `m * 2^e` with a significand below `2^53` and an exponent of at least
-1074 is a double: rounding leaves it as it is. -/
theorem roundDouble_dyadic (m e : Int) (hm : |m| < 2 ^ 53) (he : -1074 ≤ e) :
    roundDouble ((m : ℚ) * 2 ^ e) = (m : ℚ) * 2 ^ e := by
  have hle : doubleExponent ((m : ℚ) * 2 ^ e) ≤ e + 52 := by
    apply doubleExponent_le _ _ _ (by omega)
    rw [abs_mul, abs_of_pos (by positivity : (0 : ℚ) < 2 ^ e),
      show e + 52 + 1 = 53 + e by ring, zpow_add₀ (by norm_num)]
    apply mul_lt_mul_of_pos_right _ (by positivity)
    have : ((|m| : Int) : ℚ) < ((2 ^ 53 : Int) : ℚ) := by exact_mod_cast hm
    push_cast at this
    exact_mod_cast this
  obtain ⟨n, hn⟩ := grid_of_zpow ((m : ℚ) * 2 ^ e) m e (by omega)
  exact roundDouble_of_grid _ n hn

theorem roundDouble_intCast (n : Int) (h : |n| < 2 ^ 53) : roundDouble (n : ℚ) = n := by
  have := roundDouble_dyadic n 0 h (by norm_num)
  simpa using this

theorem roundDouble_nonneg (x : ℚ) (h : 0 ≤ x) : 0 ≤ roundDouble x := by
  have := le_roundDouble_of_grid x 0 (by simpa using h)
  simpa using this

theorem gain_i_of_exact (v : ℚ) (g : Int) (m1 e1 m2 e2 : Int) (h0 : 0 ≤ v)
    (hm1 : |m1| < 2 ^ 53) (he1 : -1074 ≤ e1) (hv : v * 256 = (m1 : ℚ) * 2 ^ e1)
    (hm2 : |m2| < 2 ^ 53) (he2 : -1074 ≤ e2) (hx : v * 256 + 1 / 2 = (m2 : ℚ) * 2 ^ e2)
    (hg : ⌊v * 256 + 1 / 2⌋ = g) : gain_i v = g := by
  unfold gain_i
  rw [hv, roundDouble_dyadic m1 e1 hm1 he1, ← hv, hx, roundDouble_dyadic m2 e2 hm2 he2, ← hx,
    truncToInt_floor _ (by positivity), hg]

theorem gain_i_one : gain_i 1 = 256 :=
  gain_i_of_exact 1 256 256 0 513 (-1) (by norm_num) (by norm_num) (by norm_num) (by norm_num)
    (by norm_num) (by norm_num) (by norm_num) (by
      rw [Int.floor_eq_iff]; norm_num)

theorem gain_i_half : gain_i (1 / 2) = 128 :=
  gain_i_of_exact (1 / 2) 128 128 0 257 (-1) (by norm_num) (by norm_num) (by norm_num)
    (by norm_num) (by norm_num) (by norm_num) (by norm_num) (by
      rw [Int.floor_eq_iff]; norm_num)

theorem gain_i_large : gain_i 262144 = 67108864 :=
  gain_i_of_exact 262144 67108864 67108864 0 134217729 (-1) (by norm_num) (by norm_num)
    (by norm_num) (by norm_num) (by norm_num) (by norm_num) (by norm_num) (by
      rw [Int.floor_eq_iff]; norm_num)

theorem isDouble_dyadic (m e : Int) (hm : |m| < 2 ^ 53) (he : -1074 ≤ e) (he2 : e ≤ 971) :
    isDouble ((m : ℚ) * 2 ^ e) = true := by
  unfold isDouble
  rw [decide_eq_true_eq]
  refine ⟨roundDouble_dyadic m e hm he, ?_⟩
  rw [abs_mul, abs_of_pos (by positivity : (0 : ℚ) < 2 ^ e)]
  have h1 : |(m : ℚ)| < 2 ^ 53 := by
    have : ((|m| : Int) : ℚ) < ((2 ^ 53 : Int) : ℚ) := by exact_mod_cast hm
    push_cast at this
    exact_mod_cast this
  have h2 : (2 : ℚ) ^ e ≤ 2 ^ (971 : Int) := zpow_le_zpow_right₀ (by norm_num) he2
  calc |(m : ℚ)| * 2 ^ e < 2 ^ 53 * 2 ^ (971 : Int) :=
        mul_lt_mul_of_pos_of_nonneg' h1 h2 (by positivity) (by positivity)
    _ = 2 ^ 1024 := by norm_num

theorem roundDouble_abs (x : ℚ) :
    |x| * (1 - 1 / 2 ^ 53) - 1 / 2 ^ 1075 ≤ |roundDouble x| ∧
    |roundDouble x| ≤ |x| * (1 + 1 / 2 ^ 53) + 1 / 2 ^ 1075 := by
  have h := roundDouble_err x
  have h1 := abs_sub_abs_le_abs_sub (roundDouble x) x
  have h2 := abs_sub_abs_le_abs_sub x (roundDouble x)
  rw [abs_sub_comm x] at h2
  constructor <;> linarith

/-- The double product `|p1 - p2| * 1e12` as `qFuzzyCompare` computes it, within its
rounding errors. -/
theorem fuzzy_product (p1 p2 : ℚ) :
    |p1 - p2| * 1000000000000 * (1 - 1 / 2 ^ 52) - 1 / 2 ^ 1000
      ≤ roundDouble (|roundDouble (p1 - p2)| * 1000000000000) ∧
    roundDouble (|roundDouble (p1 - p2)| * 1000000000000)
      ≤ |p1 - p2| * 1000000000000 * (1 + 1 / 2 ^ 51) + 1 / 2 ^ 1000 := by
  obtain ⟨h1, h2⟩ := roundDouble_abs (p1 - p2)
  have ht : 0 ≤ |roundDouble (p1 - p2)| * 1000000000000 := by positivity
  obtain ⟨h3, h4⟩ := roundDouble_abs (|roundDouble (p1 - p2)| * 1000000000000)
  rw [abs_of_nonneg ht, abs_of_nonneg (roundDouble_nonneg _ ht)] at h3 h4
  have hD := abs_nonneg (p1 - p2)
  have hd := abs_nonneg (roundDouble (p1 - p2))
  generalize |p1 - p2| = D at *
  generalize |roundDouble (p1 - p2)| = d at *
  generalize roundDouble (d * 1000000000000) = r at *
  have hη : (1 : ℚ) / 2 ^ 1075 * 1000000000002 ≤ 1 / 2 ^ 1000 := by norm_num
  have hη0 : (0 : ℚ) < 1 / 2 ^ 1075 := by positivity
  generalize (1 : ℚ) / 2 ^ 1075 = η at *
  generalize (1 : ℚ) / 2 ^ 1000 = ε at *
  constructor
  · nlinarith
  · nlinarith

theorem qFuzzyCompare_false_of (p1 p2 : ℚ)
    (h : min |p1| |p2| + 1 / 2 ^ 1000 < |p1 - p2| * 1000000000000 * (1 - 1 / 2 ^ 52)) :
    qFuzzyCompare p1 p2 = false := by
  have := (fuzzy_product p1 p2).1
  simp only [qFuzzyCompare, decide_eq_false_iff_not, not_le]
  linarith

theorem qFuzzyCompare_true_of (p1 p2 : ℚ)
    (h : |p1 - p2| * 1000000000000 * (1 + 1 / 2 ^ 51) + 1 / 2 ^ 1000 ≤ min |p1| |p2|) :
    qFuzzyCompare p1 p2 = true := by
  have := (fuzzy_product p1 p2).2
  simp only [qFuzzyCompare, decide_eq_true_eq]
  linarith

theorem qFuzzyCompare_self (x : ℚ) : qFuzzyCompare x x = true := by
  simp [qFuzzyCompare, roundDouble_zero]

theorem qFuzzyCompare_one : qFuzzyCompare 1 1 = true := qFuzzyCompare_self 1

/-- The comparison of two rounded values whose exact distance is at least twice the
tolerance: not fuzzy-equal. -/
theorem fuzzy_rounded_false (a b : ℚ) (hb : 1 ≤ b)
    (h : 2 * min |a| |b| ≤ |a - b| * 1000000000000) :
    qFuzzyCompare (roundDouble a) (roundDouble b) = false := by
  apply qFuzzyCompare_false_of
  obtain ⟨_, ha2⟩ := roundDouble_abs a
  obtain ⟨_, hb2⟩ := roundDouble_abs b
  have ea := roundDouble_err a
  have eb := roundDouble_err b
  have hsub : |a - b| - |roundDouble a - a| - |roundDouble b - b|
      ≤ |roundDouble a - roundDouble b| := by
    have e : a - b = (roundDouble a - roundDouble b) - (roundDouble a - a) + (roundDouble b - b) := by
      ring
    have h1 := abs_add (roundDouble a - roundDouble b - (roundDouble a - a)) (roundDouble b - b)
    have h2 := abs_sub (roundDouble a - roundDouble b) (roundDouble a - a)
    rw [← e] at h1
    linarith
  have hAB := abs_sub_abs_le_abs_sub a b
  have hBA := abs_sub_abs_le_abs_sub b a
  rw [abs_sub_comm b a] at hBA
  have hB : 1 ≤ |b| := by rw [abs_of_nonneg (by linarith)]; exact hb
  have hA0 := abs_nonneg a
  have hmin : min |roundDouble a| |roundDouble b|
      ≤ min |a| |b| * (1 + 1 / 2 ^ 53) + 1 / 2 ^ 1075 := by
    rcases le_total |a| |b| with hle | hle
    · rw [min_eq_left hle]; exact (min_le_left _ _).trans ha2
    · rw [min_eq_right hle]; exact (min_le_right _ _).trans hb2
  have hm1 := min_le_left |a| |b|
  have hm2 := min_le_right |a| |b|
  have hm3 : |a| + |b| ≤ 2 * min |a| |b| + |a - b| := by
    rcases le_total |a| |b| with hle | hle
    · rw [min_eq_left hle]; linarith
    · rw [min_eq_right hle]; linarith
  have hm0 : 0 ≤ min |a| |b| := le_min hA0 (by linarith)
  have hD : 1 / 1000000000000 ≤ |a - b| := by
    by_contra hc
    push_neg at hc
    have : (1 : ℚ) / 2 < min |a| |b| := by
      apply lt_min <;> linarith
    linarith
  generalize |roundDouble a - roundDouble b| = P at *
  generalize min |roundDouble a| |roundDouble b| = Q at *
  generalize |roundDouble a - a| = Ea at *
  generalize |roundDouble b - b| = Eb at *
  generalize |a - b| = D at *
  generalize min |a| |b| = m at *
  generalize |a| = A at *
  generalize |b| = B at *
  have hη : (1 : ℚ) / 2 ^ 1075 ≤ 1 / 2 ^ 1000 := by norm_num
  have hε : (1 : ℚ) / 2 ^ 1000 ≤ 1 / 2 ^ 100 := by norm_num
  have hη0 : (0 : ℚ) < 1 / 2 ^ 1075 := by positivity
  generalize (1 : ℚ) / 2 ^ 1075 = η at *
  generalize (1 : ℚ) / 2 ^ 1000 = ε at *
  norm_num at *
  nlinarith

/-- The comparison of two rounded values whose exact distance is at most half the
tolerance: fuzzy-equal. -/
theorem fuzzy_rounded_true (a b : ℚ) (hb : 1 ≤ b)
    (h : |a - b| * 1000000000000 * 2 ≤ min |a| |b|) :
    qFuzzyCompare (roundDouble a) (roundDouble b) = true := by
  apply qFuzzyCompare_true_of
  obtain ⟨ha1, _⟩ := roundDouble_abs a
  obtain ⟨hb1, _⟩ := roundDouble_abs b
  have ea := roundDouble_err a
  have eb := roundDouble_err b
  have hsub : |roundDouble a - roundDouble b|
      ≤ |a - b| + |roundDouble a - a| + |roundDouble b - b| := by
    have e : roundDouble a - roundDouble b = (a - b) + (roundDouble a - a) - (roundDouble b - b) := by
      ring
    have h1 := abs_sub (a - b + (roundDouble a - a)) (roundDouble b - b)
    have h2 := abs_add (a - b) (roundDouble a - a)
    rw [← e] at h1
    linarith
  have hAB := abs_sub_abs_le_abs_sub a b
  have hBA := abs_sub_abs_le_abs_sub b a
  rw [abs_sub_comm b a] at hBA
  have hB : 1 ≤ |b| := by rw [abs_of_nonneg (by linarith)]; exact hb
  have hA0 := abs_nonneg a
  have hD0 := abs_nonneg (a - b)
  have hmin : min |a| |b| * (1 - 1 / 2 ^ 53) - 1 / 2 ^ 1075
      ≤ min |roundDouble a| |roundDouble b| := by
    apply le_min
    · have := min_le_left |a| |b|
      nlinarith
    · have := min_le_right |a| |b|
      nlinarith
  have hm1 := min_le_left |a| |b|
  have hm2 := min_le_right |a| |b|
  have hm3 : |a| + |b| ≤ 2 * min |a| |b| + |a - b| := by
    rcases le_total |a| |b| with hle | hle
    · rw [min_eq_left hle]; linarith
    · rw [min_eq_right hle]; linarith
  have hmhalf : 1 / 2 ≤ min |a| |b| := by
    rcases le_total |a| |b| with hle | hle
    · rw [min_eq_left hle] at h ⊢; linarith
    · rw [min_eq_right hle] at h ⊢; linarith
  generalize |roundDouble a - roundDouble b| = P at *
  generalize min |roundDouble a| |roundDouble b| = Q at *
  generalize |roundDouble a - a| = Ea at *
  generalize |roundDouble b - b| = Eb at *
  generalize |a - b| = D at *
  generalize min |a| |b| = m at *
  generalize |a| = A at *
  generalize |b| = B at *
  have hη : (1 : ℚ) / 2 ^ 1075 ≤ 1 / 2 ^ 1000 := by norm_num
  have hε : (1 : ℚ) / 2 ^ 1000 ≤ 1 / 2 ^ 100 := by norm_num
  have hη0 : (0 : ℚ) < 1 / 2 ^ 1075 := by positivity
  generalize (1 : ℚ) / 2 ^ 1075 = η at *
  generalize (1 : ℚ) / 2 ^ 1000 = ε at *
  norm_num at *
  nlinarith

/-! ## Lemmas on the wait step -/

theorem Frame.refl (d : AudioOutputPrivate) : Frame d d := by
  simp [Frame]

theorem Frame.trans {a b c : AudioOutputPrivate} (h1 : Frame a b) (h2 : Frame b c) : Frame a c := by
  obtain ⟨p1, p2, p3, p4, p5, p6⟩ := h1
  obtain ⟨q1, q2, q3, q4, q5, q6⟩ := h2
  exact ⟨q1.trans p1, q2.trans p2, q3.trans p3, q4.trans p4, q5.trans p5, q6.trans p6⟩

theorem bytesCallbackLoop_frame (processed next : Int) :
    ∀ (fuel : Nat) (last_wait : Int) (b : AudioOutputBackend) (d : AudioOutputPrivate)
      (r : Bool) (d1 : AudioOutputPrivate),
      d.backend = some b → bytesCallbackLoop processed next fuel last_wait b d = some (r, d1) →
      Frame d d1 ∧ d1.frame_infos = d.frame_infos := by
  intro fuel
  induction fuel with
  | zero => intro last_wait b d r d1 _ h; simp [bytesCallbackLoop] at h
  | succ n ih =>
    intro last_wait b d r d1 hb h
    rw [bytesCallbackLoop] at h
    split at h
    · have hF : Frame d { d.condWait (Int.tdiv (d.format.durationForBytes
          (next - (d.processed_remain - processed))) 1000) with
          processed_remain := b.query.1, backend := some b.query.2 } := by
        simp [Frame, condWait, hb, AudioOutputBackend.query]
      simp only at h
      split at h
      · simp only [Option.some.injEq, Prod.mk.injEq] at h
        obtain ⟨_, rfl⟩ := h
        exact ⟨hF, rfl⟩
      · split at h
        · simp only [Option.some.injEq, Prod.mk.injEq] at h
          obtain ⟨_, rfl⟩ := h
          exact ⟨hF, rfl⟩
        · split at h
          · simp only [Option.some.injEq, Prod.mk.injEq] at h
            obtain ⟨_, rfl⟩ := h
            exact ⟨hF, rfl⟩
          · obtain ⟨h1, h2⟩ := ih _ _ _ _ _ rfl h
            exact ⟨hF.trans h1, h2⟩
    · simp only [Option.some.injEq, Prod.mk.injEq] at h
      obtain ⟨_, rfl⟩ := h
      exact ⟨Frame.refl _, rfl⟩

theorem playedBytesLoop_frame (next : Int) :
    ∀ (fuel : Nat) (b : AudioOutputBackend) (d d1 : AudioOutputPrivate),
      d.backend = some b → playedBytesLoop next fuel b d = some d1 →
      Frame d d1 ∧ d1.frame_infos = d.frame_infos := by
  intro fuel
  induction fuel with
  | zero => intro b d d1 _ h; simp [playedBytesLoop] at h
  | succ n ih =>
    intro b d d1 hb h
    rw [playedBytesLoop] at h
    split at h
    · obtain ⟨h1, h2⟩ := ih _ _ _ rfl h
      refine ⟨Frame.trans ?_ h1, ?_⟩
      · split <;> simp [Frame, uwait, condWait, hb, AudioOutputBackend.query]
      · rw [h2]; split <;> simp [uwait, condWait]
    · simp only [Option.some.injEq] at h
      subst h
      exact ⟨Frame.refl _, rfl⟩

theorem playedCountLoop_frame :
    ∀ (fuel : Nat) (c us : Int) (b : AudioOutputBackend) (d : AudioOutputPrivate)
      (c1 : Int) (d1 : AudioOutputPrivate),
      d.backend = some b → playedCountLoop fuel c us b d = some (c1, d1) →
      Frame d d1 ∧ d1.frame_infos = d.frame_infos := by
  intro fuel
  induction fuel with
  | zero => intro c us b d c1 d1 _ h; simp [playedCountLoop] at h
  | succ n ih =>
    intro c us b d c1 d1 hb h
    rw [playedCountLoop] at h
    split at h
    · obtain ⟨h1, h2⟩ := ih _ _ _ _ _ _ rfl h
      refine ⟨Frame.trans ?_ h1, ?_⟩
      · simp [Frame, uwait, condWait, timerRestart, hb, AudioOutputBackend.query]
      · rw [h2]; simp [uwait, condWait, timerRestart]
    · simp only [Option.some.injEq, Prod.mk.injEq] at h
      obtain ⟨_, rfl⟩ := h
      exact ⟨Frame.refl _, rfl⟩

theorem offsetBytesLoop_frame (next : Int) :
    ∀ (fuel : Nat) (processed writable_size : Int) (b : AudioOutputBackend)
      (d : AudioOutputPrivate) (p1 : Int) (d1 : AudioOutputPrivate),
      d.backend = some b → offsetBytesLoop next fuel processed writable_size b d = some (p1, d1) →
      Frame d d1 ∧ d1.frame_infos = d.frame_infos := by
  intro fuel
  induction fuel with
  | zero => intro p w b d p1 d1 _ h; simp [offsetBytesLoop] at h
  | succ n ih =>
    intro p w b d p1 d1 hb h
    rw [offsetBytesLoop] at h
    split at h
    · obtain ⟨h1, h2⟩ := ih _ _ _ _ _ _ rfl h
      refine ⟨Frame.trans ?_ h1, ?_⟩
      · simp [Frame, uwait, condWait, hb, AudioOutputBackend.query]
      · rw [h2]; simp [uwait, condWait]
    · simp only [Option.some.injEq, Prod.mk.injEq] at h
      obtain ⟨_, rfl⟩ := h
      exact ⟨Frame.refl _, rfl⟩

theorem offsetIndexLoop_frame :
    ∀ (fuel : Nat) (processed : Int) (b : AudioOutputBackend)
      (d : AudioOutputPrivate) (p1 : Int) (d1 : AudioOutputPrivate),
      d.backend = some b → offsetIndexLoop fuel processed b d = some (p1, d1) →
      Frame d d1 ∧ d1.frame_infos = d.frame_infos := by
  intro fuel
  induction fuel with
  | zero => intro p b d p1 d1 _ h; simp [offsetIndexLoop] at h
  | succ n ih =>
    intro p b d p1 d1 hb h
    rw [offsetIndexLoop] at h
    split at h
    · obtain ⟨h1, h2⟩ := ih _ _ _ _ _ rfl h
      refine ⟨Frame.trans ?_ h1, ?_⟩
      · simp [Frame, uwait, condWait, hb, AudioOutputBackend.query]
      · rw [h2]; simp [uwait, condWait]
    · simp only [Option.some.injEq, Prod.mk.injEq] at h
      obtain ⟨_, rfl⟩ := h
      exact ⟨Frame.refl _, rfl⟩

theorem retireBytes_suffix : ∀ (l : List FrameInfo) (free_bytes : Int),
    retireBytes free_bytes l <:+ l := by
  intro l
  induction l with
  | nil => intro f; simp [retireBytes]
  | cons e es ih =>
    intro f
    rw [retireBytes]
    split
    · exact (ih _).trans (List.suffix_cons e es)
    · exact List.suffix_refl _

theorem retireCount_suffix : ∀ (l : List FrameInfo) (remove : Int),
    retireCount remove l <:+ l := by
  intro l
  induction l with
  | nil => intro f; simp [retireCount]
  | cons e es ih =>
    intro f
    rw [retireCount]
    split
    · exact (ih _).trans (List.suffix_cons e es)
    · exact List.suffix_refl _

theorem retire_spec (d : AudioOutputPrivate) (remove : Int) :
    (retire d remove).1 = true ∧ Frame d (retire d remove).2 ∧
    (retire d remove).2.frame_infos.capacity = d.frame_infos.capacity ∧
    (retire d remove).2.frame_infos.entries <:+ d.frame_infos.entries := by
  unfold retire
  split
  · exact ⟨rfl, by simp [Frame], rfl, retireBytes_suffix _ _⟩
  · exact ⟨rfl, by simp [Frame], rfl, retireCount_suffix _ _⟩

/-- The wait step as a whole: whatever it returns, it leaves the frame untouched, keeps
the ring capacity, and removes ledger entries from the front only. -/
theorem waitForNextBuffer_frame (fuel : Nat) (d : AudioOutputPrivate) (r : Bool)
    (d1 : AudioOutputPrivate) (h : waitForNextBuffer fuel d = some (r, d1)) :
    Frame d d1 ∧ d1.frame_infos.capacity = d.frame_infos.capacity ∧
    d1.frame_infos.entries <:+ d.frame_infos.entries := by
  unfold waitForNextBuffer at h
  split at h
  · simp only [Option.some.injEq, Prod.mk.injEq] at h
    obtain ⟨_, rfl⟩ := h
    exact ⟨Frame.refl _, rfl, List.suffix_refl _⟩
  · rename_i b hb
    simp only at h
    split at h
    · simp only [Option.some.injEq] at h
      have := retire_spec d 1
      rw [h] at this
      exact ⟨this.2.1, this.2.2.1, this.2.2.2⟩
    · split at h
      · simp only [Option.some.injEq] at h
        have := retire_spec d 1
        rw [h] at this
        exact ⟨this.2.1, this.2.2.1, this.2.2.2⟩
      · split at h
        · -- BytesCallback
          split at h
          · simp only [Option.some.injEq, Prod.mk.injEq] at h
            obtain ⟨_, rfl⟩ := h
            exact ⟨by simp [Frame, timerRestart, hb, AudioOutputBackend.query], rfl,
              List.suffix_refl _⟩
          · have hF : Frame d { d.timerRestart.2 with
                processed_remain := b.query.1, backend := some b.query.2 } := by
              simp [Frame, timerRestart, hb, AudioOutputBackend.query]
            split at h
            · simp at h
            · rename_i d3 hl
              simp only [Option.some.injEq, Prod.mk.injEq] at h
              obtain ⟨_, rfl⟩ := h
              obtain ⟨h1, h2⟩ := bytesCallbackLoop_frame _ _ _ _ _ _ _ _ rfl hl
              exact ⟨hF.trans h1, by rw [h2]; rfl, by rw [h2]; exact List.suffix_refl _⟩
            · rename_i d3 hl
              obtain ⟨h1, h2⟩ := bytesCallbackLoop_frame _ _ _ _ _ _ _ _ rfl hl
              simp only [Option.some.injEq] at h
              have hr := retire_spec { d3 with
                processed_remain := d3.processed_remain - (d3.data.length : Int) }
                (-(d3.processed_remain - d.timerRestart.2.processed_remain))
              rw [h] at hr
              refine ⟨(hF.trans h1).trans (Frame.trans (by simp [Frame]) hr.2.1), ?_, ?_⟩
              · rw [hr.2.2.1]; simp only; rw [h2]; rfl
              · have := hr.2.2.2
                simp only at this
                rw [h2] at this
                exact this
        · split at h
          · -- PlayedBytes
            have hF : Frame d { d with processed_remain := b.query.1, backend := some b.query.2 } := by
              simp [Frame, hb, AudioOutputBackend.query]
            split at h
            · simp at h
            · rename_i d2 hl
              obtain ⟨h1, h2⟩ := playedBytesLoop_frame _ _ _ _ _ rfl hl
              simp only [Option.some.injEq] at h
              have hr := retire_spec d2 (-d2.processed_remain)
              rw [h] at hr
              refine ⟨(hF.trans h1).trans hr.2.1, ?_, ?_⟩
              · rw [hr.2.2.1, h2]
              · have := hr.2.2.2
                rw [h2] at this
                exact this
          · split at h
            · -- PlayedCount
              split at h
              · simp at h
              · rename_i c d2 hl
                obtain ⟨h1, h2⟩ := playedCountLoop_frame _ _ _ _ _ _ _ rfl hl
                simp only [Option.some.injEq] at h
                have hr := retire_spec d2 c
                rw [h] at hr
                have hF : Frame d { (match d.timer with
                    | none => { d with timer := some d.env.now }
                    | some _ => d) with backend := some b.query.2 } := by
                  cases hd : d.timer <;> simp [Frame, hb, AudioOutputBackend.query]
                have hfi : ({ (match d.timer with
                    | none => { d with timer := some d.env.now }
                    | some _ => d) with backend := some b.query.2 } : AudioOutputPrivate).frame_infos
                    = d.frame_infos := by
                  cases hd : d.timer <;> rfl
                refine ⟨(hF.trans h1).trans hr.2.1, ?_, ?_⟩
                · rw [hr.2.2.1, h2, hfi]
                · have := hr.2.2.2
                  rw [h2, hfi] at this
                  exact this
            · split at h
              · -- OffsetBytes
                split at h
                · simp at h
                · rename_i p2 d2 hl
                  obtain ⟨h1, h2⟩ := offsetBytesLoop_frame _ _ _ _ _ _ _ _ rfl hl
                  simp only [Option.some.injEq] at h
                  have hr := retire_spec { d2 with
                    processed_remain := d2.processed_remain + p2 - (d2.data.length : Int) } (-p2)
                  rw [h] at hr
                  have hF : Frame d { d with play_pos := b.query.1, backend := some b.query.2 } := by
                    simp [Frame, hb, AudioOutputBackend.query]
                  refine ⟨(hF.trans h1).trans (Frame.trans (by simp [Frame]) hr.2.1), ?_, ?_⟩
                  · rw [hr.2.2.1]; simp only; rw [h2]
                  · have := hr.2.2.2
                    simp only at this
                    rw [h2] at this
                    exact this
              · split at h
                · -- OffsetIndex
                  split at h
                  · simp at h
                  · rename_i p2 d2 hl
                    obtain ⟨h1, h2⟩ := offsetIndexLoop_frame _ _ _ _ _ _ rfl hl
                    simp only [Option.some.injEq] at h
                    have hr := retire_spec d2 p2
                    rw [h] at hr
                    have hF : Frame d { d with play_pos := b.query.1, backend := some b.query.2 } := by
                      simp [Frame, hb, AudioOutputBackend.query]
                    refine ⟨(hF.trans h1).trans hr.2.1, ?_, ?_⟩
                    · rw [hr.2.2.1, h2]
                    · have := hr.2.2.2
                      rw [h2] at this
                      exact this
                · simp at h

/-! ## Lemmas on the prepared buffer -/

theorem leBytes_length : ∀ (w x : Nat), (leBytes w x).length = w := by
  intro w
  induction w with
  | zero => intro x; rfl
  | succ n ih => intro x; simp [leBytes, ih]

theorem writeSamples_length (w : Nat) : ∀ (vals : List Int),
    (writeSamples w vals).length = w * vals.length := by
  intro vals
  induction vals with
  | nil => simp [writeSamples]
  | cons v vs ih =>
    simp only [writeSamples, List.map_cons, List.flatten_cons, List.length_append,
      leBytes_length, List.length_cons] at ih ⊢
    rw [ih]
    ring

theorem readSamples_length (w : Nat) : ∀ (n : Nat) (buf : QByteArray),
    (readSamples w n buf).length = n := by
  intro n
  induction n with
  | zero => intro buf; rfl
  | succ k ih => intro buf; simp [readSamples, ih]

theorem loadSamples_length (w : Nat) (signed : Bool) (n : Nat) (buf : QByteArray) :
    (loadSamples w signed n buf).length = n := by
  simp [loadSamples, readSamples_length]

theorem storeSamples_length (w n : Nat) (out : List Int) (buf : QByteArray)
    (ho : out.length = n) (hn : w * n ≤ buf.length) :
    (storeSamples w n out buf).length = buf.length := by
  simp only [storeSamples, List.length_append, writeSamples_length, List.length_drop, ho]
  omega

theorem applyScaler_length (env : Env) (f : scale_samples_func) (n : Nat) (v : Int) (vf : ℚ)
    (buf : QByteArray) (hn : sampleSize f * n ≤ buf.length) :
    (applyScaler env f n v vf buf).length = buf.length := by
  cases f <;>
    exact storeSamples_length _ _ _ _
      (by simp [scale_samples_u8, scale_samples_u8_small, scale_samples_s16,
        scale_samples_s16_small, scale_samples_s32, scale_samples_real, loadSamples_length]) hn

theorem fill_length (buf : QByteArray) (s : Int) : (fill buf s).length = buf.length := by
  simp [fill]

/-- The prepared buffer always has the length of the chunk. -/
theorem prepareData_length (d : AudioOutputPrivate) (data buf : QByteArray)
    (h : prepareData d data = some buf) : buf.length = data.length := by
  unfold prepareData at h
  split at h
  · simp only [Option.some.injEq] at h
    subst h
    exact fill_length _ _
  · split at h
    · split at h
      · split at h
        · simp at h
        · split at h
          · simp at h
          · simp only [Option.some.injEq] at h
            subst h
            exact applyScaler_length _ _ _ _ _ _ (by omega)
      · simp only [Option.some.injEq] at h
        subst h; rfl
    · simp only [Option.some.injEq] at h
      subst h; rfl

/-! ## The write path: ledger push and backend write -/

theorem push_back_not_full (r : ring) (t : FrameInfo) (h : r.entries.length < r.capacity) :
    (r.push_back t).entries = r.entries ++ [t] := by
  have h0 : r.entries.length + 1 - r.capacity = 0 := by omega
  simp [ring.push_back, h0]

theorem push_back_full (r : ring) (t : FrameInfo) (h : r.entries.length = r.capacity)
    (hc : 0 < r.capacity) : (r.push_back t).entries = r.entries.tail ++ [t] := by
  have h1 : r.entries.length + 1 - r.capacity = 1 := by omega
  cases he : r.entries with
  | nil => rw [he] at h; simp at h; omega
  | cons e es =>
    rw [he] at h1
    simp only [List.length_cons] at h1
    simp [ring.push_back, h1, he]

/-- What a returning `receiveData` leaves of the prepared buffer on a non-paused engine:
it is stored in `d.data`, and the backend was handed either nothing or that buffer. -/
theorem receiveData_data (fuel : Nat) (d : AudioOutputPrivate) (data buf : QByteArray) (pts : ℚ)
    (r : Bool) (d' : AudioOutputPrivate) (hp : d.paused = false)
    (hprep : prepareData d data = some buf) (h : receiveData fuel d data pts = some (r, d')) :
    d'.data = buf ∧ (writtenOf d' = writtenOf d ∨ writtenOf d' = writtenOf d ++ [buf]) := by
  unfold receiveData at h
  simp only [hp, Bool.false_eq_true, if_false, hprep] at h
  split at h
  · simp at h
  · rename_i d1 hw
    obtain ⟨hF, _, _⟩ := waitForNextBuffer_frame _ _ _ _ hw
    obtain ⟨_, _, hd, _, hwr, _⟩ := hF
    simp only [Option.some.injEq, Prod.mk.injEq] at h
    obtain ⟨_, rfl⟩ := h
    refine ⟨by simpa [resetStatus] using hd, Or.inl ?_⟩
    simp only [writtenOf, resetStatus]
    cases hb1 : d1.backend <;> cases hb : d.backend <;> simp_all
  · rename_i d1 hw
    obtain ⟨hF, _, _⟩ := waitForNextBuffer_frame _ _ _ _ hw
    obtain ⟨_, _, hd, _, hwr, _⟩ := hF
    simp only at hd hwr
    split at h
    · rename_i hb1
      simp only [Option.some.injEq, Prod.mk.injEq] at h
      obtain ⟨_, rfl⟩ := h
      refine ⟨hd, Or.inl ?_⟩
      simp only [writtenOf, hb1]
      cases hb : d.backend <;> simp_all
    · rename_i b1 hb1
      split at h
      · simp only [Option.some.injEq, Prod.mk.injEq] at h
        obtain ⟨_, rfl⟩ := h
        refine ⟨hd, Or.inl ?_⟩
        simp only [writtenOf, hb1]
        cases hb : d.backend <;> simp_all
      · simp only [Option.some.injEq, Prod.mk.injEq] at h
        obtain ⟨_, rfl⟩ := h
        refine ⟨hd, Or.inr ?_⟩
        simp only [writtenOf, AudioOutputBackend.write, hd]
        cases hb : d.backend <;> simp_all

/-! ## C1 -/

/-- C1, as stated, fails on a full ledger. On `fullLedgerEngine` (not paused, backend bound
and open) the wait step returns true and retires nothing, and the ledger after
`receiveData` is not the ledger left by the wait step with one entry appended: the oldest
entry has been dropped. -/
theorem C1_counterexample_full_ledger :
    fullLedgerEngine.paused = false ∧ fullLedgerEngine.available = true ∧
    fullLedgerEngine.backend.isSome = true ∧
    prepareData fullLedgerEngine [1, 2, 3, 4] = some [1, 2, 3, 4] ∧
    (waitForNextBuffer 1 { fullLedgerEngine with data := [1, 2, 3, 4] }).map
        (fun r => (r.1, r.2.frame_infos.entries))
      = some (true, [{ timestamp := 0, data_size := 4 }, { timestamp := 1, data_size := 4 }]) ∧
    (receiveData 1 fullLedgerEngine [1, 2, 3, 4] 2).map (fun r => r.2.frame_infos.entries)
      = some [{ timestamp := 1, data_size := 4 }, { timestamp := 2, data_size := 4 }] ∧
    ([{ timestamp := 1, data_size := 4 }, { timestamp := 2, data_size := 4 }] : List FrameInfo)
      ≠ [{ timestamp := 0, data_size := 4 }, { timestamp := 1, data_size := 4 }]
          ++ [{ timestamp := 2, data_size := 4 }] := by
  have hprep : prepareData fullLedgerEngine [1, 2, 3, 4] = some [1, 2, 3, 4] := by
    simp [prepareData, fullLedgerEngine, demoEngine, isMute, volume, qFuzzyCompare]
  refine ⟨rfl, rfl, rfl, hprep, by decide, ?_, by decide⟩
  unfold receiveData
  rw [hprep]
  decide

/-- C1 (amended): on a non-paused engine with a bound and open backend, when the wait step
returns true, `receiveData(chunk, pts)` places exactly one entry (pts, chunk byte size) at
the back of the ledger left by the wait step (appended when that ledger holds fewer
entries than its capacity; replacing the dropped oldest entry when it is full), calls the
backend's `write` exactly once, with the prepared buffer, whose length is that of the
chunk, and returns exactly the value `write` returned. -/
theorem C1_receiveData_push_and_write (fuel : Nat) (d : AudioOutputPrivate) (data : QByteArray)
    (pts : ℚ) (b : AudioOutputBackend) (buf : QByteArray) (d1 : AudioOutputPrivate)
    (hp : d.paused = false) (hb : d.backend = some b) (ho : d.available = true)
    (hprep : prepareData d data = some buf)
    (hw : waitForNextBuffer fuel { d with data := buf } = some (true, d1)) :
    buf.length = data.length ∧
    receiveData fuel d data pts =
      some (b.writeResult b.written.length,
        { d1 with
          frame_infos := d1.frame_infos.push_back { timestamp := pts, data_size := (data.length : Int) }
          backend := d1.backend.map (fun b1 => { b1 with written := b.written ++ [buf] }) }) ∧
    d1.backend.map AudioOutputBackend.written = some b.written ∧
    (d1.frame_infos.entries.length < d1.frame_infos.capacity →
      (d1.frame_infos.push_back { timestamp := pts, data_size := (data.length : Int) }).entries
        = d1.frame_infos.entries ++ [{ timestamp := pts, data_size := (data.length : Int) }]) ∧
    (d1.frame_infos.entries.length = d1.frame_infos.capacity → 0 < d1.frame_infos.capacity →
      (d1.frame_infos.push_back { timestamp := pts, data_size := (data.length : Int) }).entries
        = d1.frame_infos.entries.tail ++ [{ timestamp := pts, data_size := (data.length : Int) }]) := by
  obtain ⟨hF, _, _⟩ := waitForNextBuffer_frame _ _ _ _ hw
  obtain ⟨_, hav, hd, _, hwr, hres⟩ := hF
  simp only [hb, Option.map_some'] at hwr hres
  simp only at hav hd
  refine ⟨prepareData_length _ _ _ hprep, ?_, hwr, push_back_not_full _ _, push_back_full _ _⟩
  have hp' : ¬ (d.paused = true) := by simp [hp]
  unfold receiveData
  rw [if_neg hp']
  simp only [hprep, hw]
  cases hb1 : d1.backend with
  | none => rw [hb1] at hwr; simp at hwr
  | some b1 =>
    rw [hb1] at hwr hres
    simp only [Option.map_some', Option.some.injEq] at hwr hres
    simp [isOpen, hav, ho, AudioOutputBackend.write, hd, hwr, hres]

/-- C1 (amended), instance: the `Blocking` engine with one pending entry. -/
theorem C1_receiveData_push_and_write_witness :
    ([1, 2, 3, 4] : QByteArray).length = ([1, 2, 3, 4] : QByteArray).length ∧
    receiveData 0 blockingEngine [1, 2, 3, 4] 5 =
      some ((fakeBackend { noControl with Blocking := true } 0).writeResult
          (fakeBackend { noControl with Blocking := true } 0).written.length,
        { (retire { blockingEngine with data := [1, 2, 3, 4] } 1).2 with
          frame_infos := (retire { blockingEngine with data := [1, 2, 3, 4] } 1).2.frame_infos.push_back
            { timestamp := 5, data_size := (([1, 2, 3, 4] : QByteArray).length : Int) }
          backend := (retire { blockingEngine with data := [1, 2, 3, 4] } 1).2.backend.map
            (fun b1 => { b1 with
              written := (fakeBackend { noControl with Blocking := true } 0).written ++ [[1, 2, 3, 4]] }) }) ∧
    (retire { blockingEngine with data := [1, 2, 3, 4] } 1).2.backend.map AudioOutputBackend.written
      = some (fakeBackend { noControl with Blocking := true } 0).written ∧
    ((retire { blockingEngine with data := [1, 2, 3, 4] } 1).2.frame_infos.entries.length
        < (retire { blockingEngine with data := [1, 2, 3, 4] } 1).2.frame_infos.capacity →
      ((retire { blockingEngine with data := [1, 2, 3, 4] } 1).2.frame_infos.push_back
          { timestamp := 5, data_size := (([1, 2, 3, 4] : QByteArray).length : Int) }).entries
        = (retire { blockingEngine with data := [1, 2, 3, 4] } 1).2.frame_infos.entries
          ++ [{ timestamp := 5, data_size := (([1, 2, 3, 4] : QByteArray).length : Int) }]) ∧
    ((retire { blockingEngine with data := [1, 2, 3, 4] } 1).2.frame_infos.entries.length
        = (retire { blockingEngine with data := [1, 2, 3, 4] } 1).2.frame_infos.capacity →
      0 < (retire { blockingEngine with data := [1, 2, 3, 4] } 1).2.frame_infos.capacity →
      ((retire { blockingEngine with data := [1, 2, 3, 4] } 1).2.frame_infos.push_back
          { timestamp := 5, data_size := (([1, 2, 3, 4] : QByteArray).length : Int) }).entries
        = (retire { blockingEngine with data := [1, 2, 3, 4] } 1).2.frame_infos.entries.tail
          ++ [{ timestamp := 5, data_size := (([1, 2, 3, 4] : QByteArray).length : Int) }]) :=
  C1_receiveData_push_and_write 0 blockingEngine [1, 2, 3, 4] 5
    (fakeBackend { noControl with Blocking := true } 0) [1, 2, 3, 4]
    (retire { blockingEngine with data := [1, 2, 3, 4] } 1).2 rfl rfl rfl
    (by simp [prepareData, blockingEngine, demoEngine, isMute, volume, qFuzzyCompare]) rfl

/-! ## C2 -/

/-- C2: whenever `waitForNextBuffer` returns true, for every strategy and every sequence of
backend readings, the ledger after the call is a suffix of the ledger before it: it is the
old ledger with its first `k` entries removed, for some `k` not larger than the number of
entries present; an empty ledger stays empty. -/
theorem C2_wait_retires_from_front (fuel : Nat) (d d1 : AudioOutputPrivate)
    (h : waitForNextBuffer fuel d = some (true, d1)) :
    d1.frame_infos.entries <:+ d.frame_infos.entries ∧
    (∃ k, k ≤ d.frame_infos.entries.length ∧
      d1.frame_infos.entries = d.frame_infos.entries.drop k) ∧
    (d.frame_infos.entries = [] → d1.frame_infos.entries = []) := by
  obtain ⟨_, _, hs⟩ := waitForNextBuffer_frame _ _ _ _ h
  refine ⟨hs, ⟨d.frame_infos.entries.length - d1.frame_infos.entries.length,
    Nat.sub_le _ _, List.suffix_iff_eq_drop.mp hs⟩, ?_⟩
  intro he
  rw [he] at hs
  exact List.suffix_nil.mp hs

/-- C2, instance: the `PlayedBytes` engine with two pending entries, whose backend reports
four played bytes; the wait retires the first entry. -/
theorem C2_wait_retires_from_front_witness :
    ([{ timestamp := 1, data_size := 4 }] : List FrameInfo)
      <:+ playedBytesEngine.frame_infos.entries ∧
    (∃ k, k ≤ playedBytesEngine.frame_infos.entries.length ∧
      ([{ timestamp := 1, data_size := 4 }] : List FrameInfo)
        = playedBytesEngine.frame_infos.entries.drop k) ∧
    (playedBytesEngine.frame_infos.entries = [] →
      ([{ timestamp := 1, data_size := 4 }] : List FrameInfo) = []) :=
  C2_wait_retires_from_front 1 playedBytesEngine
    { playedBytesEngine with
      processed_remain := 4
      backend := some { fakeBackend { noControl with PlayedBytes := true } 4 with queries := 1 }
      frame_infos := { capacity := 2, entries := [{ timestamp := 1, data_size := 4 }] } }
    rfl

/-! ## C3 -/

theorem playedBytesLoop_stall (next : Int) (hn : 0 < next) :
    ∀ (fuel : Nat) (b : AudioOutputBackend) (d : AudioOutputPrivate),
      (∀ k, b.readings k = 0) → d.processed_remain = 0 → playedBytesLoop next fuel b d = none := by
  intro fuel
  induction fuel with
  | zero => intro b d _ _; rfl
  | succ n ih =>
    intro b d hr hd
    rw [playedBytesLoop, if_pos (by omega)]
    exact ih _ _ hr (by simp [AudioOutputBackend.query, hr])

theorem playedCountLoop_stall :
    ∀ (fuel : Nat) (us : Int) (b : AudioOutputBackend) (d : AudioOutputPrivate),
      (∀ k, b.readings k = 0) → playedCountLoop fuel 0 us b d = none := by
  intro fuel
  induction fuel with
  | zero => intro us b d _; rfl
  | succ n ih =>
    intro us b d hr
    rw [playedCountLoop, if_pos (by omega)]
    simp only
    have hq : b.query.1 = 0 := by simp [AudioOutputBackend.query, hr]
    rw [hq]
    exact ih _ _ _ hr

theorem offsetBytesLoop_stall (next : Int) (hn : 0 < next) :
    ∀ (fuel : Nat) (processed writable_size : Int) (b : AudioOutputBackend)
      (d : AudioOutputPrivate),
      (∀ k, b.readings k = d.play_pos) → 0 ≤ processed →
      writable_size = d.processed_remain + processed → writable_size < (d.data.length : Int) →
      offsetBytesLoop next fuel processed writable_size b d = none := by
  intro fuel
  induction fuel with
  | zero => intro p w b d _ _ _ _; rfl
  | succ n ih =>
    intro p w b d hr hp hw hlt
    rw [offsetBytesLoop, if_pos ⟨hlt, hn⟩]
    have hq : b.query.1 = d.play_pos := by simp [AudioOutputBackend.query, hr]
    have hpp : (d.uwait (d.format.durationForBytes (next - w))).play_pos = d.play_pos := rfl
    simp only [hq, hpp, sub_self, add_zero]
    rw [if_neg (by omega)]
    exact ih _ _ _ _ hr hp (by simp [uwait, condWait, hw]) (by simpa [uwait, condWait, hw] using hlt)

theorem offsetIndexLoop_stall :
    ∀ (fuel : Nat) (b : AudioOutputBackend) (d : AudioOutputPrivate),
      (∀ k, b.readings k = d.play_pos) → offsetIndexLoop fuel 0 b d = none := by
  intro fuel
  induction fuel with
  | zero => intro b d _; rfl
  | succ n ih =>
    intro b d hr
    rw [offsetIndexLoop, if_pos (by omega)]
    have hq : b.query.1 = d.play_pos := by simp [AudioOutputBackend.query, hr]
    have hpp : (d.uwait (d.format.durationForBytes d.frame_infos.front.data_size)).play_pos
        = d.play_pos := rfl
    simp only [hq, hpp, sub_self]
    rw [if_neg (by omega)]
    exact ih _ _ hr

/-- The `BytesCallback` loop does have the stall guard: with a reading that stays at `w`,
a positive front size and a clock that advances by at least 1 ms per wait, the loop
returns false as soon as more than 1000 ms have elapsed since the timer was started. -/
theorem bytesCallbackLoop_stall_fails (w next : Int) (hw : 0 ≤ w) (hn : 0 < next) :
    ∀ (n : Nat) (last_wait : Int) (b : AudioOutputBackend) (d : AudioOutputPrivate)
      (start : Int),
      d.timer = some start → (∀ k, b.readings k = w) → d.processed_remain = w →
      last_wait ≤ d.format.durationForBytes next → (∀ k, 1 ≤ d.env.passes k) →
      1000 - (d.env.now - start) < (n : Int) →
      ∃ d', bytesCallbackLoop w next (n + 1) last_wait b d = some (false, d') := by
  intro n
  induction n with
  | zero =>
    intro last_wait b d start ht hr hp hl hpass hrem
    rw [bytesCallbackLoop, if_pos (Or.inl (by omega))]
    have hq : b.query.1 = w := by simp [AudioOutputBackend.query, hr]
    have h1 := hpass d.env.sleeps.length
    simp only [hq, hp, sub_self, sub_zero]
    rw [if_neg (by omega)]
    simp only [condWait, ht]
    rw [if_pos ⟨hl, by simp only [elapsed]; push_cast at hrem; omega⟩]
    exact ⟨_, rfl⟩
  | succ m ih =>
    intro last_wait b d start ht hr hp hl hpass hrem
    rw [bytesCallbackLoop, if_pos (Or.inl (by omega))]
    have hq : b.query.1 = w := by simp [AudioOutputBackend.query, hr]
    have h1 := hpass d.env.sleeps.length
    simp only [hq, hp, sub_self, sub_zero]
    rw [if_neg (by omega)]
    simp only [condWait, ht]
    split
    · exact ⟨_, rfl⟩
    · exact ih _ _ _ start rfl hr rfl (le_refl _) hpass
        (by simp only; push_cast at hrem; omega)

/-- The `BytesCallback` branch of `waitForNextBuffer` on a stalled backend: it returns
false within 1002 rounds of its loop when every wait lets at least 1 ms pass. -/
theorem waitForNextBuffer_bytesCallback_stall (d : AudioOutputPrivate) (b : AudioOutputBackend)
    (hb : d.backend = some b) (h1 : b.bufferControl.Blocking = false)
    (h2 : b.bufferControl.CountCallback = false) (h3 : b.bufferControl.BytesCallback = true)
    (hr : ∀ k, b.readings k = d.processed_remain) (hw : 0 ≤ d.processed_remain)
    (hn : 0 < d.frame_infos.front.data_size) (hpass : ∀ k, 1 ≤ d.env.passes k) :
    ∃ d', waitForNextBuffer 1002 d = some (false, d') := by
  have hq : b.query.1 = d.processed_remain := by simp [AudioOutputBackend.query, hr]
  obtain ⟨d', hd'⟩ := bytesCallbackLoop_stall_fails d.processed_remain
    d.frame_infos.front.data_size hw hn 1001 0 b.query.2
    { d.timerRestart.2 with processed_remain := b.query.1, backend := some b.query.2 }
    d.env.now rfl (fun k => hr k) hq
    (by
      simp only [AudioFormat.durationForBytes]
      exact Int.tdiv_nonneg (by positivity) (by positivity))
    hpass (by simp [timerRestart])
  refine ⟨d', ?_⟩
  unfold waitForNextBuffer
  simp only [hb, h1, h2, h3, Bool.false_eq_true, if_false, if_true]
  rw [if_neg (by simp only [hq]; omega)]
  simp only [timerRestart] at hd' ⊢
  rw [hd']

/-- C3, the code at the failing inputs: with a backend whose reading never advances and a
pending front entry of four bytes, `waitForNextBuffer` under the `PlayedBytes`,
`PlayedCount`, `OffsetBytes` and `OffsetIndex` strategies is still in its wait loop after
any number of re-measurements: it never returns false. -/
theorem C3_wait_never_returns_on_stall (fuel : Nat) :
    waitForNextBuffer fuel stalledPlayedBytes = none ∧
    waitForNextBuffer fuel stalledPlayedCount = none ∧
    waitForNextBuffer fuel stalledOffsetBytes = none ∧
    waitForNextBuffer fuel stalledOffsetIndex = none := by
  refine ⟨?_, ?_, ?_, ?_⟩
  · show (match playedBytesLoop 4 fuel
        (fakeBackend { noControl with PlayedBytes := true } 0).query.2
        { stalledPlayedBytes with
          processed_remain := (fakeBackend { noControl with PlayedBytes := true } 0).query.1
          backend := some (fakeBackend { noControl with PlayedBytes := true } 0).query.2 } with
      | none => none
      | some d2 => some (retire d2 (-d2.processed_remain))) = none
    rw [playedBytesLoop_stall 4 (by omega) fuel _ _ (fun _ => rfl) rfl]
  · show (match playedCountLoop fuel 0 0
        (fakeBackend { noControl with PlayedCount := true } 0).query.2
        { { stalledPlayedCount with timer := some stalledPlayedCount.env.now } with
          backend := some (fakeBackend { noControl with PlayedCount := true } 0).query.2 } with
      | none => none
      | some (c, d2) => some (retire d2 c)) = none
    rw [playedCountLoop_stall fuel 0 _ _ (fun _ => rfl)]
  · show (match offsetBytesLoop 4 fuel 0 0
        (fakeBackend { noControl with OffsetBytes := true } 0).query.2
        { stalledOffsetBytes with
          play_pos := (fakeBackend { noControl with OffsetBytes := true } 0).query.1
          backend := some (fakeBackend { noControl with OffsetBytes := true } 0).query.2 } with
      | none => none
      | some (processed2, d2) =>
        some (retire { d2 with
          processed_remain := d2.processed_remain + processed2 - (d2.data.length : Int) }
          (-processed2))) = none
    rw [offsetBytesLoop_stall 4 (by omega) fuel 0 0
      (fakeBackend { noControl with OffsetBytes := true } 0).query.2
      { stalledOffsetBytes with
        play_pos := (fakeBackend { noControl with OffsetBytes := true } 0).query.1
        backend := some (fakeBackend { noControl with OffsetBytes := true } 0).query.2 }
      (fun _ => rfl) (by omega) (by decide) (by decide)]
  · show (match offsetIndexLoop fuel 0
        (fakeBackend { noControl with OffsetIndex := true } 0).query.2
        { stalledOffsetIndex with
          play_pos := (fakeBackend { noControl with OffsetIndex := true } 0).query.1
          backend := some (fakeBackend { noControl with OffsetIndex := true } 0).query.2 } with
      | none => none
      | some (processed2, d1) => some (retire d1 processed2)) = none
    rw [offsetIndexLoop_stall fuel _ _ (fun _ => rfl)]

/-! ## C4 -/

theorem readSamples_replicate (w c : Nat) : ∀ (n m : Nat), w * n ≤ m →
    readSamples w n (List.replicate m c) = List.replicate n (leValue (List.replicate w c)) := by
  intro n
  induction n with
  | zero => intro m _; rfl
  | succ k ih =>
    intro m h
    have hw : w ≤ m := by nlinarith
    have hk : w * k ≤ m - w := by
      have : w * (k + 1) = w * k + w := by ring
      omega
    simp only [readSamples, List.take_replicate, List.drop_replicate, Nat.min_eq_left hw,
      ih _ hk, List.replicate_succ]

theorem muteByte_eq (f : AudioFormat) :
    (toUInt8 (muteByte f)).toNat = silenceValue f.sample_format := by
  obtain ⟨sf, cl, ch, sr⟩ := f
  cases sf <;> rfl

theorem loadSamples_silence (f : AudioFormat) (n m : Nat)
    (h : f.bytesPerSample * n ≤ m) :
    ∀ x ∈ loadSamples f.bytesPerSample (!f.isUnsigned) n
        (List.replicate m (silenceValue f.sample_format)),
      x = (silenceValue f.sample_format : Int) := by
  intro x hx
  simp only [loadSamples, readSamples_replicate _ _ _ _ h, List.map_replicate] at hx
  rw [List.eq_of_mem_replicate hx]
  obtain ⟨sf, cl, ch, sr⟩ := f
  cases sf <;>
    simp [AudioFormat.bytesPerSample, AudioFormat.isUnsigned, silenceValue, leValue,
      List.replicate]

/-- C4: with mute on and handled in software, the buffer `receiveData` prepares has the
length of the chunk and every byte of it is 0x80 for the unsigned-8 encodings and 0 for
every other encoding, whatever the gain and the cached scaler; read as samples of the
format, every sample is the silence value. A non-paused `receiveData` that returns keeps
that buffer in `d.data` and hands the backend nothing else. -/
theorem C4_mute_fills_silence (d : AudioOutputPrivate) (data : QByteArray)
    (hm : d.mute = true) (hs : d.sw_mute = true) :
    prepareData d data
      = some (List.replicate data.length (silenceValue d.format.sample_format)) ∧
    (List.replicate data.length (silenceValue d.format.sample_format)).length = data.length ∧
    (∀ x ∈ List.replicate data.length (silenceValue d.format.sample_format),
      x = if d.format.sample_format = SampleFormat_Unsigned8 ∨
          d.format.sample_format = SampleFormat_Unsigned8Planar then 128 else 0) ∧
    (∀ x ∈ loadSamples d.format.bytesPerSample (!d.format.isUnsigned)
        (data.length / d.format.bytesPerSample)
        (List.replicate data.length (silenceValue d.format.sample_format)),
      x = (silenceValue d.format.sample_format : Int)) ∧
    (∀ (fuel : Nat) (pts : ℚ) (r : Bool) (d' : AudioOutputPrivate), d.paused = false →
      receiveData fuel d data pts = some (r, d') →
      d'.data = List.replicate data.length (silenceValue d.format.sample_format) ∧
      (writtenOf d' = writtenOf d ∨
        writtenOf d' = writtenOf d
          ++ [List.replicate data.length (silenceValue d.format.sample_format)])) := by
  have hprep : prepareData d data
      = some (List.replicate data.length (silenceValue d.format.sample_format)) := by
    simp [prepareData, isMute, hm, hs, fill, muteByte_eq]
  refine ⟨hprep, List.length_replicate _ _, ?_, ?_, ?_⟩
  · intro x hx
    rw [List.eq_of_mem_replicate hx]
    rfl
  · exact loadSamples_silence _ _ _ (Nat.mul_div_le _ _)
  · intro fuel pts r d' hp h
    exact receiveData_data fuel d data _ pts r d' hp hprep h

/-- C4, instance: the muted unsigned-8 engine and a three-byte chunk. -/
theorem C4_mute_fills_silence_witness :
    prepareData mutedEngine [1, 2, 3] = some [128, 128, 128] :=
  (C4_mute_fills_silence mutedEngine [1, 2, 3] rfl rfl).1

/-! ## C5 -/

theorem scale_sample_u8_unity (s : Int) (h : 0 ≤ s ∧ s ≤ 255) : scale_sample_u8 s 256 = s := by
  simp only [scale_sample_u8, av_clip_uint8, toInt32, toInt64, toUInt8]
  split_ifs <;> omega

theorem scale_sample_u8_small_unity (s : Int) (h : 0 ≤ s ∧ s ≤ 255) :
    scale_sample_u8_small s 256 = s := by
  simp only [scale_sample_u8_small, av_clip_uint8, toInt32, toUInt8]
  split_ifs <;> omega

theorem scale_sample_s16_unity (s : Int) (h : -32768 ≤ s ∧ s ≤ 32767) :
    scale_sample_s16 s 256 = s := by
  simp only [scale_sample_s16, av_clip_int16, toInt32, toInt64]
  split_ifs <;> omega

theorem scale_sample_s16_small_unity (s : Int) (h : -32768 ≤ s ∧ s ≤ 32767) :
    scale_sample_s16_small s 256 = s := by
  simp only [scale_sample_s16_small, av_clip_int16, toInt32]
  split_ifs <;> omega

theorem scale_sample_s32_unity (s : Int) (h : -2147483648 ≤ s ∧ s ≤ 2147483647) :
    scale_sample_s32 s 256 = s := by
  simp only [scale_sample_s32, av_clipl_int32, toInt64]
  split_ifs <;> omega

theorem map_eq_self_of_forall (f : Int → Int) (l : List Int) (h : ∀ x ∈ l, f x = x) :
    l.map f = l := by
  induction l with
  | nil => rfl
  | cons a t ih =>
    simp only [List.map_cons, List.cons.injEq]
    exact ⟨h a (List.mem_cons_self a t), ih (fun x hx => h x (List.mem_cons_of_mem a hx))⟩


/-- C5: gain 1.0 is a no-op. On a non-muted engine at gain 1.0 the buffer `receiveData`
prepares is the chunk itself, it is what `d.data` holds when the call returns, and the
backend is handed nothing else; gain 1.0 gives `gain_i = 256`, and each integer scaler
(unsigned-8, signed-16, signed-32, small and wide variants) called with 256 returns every
sample unchanged, for every buffer of samples of its type. -/
theorem C5_unity_gain_is_identity (d : AudioOutputPrivate) (data : QByteArray)
    (src8 src16 src32 : List Int) (hm : d.mute = false) (hv : d.vol = 1)
    (h8 : ∀ x ∈ src8, 0 ≤ x ∧ x ≤ 255)
    (h16 : ∀ x ∈ src16, -32768 ≤ x ∧ x ≤ 32767)
    (h32 : ∀ x ∈ src32, -2147483648 ≤ x ∧ x ≤ 2147483647) :
    prepareData d data = some data ∧
    (∀ (fuel : Nat) (pts : ℚ) (r : Bool) (d' : AudioOutputPrivate), d.paused = false →
      receiveData fuel d data pts = some (r, d') →
      d'.data = data ∧ (writtenOf d' = writtenOf d ∨ writtenOf d' = writtenOf d ++ [data])) ∧
    gain_i 1 = 256 ∧
    scale_samples_u8 src8 256 = src8 ∧
    scale_samples_u8_small src8 256 = src8 ∧
    scale_samples_s16 src16 256 = src16 ∧
    scale_samples_s16_small src16 256 = src16 ∧
    scale_samples_s32 src32 256 = src32 := by
  have hprep : prepareData d data = some data := by
    simp [prepareData, isMute, hm, volume, hv, qFuzzyCompare_one]
  refine ⟨hprep, fun fuel pts r d' hp h => receiveData_data fuel d data _ pts r d' hp hprep h,
    ?_, ?_, ?_, ?_, ?_, ?_⟩
  · exact gain_i_one
  · exact map_eq_self_of_forall _ _ (fun x hx => scale_sample_u8_unity x (h8 x hx))
  · exact map_eq_self_of_forall _ _ (fun x hx => scale_sample_u8_small_unity x (h8 x hx))
  · exact map_eq_self_of_forall _ _ (fun x hx => scale_sample_s16_unity x (h16 x hx))
  · exact map_eq_self_of_forall _ _ (fun x hx => scale_sample_s16_small_unity x (h16 x hx))
  · exact map_eq_self_of_forall _ _ (fun x hx => scale_sample_s32_unity x (h32 x hx))

/-- C5, instance: the `Blocking` engine at gain 1 and buffers holding the extreme sample
values of each type. -/
theorem C5_unity_gain_is_identity_witness :
    prepareData blockingEngine [1, 2, 3, 4] = some [1, 2, 3, 4] ∧
    scale_samples_u8 [0, 128, 255] 256 = [0, 128, 255] ∧
    scale_samples_s16_small [-32768, -1, 32767] 256 = [-32768, -1, 32767] ∧
    scale_samples_s32 [-2147483648, 7, 2147483647] 256 = [-2147483648, 7, 2147483647] :=
  have h := C5_unity_gain_is_identity blockingEngine [1, 2, 3, 4] [0, 128, 255]
    [-32768, -1, 32767] [-2147483648, 7, 2147483647] rfl rfl (by decide) (by decide) (by decide)
  ⟨h.1, h.2.2.2.1, h.2.2.2.2.2.2.1, h.2.2.2.2.2.2.2⟩

/-! ## C6 -/

theorem mul_gain_bounds (x v : Int) (hv : 0 ≤ v ∧ v ≤ 256) :
    (0 ≤ x → 0 ≤ x * v ∧ x * v ≤ x * 256) ∧ (x ≤ 0 → x * 256 ≤ x * v ∧ x * v ≤ 0) :=
  ⟨fun h => ⟨mul_nonneg h hv.1, mul_le_mul_of_nonneg_left hv.2 h⟩,
   fun h => ⟨mul_le_mul_of_nonpos_left hv.2 h, mul_nonpos_of_nonpos_of_nonneg h hv.1⟩⟩

theorem toInt64_id (x : Int) (h : -9223372036854775808 ≤ x ∧ x < 9223372036854775808) :
    toInt64 x = x := by
  unfold toInt64; omega

theorem toInt32_id (x : Int) (h : -2147483648 ≤ x ∧ x < 2147483648) : toInt32 x = x := by
  unfold toInt32; omega

theorem abs_sub_le_of_between (sil x y : Int)
    (h : (sil ≤ x → sil ≤ y ∧ y ≤ x) ∧ (x ≤ sil → x ≤ y ∧ y ≤ sil)) :
    |y - sil| ≤ |x - sil| := by
  rcases le_total sil x with hx | hx
  · obtain ⟨h1, h2⟩ := h.1 hx
    rw [abs_of_nonneg (by omega), abs_of_nonneg (by omega)]; omega
  · obtain ⟨h1, h2⟩ := h.2 hx
    rw [abs_of_nonpos (by omega), abs_of_nonpos (by omega)]; omega

theorem scale_sample_u8_near (s v : Int) (hs : 0 ≤ s ∧ s ≤ 255) (hv : 0 ≤ v ∧ v ≤ 256) :
    |scale_sample_u8 s v - 128| ≤ |s - 128| := by
  apply abs_sub_le_of_between
  have hb := mul_gain_bounds (s - 128) v hv
  simp only [scale_sample_u8, av_clip_uint8, toUInt8]
  rw [toInt64_id (s - 128) (by omega)]
  generalize (s - 128) * v = p at hb ⊢
  rw [toInt64_id p (by omega), toInt64_id (p + 128) (by omega),
    toInt64_id ((p + 128) / 256) (by omega), toInt32_id ((p + 128) / 256 + 128) (by omega)]
  split_ifs <;> omega

theorem scale_sample_u8_small_near (s v : Int) (hs : 0 ≤ s ∧ s ≤ 255) (hv : 0 ≤ v ∧ v ≤ 256) :
    |scale_sample_u8_small s v - 128| ≤ |s - 128| := by
  apply abs_sub_le_of_between
  have hb := mul_gain_bounds (s - 128) v hv
  simp only [scale_sample_u8_small, av_clip_uint8, toUInt8]
  rw [toInt32_id (s - 128) (by omega)]
  generalize (s - 128) * v = p at hb ⊢
  rw [toInt32_id p (by omega), toInt32_id (p + 128) (by omega),
    toInt32_id ((p + 128) / 256 + 128) (by omega)]
  split_ifs <;> omega

theorem scale_sample_s16_near (s v : Int) (hs : -32768 ≤ s ∧ s ≤ 32767) (hv : 0 ≤ v ∧ v ≤ 256) :
    |scale_sample_s16 s v - 0| ≤ |s - 0| := by
  apply abs_sub_le_of_between
  have hb := mul_gain_bounds s v hv
  simp only [scale_sample_s16, av_clip_int16]
  generalize s * v = p at hb ⊢
  rw [toInt64_id p (by omega), toInt64_id (p + 128) (by omega),
    toInt32_id ((p + 128) / 256) (by omega)]
  split_ifs <;> omega

theorem scale_sample_s16_small_near (s v : Int) (hs : -32768 ≤ s ∧ s ≤ 32767)
    (hv : 0 ≤ v ∧ v ≤ 256) : |scale_sample_s16_small s v - 0| ≤ |s - 0| := by
  apply abs_sub_le_of_between
  have hb := mul_gain_bounds s v hv
  simp only [scale_sample_s16_small, av_clip_int16]
  generalize s * v = p at hb ⊢
  rw [toInt32_id p (by omega), toInt32_id (p + 128) (by omega)]
  split_ifs <;> omega

theorem scale_sample_s32_near (s v : Int) (hs : -2147483648 ≤ s ∧ s ≤ 2147483647)
    (hv : 0 ≤ v ∧ v ≤ 256) : |scale_sample_s32 s v - 0| ≤ |s - 0| := by
  apply abs_sub_le_of_between
  have hb := mul_gain_bounds s v hv
  simp only [scale_sample_s32, av_clipl_int32]
  generalize s * v = p at hb ⊢
  rw [toInt64_id p (by omega), toInt64_id (p + 128) (by omega)]
  split_ifs <;> omega

theorem sumSq_map_le (sil : Int) (f : Int → Int) : ∀ (l : List Int),
    (∀ x ∈ l, |f x - sil| ≤ |x - sil|) → sumSq sil (l.map f) ≤ sumSq sil l := by
  intro l
  induction l with
  | nil => intro _; simp [sumSq]
  | cons a t ih =>
    intro h
    have h1 : (f a - sil) ^ 2 ≤ (a - sil) ^ 2 := sq_le_sq.mpr (h a (List.mem_cons_self a t))
    have h2 := ih (fun x hx => h x (List.mem_cons_of_mem a hx))
    simp only [sumSq, List.map_cons, List.sum_cons, List.map_map] at h2 ⊢
    omega

theorem forall₂_map_near (sil : Int) (f : Int → Int) : ∀ (l : List Int),
    (∀ x ∈ l, |f x - sil| ≤ |x - sil|) →
    List.Forall₂ (fun x y => |y - sil| ≤ |x - sil|) l (l.map f) := by
  intro l
  induction l with
  | nil => intro _; exact List.Forall₂.nil
  | cons a t ih =>
    intro h
    exact List.Forall₂.cons (h a (List.mem_cons_self a t))
      (ih (fun x hx => h x (List.mem_cons_of_mem a hx)))

theorem noAmplify_map (sil : Int) (f : Int → Int) (l : List Int)
    (h : ∀ x ∈ l, |f x - sil| ≤ |x - sil|) : NoAmplify sil l (l.map f) := by
  refine ⟨forall₂_map_near sil f l h, sumSq_map_le sil f l h, ?_⟩
  apply Real.sqrt_le_sqrt
  rw [List.length_map]
  apply div_le_div_of_nonneg_right _ (Nat.cast_nonneg _)
  exact_mod_cast sumSq_map_le sil f l h

/-- C6: for every integer gain `gain_i` in [0, 256] and every buffer of unsigned-8,
signed-16 or signed-32 samples, each of the five integer scalers returns samples whose
distance from the silence value (128 for unsigned-8, 0 otherwise) is at most that of the
corresponding input sample, so the sum of squares and the RMS of the result are at most
those of the input. -/
theorem C6_scaling_never_amplifies (v : Int) (src8 src16 src32 : List Int)
    (hv : 0 ≤ v ∧ v ≤ 256)
    (h8 : ∀ x ∈ src8, 0 ≤ x ∧ x ≤ 255)
    (h16 : ∀ x ∈ src16, -32768 ≤ x ∧ x ≤ 32767)
    (h32 : ∀ x ∈ src32, -2147483648 ≤ x ∧ x ≤ 2147483647) :
    NoAmplify 128 src8 (scale_samples_u8 src8 v) ∧
    NoAmplify 128 src8 (scale_samples_u8_small src8 v) ∧
    NoAmplify 0 src16 (scale_samples_s16 src16 v) ∧
    NoAmplify 0 src16 (scale_samples_s16_small src16 v) ∧
    NoAmplify 0 src32 (scale_samples_s32 src32 v) :=
  ⟨noAmplify_map 128 _ src8 (fun x hx => scale_sample_u8_near x v (h8 x hx) hv),
   noAmplify_map 128 _ src8 (fun x hx => scale_sample_u8_small_near x v (h8 x hx) hv),
   noAmplify_map 0 _ src16 (fun x hx => scale_sample_s16_near x v (h16 x hx) hv),
   noAmplify_map 0 _ src16 (fun x hx => scale_sample_s16_small_near x v (h16 x hx) hv),
   noAmplify_map 0 _ src32 (fun x hx => scale_sample_s32_near x v (h32 x hx) hv)⟩

/-- C6, instance: gain 128 (0.5) on buffers holding the extreme sample values. -/
theorem C6_scaling_never_amplifies_witness :
    NoAmplify 128 [0, 128, 255] (scale_samples_u8 [0, 128, 255] 128) ∧
    NoAmplify 128 [0, 128, 255] (scale_samples_u8_small [0, 128, 255] 128) ∧
    NoAmplify 0 [-32768, -1, 32767] (scale_samples_s16 [-32768, -1, 32767] 128) ∧
    NoAmplify 0 [-32768, -1, 32767] (scale_samples_s16_small [-32768, -1, 32767] 128) ∧
    NoAmplify 0 [-2147483648, 7, 2147483647]
      (scale_samples_s32 [-2147483648, 7, 2147483647] 128) :=
  C6_scaling_never_amplifies 128 [0, 128, 255] [-32768, -1, 32767] [-2147483648, 7, 2147483647]
    (by decide) (by decide) (by decide) (by decide)

/-! ## C7 -/

theorem mul_range_bounds (x v lo hi : Int) (hx : lo ≤ x ∧ x ≤ hi) (hv : 0 ≤ v) :
    lo * v ≤ x * v ∧ x * v ≤ hi * v :=
  ⟨mul_le_mul_of_nonneg_right hx.1 hv, mul_le_mul_of_nonneg_right hx.2 hv⟩

/-- The wide unsigned-8 scaler is exact for every gain in [0, 2^31). -/
theorem scale_sample_u8_exact (s v : Int) (hs : 0 ≤ s ∧ s ≤ 255) (hv : 0 ≤ v ∧ v < 2147483648) :
    scale_sample_u8 s v = clampTo 0 255 (((s - 128) * v + 128) / 256 + 128) := by
  have hb := mul_range_bounds (s - 128) v (-128) 127 (by omega) hv.1
  simp only [scale_sample_u8, av_clip_uint8, toUInt8, clampTo]
  rw [toInt64_id (s - 128) (by omega)]
  generalize (s - 128) * v = p at hb ⊢
  rw [toInt64_id p (by omega), toInt64_id (p + 128) (by omega),
    toInt64_id ((p + 128) / 256) (by omega), toInt32_id ((p + 128) / 256 + 128) (by omega)]
  split_ifs <;> omega

/-- The small unsigned-8 scaler is exact for every gain in [0, 2^24). -/
theorem scale_sample_u8_small_exact (s v : Int) (hs : 0 ≤ s ∧ s ≤ 255)
    (hv : 0 ≤ v ∧ v < 16777216) :
    scale_sample_u8_small s v = clampTo 0 255 (((s - 128) * v + 128) / 256 + 128) := by
  have hb := mul_range_bounds (s - 128) v (-128) 127 (by omega) hv.1
  simp only [scale_sample_u8_small, av_clip_uint8, toUInt8, clampTo]
  rw [toInt32_id (s - 128) (by omega)]
  generalize (s - 128) * v = p at hb ⊢
  rw [toInt32_id p (by omega), toInt32_id (p + 128) (by omega),
    toInt32_id ((p + 128) / 256 + 128) (by omega)]
  split_ifs <;> omega

/-- The small signed-16 scaler is exact for every gain in [0, 2^16). -/
theorem scale_sample_s16_small_exact (s v : Int) (hs : -32768 ≤ s ∧ s ≤ 32767)
    (hv : 0 ≤ v ∧ v < 65536) :
    scale_sample_s16_small s v = clampTo (-32768) 32767 ((s * v + 128) / 256) := by
  have hb := mul_range_bounds s v (-32768) 32767 hs hv.1
  simp only [scale_sample_s16_small, av_clip_int16, clampTo]
  generalize s * v = p at hb ⊢
  rw [toInt32_id p (by omega), toInt32_id (p + 128) (by omega)]
  split_ifs <;> omega

/-- The wide signed-16 scaler is exact for every gain in [0, 2^24]. -/
theorem scale_sample_s16_exact (s v : Int) (hs : -32768 ≤ s ∧ s ≤ 32767)
    (hv : 0 ≤ v ∧ v ≤ 16777216) :
    scale_sample_s16 s v = clampTo (-32768) 32767 ((s * v + 128) / 256) := by
  have hb := mul_range_bounds s v (-32768) 32767 hs hv.1
  simp only [scale_sample_s16, av_clip_int16, clampTo]
  generalize s * v = p at hb ⊢
  rw [toInt64_id p (by omega), toInt64_id (p + 128) (by omega),
    toInt32_id ((p + 128) / 256) (by omega)]
  split_ifs <;> omega

/-- The signed-32 scaler is exact for every gain in [0, 2^31). -/
theorem scale_sample_s32_exact (s v : Int) (hs : -2147483648 ≤ s ∧ s ≤ 2147483647)
    (hv : 0 ≤ v ∧ v < 2147483648) :
    scale_sample_s32 s v = clampTo (-2147483648) 2147483647 ((s * v + 128) / 256) := by
  have hb := mul_range_bounds s v (-2147483648) 2147483647 hs hv.1
  simp only [scale_sample_s32, av_clipl_int32, clampTo]
  generalize s * v = p at hb ⊢
  rw [toInt64_id p (by omega), toInt64_id (p + 128) (by omega)]
  split_ifs <;> omega

/-- C7, the code at the failing input: for signed-16 at gain 262144.0 (`gain_i` = 2^26,
inside [0, 2^31)) `get_scaler` selects the wide scaler `scale_samples_s16`, and for the
sample 16384 it returns 0, not the saturated value 32767: the 64-bit value 2^32 wraps to
0 when it is narrowed to the `int` argument of `av_clip_int16`. At `gain_i` = 2^24 + 1
the sample -32768 comes out as +32767. The witness of the claim (unsigned-8 at gain 0.5)
does hold. -/
theorem C7_s16_wide_scaler_wraps :
    get_scaler SampleFormat_Signed16 262144 = (some scale_samples_func.s16, 67108864) ∧
    scale_samples_s16 [16384] 67108864 = [0] ∧
    clampTo (-32768) 32767 ((16384 * 67108864 + 128) / 256) = 32767 ∧
    select_scaler SampleFormat_Signed16 16777217 = some scale_samples_func.s16 ∧
    scale_samples_s16 [-32768] 16777217 = [32767] ∧
    clampTo (-32768) 32767 ((-32768 * 16777217 + 128) / 256) = -32768 ∧
    get_scaler SampleFormat_Unsigned8 (1 / 2) = (some scale_samples_func.u8_small, 128) ∧
    scale_samples_u8_small [255, 0] 128 = [192, 64] := by
  refine ⟨?_, by decide, by decide, by decide, by decide, by decide, ?_, by decide⟩
  · rw [get_scaler, gain_i_large]; rfl
  · rw [get_scaler, gain_i_half]; rfl

/-! ## C8 -/

/-- What `setAudioFormat` does on a format change: the scaler is recomputed before the
format is stored, so it is the scaler of the previous format. -/
theorem setAudioFormat_scaler (d : AudioOutputPrivate) (f : AudioFormat) (h : d.format ≠ f) :
    (setAudioFormat d f).format = f ∧
    (setAudioFormat d f).scale_samples = (get_scaler d.format.sampleFormat d.vol).1 := by
  simp [setAudioFormat, h, updateSampleScaleFunc]

/-- C8, the code at the failing input: on the signed-16 engine at gain 0.5,
`setAudioFormat` with the unsigned-8 format stores the new format but leaves the cached
scaler at `scale_samples_s16_small`, the scaler of the old format, while
`get_scaler(unsigned-8, 0.5)` is `scale_samples_u8_small`. -/
theorem C8_setAudioFormat_keeps_old_scaler :
    halfGainEngine.format ≠ mono8 ∧
    (setAudioFormat halfGainEngine mono8).format = mono8 ∧
    (setAudioFormat halfGainEngine mono8).scale_samples = some scale_samples_func.s16_small ∧
    (get_scaler mono8.sampleFormat halfGainEngine.vol).1 = some scale_samples_func.u8_small ∧
    (setAudioFormat halfGainEngine mono8).scale_samples
      ≠ (get_scaler mono8.sampleFormat (setAudioFormat halfGainEngine mono8).vol).1 := by
  have h1 : halfGainEngine.format ≠ mono8 := by decide
  have h2 := setAudioFormat_scaler halfGainEngine mono8 h1
  have h3 : (get_scaler halfGainEngine.format.sampleFormat halfGainEngine.vol).1
      = some scale_samples_func.s16_small := by
    show (get_scaler SampleFormat_Signed16 (1 / 2)).1 = _
    rw [get_scaler, gain_i_half]; rfl
  have h4 : (get_scaler mono8.sampleFormat halfGainEngine.vol).1
      = some scale_samples_func.u8_small := by
    show (get_scaler SampleFormat_Unsigned8 (1 / 2)).1 = _
    rw [get_scaler, gain_i_half]; rfl
  have h5 : (setAudioFormat halfGainEngine mono8).vol = halfGainEngine.vol := by
    simp [setAudioFormat, h1, updateSampleScaleFunc]
  refine ⟨h1, h2.1, h2.2.trans h3, h4, ?_⟩
  rw [h2.2, h3, h5, h4]
  decide

/-! ## C9 -/

/-- C9: on a non-paused engine, when `waitForNextBuffer` returns false, `receiveData`
returns false; the ledger is left empty, `play_pos` and `processed_remain` are 0, nothing
was pushed, and the backend's `write` was not called. -/
theorem C9_failed_wait_resets (fuel : Nat) (d : AudioOutputPrivate) (data buf : QByteArray)
    (pts : ℚ) (d1 : AudioOutputPrivate) (hp : d.paused = false)
    (hprep : prepareData d data = some buf)
    (hw : waitForNextBuffer fuel { d with data := buf } = some (false, d1)) :
    receiveData fuel d data pts = some (false, d1.resetStatus) ∧
    d1.resetStatus.frame_infos.entries = [] ∧
    d1.resetStatus.play_pos = 0 ∧
    d1.resetStatus.processed_remain = 0 ∧
    writtenOf d1.resetStatus = writtenOf d := by
  have hp' : ¬ (d.paused = true) := by simp [hp]
  have hr : receiveData fuel d data pts = some (false, d1.resetStatus) := by
    unfold receiveData
    rw [if_neg hp']
    simp only [hprep, hw]
  refine ⟨hr, rfl, rfl, rfl, ?_⟩
  have h := (receiveData_data fuel d data buf pts false d1.resetStatus hp hprep hr).2
  obtain ⟨hF, _, _⟩ := waitForNextBuffer_frame _ _ _ _ hw
  obtain ⟨_, _, _, _, hwr, _⟩ := hF
  simp only [writtenOf, resetStatus]
  simp only at hwr
  cases hb1 : d1.backend <;> cases hb : d.backend <;> simp_all

/-- C9, instance: the `BytesCallback` engine whose backend reports -1 writable bytes. -/
theorem C9_failed_wait_resets_witness :
    receiveData 1 failingBytesEngine [1, 2, 3, 4] 7
      = some (false, ({ ({ failingBytesEngine with data := [1, 2, 3, 4] } :
          AudioOutputPrivate).timerRestart.2 with
          processed_remain := -1
          backend := some (fakeBackend { noControl with BytesCallback := true } (-1)).query.2 } :
          AudioOutputPrivate).resetStatus) ∧
    (({ ({ failingBytesEngine with data := [1, 2, 3, 4] } : AudioOutputPrivate).timerRestart.2 with
          processed_remain := -1
          backend := some (fakeBackend { noControl with BytesCallback := true } (-1)).query.2 } :
          AudioOutputPrivate).resetStatus).frame_infos.entries = [] :=
  have h := C9_failed_wait_resets 1 failingBytesEngine [1, 2, 3, 4] [1, 2, 3, 4] 7
    { ({ failingBytesEngine with data := [1, 2, 3, 4] } : AudioOutputPrivate).timerRestart.2 with
      processed_remain := -1
      backend := some (fakeBackend { noControl with BytesCallback := true } (-1)).query.2 }
    rfl
    (by simp [prepareData, failingBytesEngine, demoEngine, isMute, volume, qFuzzyCompare])
    rfl
  ⟨h.1, h.2.1⟩

/-! ## C10 -/

/-- C10, as stated, fails. With no backend bound (`unboundEngine`, not paused)
`receiveData` returns false but clears the ledger and zeroes `play_pos` and
`processed_remain`, which held one entry, 3 and 5 before the call. With a backend bound
but not open (`closedEngine`, `Blocking`) it returns false but has pushed the entry
(1, 4) onto the empty ledger. -/
theorem C10_counterexample_unbound_reset :
    unboundEngine.backend.isNone = true ∧
    unboundEngine.frame_infos.entries = [{ timestamp := 0, data_size := 4 }] ∧
    unboundEngine.play_pos = 3 ∧ unboundEngine.processed_remain = 5 ∧
    (receiveData 0 unboundEngine [1, 2, 3, 4] 1).map
        (fun r => (r.1, r.2.frame_infos.entries, r.2.play_pos, r.2.processed_remain))
      = some (false, [], 0, 0) ∧
    ([] : List FrameInfo) ≠ unboundEngine.frame_infos.entries ∧
    closedEngine.backend.isSome = true ∧ isOpen closedEngine = false ∧
    closedEngine.frame_infos.entries = [] ∧
    (receiveData 0 closedEngine [1, 2, 3, 4] 1).map (fun r => (r.1, r.2.frame_infos.entries))
      = some (false, [{ timestamp := 1, data_size := 4 }]) := by
  have hprep : prepareData unboundEngine [1, 2, 3, 4] = some [1, 2, 3, 4] := by
    simp [prepareData, unboundEngine, demoEngine, isMute, volume, qFuzzyCompare]
  have hprep2 : prepareData closedEngine [1, 2, 3, 4] = some [1, 2, 3, 4] := by
    simp [prepareData, closedEngine, demoEngine, isMute, volume, qFuzzyCompare]
  refine ⟨rfl, rfl, rfl, rfl, ?_, by decide, rfl, rfl, rfl, ?_⟩
  · unfold receiveData
    rw [hprep]
    decide
  · unfold receiveData
    rw [hprep2]
    decide

/-- C10 (amended): where no backend is bound, or the bound backend is not open,
`receiveData` never returns true, and it returns false whenever its wait step returns.
On a paused engine it returns false at once and changes nothing. On a non-paused engine
without a backend it returns false and resets the state: the ledger is empty and
`play_pos` and `processed_remain` are 0 afterwards. (`buf` is the buffer prepared from
the chunk by the mute and volume step.) -/
theorem C10_not_ready_fails (fuel : Nat) (d : AudioOutputPrivate) (data : QByteArray) (pts : ℚ)
    (h : d.backend = none ∨ d.available = false) :
    (∀ (r : Bool) (d' : AudioOutputPrivate),
      receiveData fuel d data pts = some (r, d') → r = false) ∧
    (d.paused = false → ∀ (buf : QByteArray) (r : Bool) (d1 : AudioOutputPrivate),
      prepareData d data = some buf →
      waitForNextBuffer fuel { d with data := buf } = some (r, d1) →
      ∃ d', receiveData fuel d data pts = some (false, d')) ∧
    (d.paused = true → receiveData fuel d data pts = some (false, d)) ∧
    (d.paused = false → d.backend = none → ∀ buf, prepareData d data = some buf →
      receiveData fuel d data pts
        = some (false, ({ d with data := buf } : AudioOutputPrivate).resetStatus) ∧
      (({ d with data := buf } : AudioOutputPrivate).resetStatus).frame_infos.entries = [] ∧
      (({ d with data := buf } : AudioOutputPrivate).resetStatus).play_pos = 0 ∧
      (({ d with data := buf } : AudioOutputPrivate).resetStatus).processed_remain = 0) := by
  have hnever : ∀ (r : Bool) (d' : AudioOutputPrivate),
      receiveData fuel d data pts = some (r, d') → r = false := by
    intro r d' hr
    unfold receiveData at hr
    split at hr
    · simp only [Option.some.injEq, Prod.mk.injEq] at hr
      exact hr.1.symm
    · split at hr
      · simp at hr
      · split at hr
        · simp at hr
        · simp only [Option.some.injEq, Prod.mk.injEq] at hr
          exact hr.1.symm
        · rename_i d1 hw
          obtain ⟨hF, _, _⟩ := waitForNextBuffer_frame _ _ _ _ hw
          obtain ⟨_, hav, _, _, hwr, _⟩ := hF
          simp only at hav hwr hr
          split at hr
          · simp only [Option.some.injEq, Prod.mk.injEq] at hr
            exact hr.1.symm
          · rename_i b1 hb1
            split at hr
            · simp only [Option.some.injEq, Prod.mk.injEq] at hr
              exact hr.1.symm
            · rename_i hopen
              rcases h with h | h
              · rw [h, hb1] at hwr
                simp at hwr
              · simp [isOpen, hav, h] at hopen
  refine ⟨hnever, ?_, ?_, ?_⟩
  · intro hp buf r d1 hprep hw
    have hp' : ¬ (d.paused = true) := by simp [hp]
    have hsome : ∃ q, receiveData fuel d data pts = some q := by
      unfold receiveData
      rw [if_neg hp']
      simp only [hprep, hw]
      cases r
      · exact ⟨_, rfl⟩
      · simp only
        split
        · exact ⟨_, rfl⟩
        · split <;> exact ⟨_, rfl⟩
    obtain ⟨⟨r', d'⟩, hq⟩ := hsome
    have := hnever r' d' hq
    subst this
    exact ⟨d', hq⟩
  · intro hp
    simp [receiveData, hp]
  · intro hp hb buf hprep
    have hp' : ¬ (d.paused = true) := by simp [hp]
    refine ⟨?_, rfl, rfl, rfl⟩
    unfold receiveData
    rw [if_neg hp']
    simp only [hprep]
    have hw : waitForNextBuffer fuel { d with data := buf } = some (false, { d with data := buf }) := by
      simp [waitForNextBuffer, hb]
    rw [hw]

/-- C10 (amended), instance: the engine without a backend. -/
theorem C10_not_ready_fails_witness :
    receiveData 0 unboundEngine [1, 2, 3, 4] 1
      = some (false, ({ unboundEngine with data := [1, 2, 3, 4] } : AudioOutputPrivate).resetStatus) :=
  ((C10_not_ready_fails 0 unboundEngine [1, 2, 3, 4] 1 (Or.inl rfl)).2.2.2 rfl rfl [1, 2, 3, 4]
    (by simp [prepareData, unboundEngine, demoEngine, isMute, volume, qFuzzyCompare])).1

/-! ## C11 -/

/-- C11: on a paused engine `receiveData` returns false at once, for every chunk,
timestamp and amount of fuel, and the state is the state before the call: the ledger and
the position counters are unchanged, no wait was logged, the backend was neither queried
nor written to. -/
theorem C11_paused_fails_at_once (fuel : Nat) (d : AudioOutputPrivate) (data : QByteArray)
    (pts : ℚ) (hp : d.paused = true) :
    receiveData fuel d data pts = some (false, d) ∧
    receiveData 0 d data pts = some (false, d) := by
  have hr : ∀ n : Nat, receiveData n d data pts = some (false, d) := by
    intro n
    unfold receiveData
    rw [if_pos hp]
  exact ⟨hr fuel, hr 0⟩

/-- C11, instance: the paused `Blocking` engine. -/
theorem C11_paused_fails_at_once_witness :
    receiveData 3 pausedEngine [1, 2, 3, 4] 5 = some (false, pausedEngine) ∧
    receiveData 0 pausedEngine [1, 2, 3, 4] 5 = some (false, pausedEngine) :=
  C11_paused_fails_at_once 3 pausedEngine [1, 2, 3, 4] 5 rfl

/-! ## C12 -/

theorem LedgerRun.step_consistent (t : LedgerRun) (op : LedgerOp) (h : t.Consistent) :
    (t.step op).Consistent := by
  obtain ⟨h1, h2⟩ := h
  have hlen : t.ledger.entries.length = t.pushed.length - (t.retired + t.dropped) := by
    rw [h2, List.length_drop]
  cases op with
  | push e =>
    simp only [LedgerRun.Consistent, LedgerRun.step, ring.push_back, List.length_append,
      List.length_singleton]
    refine ⟨by omega, ?_⟩
    rw [h2, ← List.drop_append_of_le_length h1, List.drop_drop]
    congr 1
    rw [List.length_drop]
    omega
  | pop =>
    simp only [LedgerRun.Consistent, LedgerRun.step, ring.pop_front, ring.empty]
    by_cases hemp : t.ledger.entries = []
    · simp only [hemp, List.isEmpty_nil, if_true, List.tail_nil]
      exact ⟨h1, by rw [← h2, hemp]⟩
    · obtain ⟨a, as, he⟩ := List.exists_cons_of_ne_nil hemp
      rw [he] at hlen
      simp only [List.length_cons] at hlen
      simp only [he, List.isEmpty_cons, Bool.false_eq_true, if_false, List.tail_cons]
      refine ⟨by omega, ?_⟩
      have : t.pushed.drop (t.retired + 1 + t.dropped)
          = (t.pushed.drop (t.retired + t.dropped)).tail := by
        rw [List.tail_drop]
        congr 1
        omega
      rw [this, ← h2, he]
      rfl

theorem foldl_step_consistent (ops : List LedgerOp) : ∀ (t : LedgerRun), t.Consistent →
    (ops.foldl LedgerRun.step t).Consistent := by
  induction ops with
  | nil => intro t h; exact h
  | cons op rest ih => intro t h; exact ih _ (t.step_consistent op h)

theorem runLedger_consistent (capacity : Nat) (ops : List LedgerOp) :
    (runLedger capacity ops).Consistent :=
  foldl_step_consistent ops _ ⟨by simp, by simp [ring.create]⟩

theorem tryVolume_frame_infos (d d' : AudioOutputPrivate) (v : ℚ) (h : tryVolume d v = some d') :
    d'.frame_infos = d.frame_infos := by
  unfold tryVolume at h
  split at h
  · simp only [Option.some.injEq] at h; subst h; rfl
  · split at h
    · split at h
      · simp at h
      · split at h <;> (simp only [Option.some.injEq] at h; subst h; rfl)
    · simp only [Option.some.injEq] at h; subst h; rfl

theorem tryMute_frame_infos (d : AudioOutputPrivate) (m : Bool) :
    (tryMute d m).frame_infos = d.frame_infos := by
  unfold tryMute
  split
  · rfl
  · split
    · split <;> rfl
    · rfl

theorem setVolume_frame_infos (d d' : AudioOutputPrivate) (v : ℚ) (h : setVolume d v = some d') :
    d'.frame_infos = d.frame_infos := by
  unfold setVolume at h
  split at h
  · simp only [Option.some.injEq] at h; subst h; rfl
  · split at h
    · simp only [Option.some.injEq] at h; subst h; rfl
    · exact (tryVolume_frame_infos _ _ _ h).trans rfl

theorem setMute_frame_infos (d : AudioOutputPrivate) (m : Bool) :
    (setMute d m).frame_infos = d.frame_infos := by
  unfold setMute
  split
  · rfl
  · exact tryMute_frame_infos _ _

/-- C12, as stated, fails after a push onto a full ledger. On a ledger of capacity 1 the
entries with timestamps 1 and 2 are pushed and none is retired, and the front timestamp is
2, not 1. On `fullLedgerEngine`, whose ledger holds the entries pushed with timestamps 0
and 1, `receiveData` with timestamp 2 retires nothing (the wait step leaves both entries)
and `timestamp()` is 1 afterwards, not 0. -/
theorem C12_counterexample_overflow :
    (runLedger 1 [.push { timestamp := 1, data_size := 4 },
        .push { timestamp := 2, data_size := 4 }]).pushed
      = [{ timestamp := 1, data_size := 4 }, { timestamp := 2, data_size := 4 }] ∧
    (runLedger 1 [.push { timestamp := 1, data_size := 4 },
        .push { timestamp := 2, data_size := 4 }]).retired = 0 ∧
    timestamp { blockingEngine with
      frame_infos := (runLedger 1 [.push { timestamp := 1, data_size := 4 },
        .push { timestamp := 2, data_size := 4 }]).ledger } = 2 ∧
    (2 : ℚ) ≠ 1 ∧
    (waitForNextBuffer 1 { fullLedgerEngine with data := [1, 2, 3, 4] }).map
        (fun r => r.2.frame_infos.entries)
      = some [{ timestamp := 0, data_size := 4 }, { timestamp := 1, data_size := 4 }] ∧
    (receiveData 1 fullLedgerEngine [1, 2, 3, 4] 2).map (fun r => timestamp r.2) = some 1 ∧
    (1 : ℚ) ≠ 0 := by
  have hprep : prepareData fullLedgerEngine [1, 2, 3, 4] = some [1, 2, 3, 4] := by
    simp [prepareData, fullLedgerEngine, demoEngine, isMute, volume, qFuzzyCompare]
  refine ⟨rfl, rfl, rfl, by norm_num, by decide, ?_, by norm_num⟩
  unfold receiveData
  rw [hprep]
  rfl

/-- C12 (amended): in every state with a non-empty ledger `timestamp()` returns the
timestamp of the ledger's front entry. After entries with timestamps t_1..t_n were pushed
in that order onto the empty ledger of a reset engine, `k` of them were retired and `j`
of them were dropped by pushes that met a full ledger, with k + j < n, `timestamp()`
returns t_(k+j+1); it is t_(k+1) when no push met a full ledger. It does not change
between writes: `setAudioFormat`, `setVolume`, `setMute`, `reportVolume` and `reportMute`
leave it as it is. -/
theorem C12_timestamp_is_front (d : AudioOutputPrivate) :
    (∀ (e : FrameInfo) (es : List FrameInfo),
      d.frame_infos.entries = e :: es → timestamp d = e.timestamp) ∧
    (∀ (capacity : Nat) (ops : List LedgerOp) (e : FrameInfo),
      d.frame_infos = (runLedger capacity ops).ledger →
      (runLedger capacity ops).pushed[(runLedger capacity ops).retired
        + (runLedger capacity ops).dropped]? = some e →
      timestamp d = e.timestamp) ∧
    (∀ (capacity : Nat) (ops : List LedgerOp) (e : FrameInfo),
      d.frame_infos = (runLedger capacity ops).ledger →
      (runLedger capacity ops).dropped = 0 →
      (runLedger capacity ops).pushed[(runLedger capacity ops).retired]? = some e →
      timestamp d = e.timestamp) ∧
    (∀ (f : AudioFormat), timestamp (setAudioFormat d f) = timestamp d) ∧
    (∀ (v : ℚ) (d' : AudioOutputPrivate), setVolume d v = some d' → timestamp d' = timestamp d) ∧
    (∀ (m : Bool), timestamp (setMute d m) = timestamp d) ∧
    (∀ (v : ℚ), timestamp (reportVolume d v) = timestamp d) ∧
    (∀ (m : Bool), timestamp (reportMute d m) = timestamp d) := by
  have hrun : ∀ (capacity : Nat) (ops : List LedgerOp) (e : FrameInfo),
      d.frame_infos = (runLedger capacity ops).ledger →
      (runLedger capacity ops).pushed[(runLedger capacity ops).retired
        + (runLedger capacity ops).dropped]? = some e →
      timestamp d = e.timestamp := by
    intro capacity ops e hd he
    obtain ⟨_, h2⟩ := runLedger_consistent capacity ops
    have hlt := (List.getElem?_eq_some.mp he).1
    have hget := (List.getElem?_eq_some.mp he).2
    rw [timestamp, ring.front, hd, h2, List.drop_eq_getElem_cons hlt, hget]
    rfl
  refine ⟨?_, hrun, ?_, ?_, ?_, ?_, ?_, ?_⟩
  · intro e es he
    simp [timestamp, ring.front, he]
  · intro capacity ops e hd h0 he
    exact hrun capacity ops e hd (by rw [h0]; exact he)
  · intro f
    unfold setAudioFormat
    split <;> rfl
  · intro v d' h
    rw [timestamp, timestamp, setVolume_frame_infos d d' v h]
  · intro m
    rw [timestamp, timestamp, setMute_frame_infos]
  · intro v
    unfold reportVolume
    split <;> rfl
  · intro m
    unfold reportMute
    split <;> rfl

/-- C12 (amended), instance: on a ledger of capacity 8, three entries are pushed and one
is retired; `timestamp()` is the timestamp of the second. -/
theorem C12_timestamp_is_front_witness :
    timestamp { blockingEngine with
      frame_infos := (runLedger 8 [.push { timestamp := 1, data_size := 4 },
        .push { timestamp := 2, data_size := 4 }, .pop,
        .push { timestamp := 3, data_size := 4 }]).ledger } = 2 :=
  (C12_timestamp_is_front { blockingEngine with
      frame_infos := (runLedger 8 [.push { timestamp := 1, data_size := 4 },
        .push { timestamp := 2, data_size := 4 }, .pop,
        .push { timestamp := 3, data_size := 4 }]).ledger }).2.2.1 8
    [.push { timestamp := 1, data_size := 4 }, .push { timestamp := 2, data_size := 4 }, .pop,
      .push { timestamp := 3, data_size := 4 }]
    { timestamp := 2, data_size := 4 } rfl rfl rfl

/-! ## C14 -/

theorem tryVolume_shape (d d' : AudioOutputPrivate) (v : ℚ) (h : tryVolume d v = some d') :
    ∃ (sw : Bool) (bk : Option AudioOutputBackend),
      d' = { d with sw_volume := sw, backend := bk } ∧ bk.isSome = d.backend.isSome := by
  unfold tryVolume at h
  split at h
  · simp only [Option.some.injEq] at h; subst h
    exact ⟨d.sw_volume, d.backend, rfl, rfl⟩
  · split at h
    · split at h
      · simp at h
      · rename_i b hb
        split at h <;>
          (simp only [Option.some.injEq] at h; subst h; exact ⟨_, _, rfl, by simp [hb]⟩)
    · simp only [Option.some.injEq] at h; subst h
      exact ⟨true, d.backend, rfl, rfl⟩

theorem tryVolume_isSome (d : AudioOutputPrivate) (v : ℚ)
    (h : d.backend.isSome = true ∨ d.available = false ∨ d.features &&& SetVolume = 0) :
    (tryVolume d v).isSome = true := by
  unfold tryVolume
  split
  · rfl
  · rename_i hav
    split
    · rename_i hf
      split
      · rename_i hb
        rcases h with h | h | h
        · rw [hb] at h; simp at h
        · simp [h] at hav
        · exact absurd h hf
      · split <;> rfl
    · rfl

theorem tryVolume_ne_none (d : AudioOutputPrivate) (v : ℚ) (h : tryVolume d v = none)
    (hb : d.backend.isSome = true) : False := by
  have hs := tryVolume_isSome d v (Or.inl hb)
  rw [h] at hs
  simp at hs

theorem tryMute_shape (d : AudioOutputPrivate) (m : Bool) :
    ∃ (sw : Bool) (bk : Option AudioOutputBackend),
      tryMute d m = { d with sw_mute := sw, backend := bk } ∧ bk.isSome = d.backend.isSome := by
  unfold tryMute
  split
  · exact ⟨d.sw_mute, d.backend, rfl, rfl⟩
  · split
    · rename_i b hb
      split
      · exact ⟨_, _, rfl, by simp [hb]⟩
      · exact ⟨true, d.backend, rfl, rfl⟩
    · exact ⟨true, d.backend, rfl, rfl⟩

theorem playInitialLoop_ring (buf : QByteArray) (e : FrameInfo) :
    ∀ (count : Nat) (b : AudioOutputBackend) (r : ring),
      r.entries.length + count ≤ r.capacity →
      (playInitialLoop buf e count b r).2.entries = r.entries ++ List.replicate count e ∧
      (playInitialLoop buf e count b r).2.capacity = r.capacity := by
  intro count
  induction count with
  | zero => intro b r _; simp [playInitialLoop]
  | succ n ih =>
    intro b r h
    have hp : (r.push_back e).entries = r.entries ++ [e] := push_back_not_full r e (by omega)
    have hc : (r.push_back e).capacity = r.capacity := rfl
    obtain ⟨h1, h2⟩ := ih (b.write buf).2 (r.push_back e)
      (by rw [hp, hc, List.length_append, List.length_singleton]; omega)
    rw [playInitialLoop, h1, h2, hp, hc, List.replicate_succ]
    simp

theorem playInitialData_ledger (d : AudioOutputPrivate) (hb : d.backend.isSome = true)
    (hr : d.frame_infos = ring.create d.nb_buffers) :
    (playInitialData d).frame_infos.entries
      = List.replicate d.nb_buffers { timestamp := 0, data_size := d.buffer_size } ∧
    (playInitialData d).frame_infos.capacity = d.nb_buffers ∧
    (playInitialData d).play_pos = d.play_pos ∧
    (playInitialData d).processed_remain = d.processed_remain ∧
    (playInitialData d).available = d.available := by
  unfold playInitialData
  cases hbk : d.backend with
  | none => rw [hbk] at hb; simp at hb
  | some b =>
    simp only
    obtain ⟨h1, h2⟩ := playInitialLoop_ring
      (List.replicate d.buffer_size.toNat (initialByte d.format))
      { timestamp := 0, data_size := d.buffer_size } d.nb_buffers b d.frame_infos
      (by rw [hr]; simp [ring.create])
    rw [h1, h2, hr]
    simp [ring.create]

theorem open_tail (d2 d3 : AudioOutputPrivate) (v : ℚ) (hv : tryVolume d2 v = some d3)
    (hb : d2.backend.isSome = true) (hr : d2.frame_infos = ring.create d2.nb_buffers) :
    (playInitialData (tryMute d3 (isMute d3))).frame_infos.entries
      = List.replicate d2.nb_buffers { timestamp := 0, data_size := d2.buffer_size } ∧
    (playInitialData (tryMute d3 (isMute d3))).frame_infos.capacity = d2.nb_buffers ∧
    (playInitialData (tryMute d3 (isMute d3))).play_pos = d2.play_pos ∧
    (playInitialData (tryMute d3 (isMute d3))).processed_remain = d2.processed_remain ∧
    (playInitialData (tryMute d3 (isMute d3))).available = d2.available := by
  obtain ⟨sw, bk, rfl, hbk3⟩ := tryVolume_shape _ _ _ hv
  obtain ⟨sw2, bk2, h2, hbk2⟩ := tryMute_shape
    ({ d2 with sw_volume := sw, backend := bk } : AudioOutputPrivate)
    (isMute ({ d2 with sw_volume := sw, backend := bk } : AudioOutputPrivate))
  rw [h2]
  exact playInitialData_ledger _ (hbk2.trans (hbk3.trans hb)) hr

/-- What `open()` leaves: it always returns; after a failure the ledger is empty, after a
success it holds the `nb_buffers` entries of `playInitialData`; the position counters are
0 in both cases and `isOpen()` is the returned value. -/
theorem openOutput_spec (d : AudioOutputPrivate) :
    ∃ (r : Bool) (d' : AudioOutputPrivate), openOutput d = some (r, d') ∧
      d'.play_pos = 0 ∧ d'.processed_remain = 0 ∧ d'.available = r ∧
      d'.frame_infos.capacity = d.nb_buffers ∧
      (r = false → d'.frame_infos.entries = []) ∧
      (r = true → d'.frame_infos.entries
        = List.replicate d.nb_buffers { timestamp := 0, data_size := d.buffer_size }) := by
  unfold openOutput
  cases hbk : d.backend with
  | none =>
    simp only [resetStatus, hbk]
    exact ⟨false, _, rfl, rfl, rfl, rfl, rfl, fun _ => rfl, fun h => by simp at h⟩
  | some b =>
    simp only [resetStatus, hbk]
    split
    · exact ⟨false, _, rfl, rfl, rfl, rfl, rfl, fun _ => rfl, fun h => by simp at h⟩
    · split
      · rename_i hv
        exact (tryVolume_ne_none _ _ hv rfl).elim
      · rename_i d3 hv
        have hpl := open_tail _ d3 _ hv rfl rfl
        exact ⟨true, _, rfl, hpl.2.2.1, hpl.2.2.2.1, hpl.2.2.2.2, hpl.2.1,
          fun h => by simp at h, fun _ => hpl.1⟩

theorem close_spec (d : AudioOutputPrivate) :
    (close d).2.frame_infos.entries = [] ∧ (close d).2.play_pos = 0 ∧
    (close d).2.processed_remain = 0 ∧ (close d).2.available = false := by
  unfold close
  cases hbk : d.backend <;> simp [resetStatus, hbk, ring.create]

/-- C14, as stated, fails for an `open()` that succeeds: on `blockingEngine` (two buffers
of four bytes, backend bound, its `open()` succeeding) `open()` returns true and the
ledger then holds the two entries (0, 4) pushed by `playInitialData`. -/
theorem C14_counterexample_open_fills_ledger :
    (openOutput blockingEngine).map
        (fun r => (r.1, r.2.frame_infos.entries, r.2.play_pos, r.2.processed_remain))
      = some (true, [{ timestamp := 0, data_size := 4 }, { timestamp := 0, data_size := 4 }], 0, 0) ∧
    ([{ timestamp := 0, data_size := 4 }, { timestamp := 0, data_size := 4 }] : List FrameInfo)
      ≠ [] := by
  refine ⟨?_, by decide⟩
  rfl

/-- C14 (amended): after `close()` returns, whatever the result, the ledger holds no
entries and `play_pos` and `processed_remain` are 0. `open()` always returns, with
`play_pos` and `processed_remain` 0; when it returns false the ledger holds no entries,
and when it returns true the ledger holds the `bufferCount()` entries
(0, `bufferSize()`) of the initial silent buffers. -/
theorem C14_open_close_reset (d : AudioOutputPrivate) :
    ((close d).2.frame_infos.entries = [] ∧ (close d).2.play_pos = 0 ∧
      (close d).2.processed_remain = 0) ∧
    (∃ (r : Bool) (d' : AudioOutputPrivate), openOutput d = some (r, d') ∧
      d'.play_pos = 0 ∧ d'.processed_remain = 0 ∧
      (r = false → d'.frame_infos.entries = []) ∧
      (r = true → d'.frame_infos.entries
        = List.replicate d.nb_buffers { timestamp := 0, data_size := bufferSize d })) := by
  obtain ⟨h1, h2, h3, _⟩ := close_spec d
  obtain ⟨r, d', ho, p1, p2, _, _, p5, p6⟩ := openOutput_spec d
  exact ⟨⟨h1, h2, h3⟩, r, d', ho, p1, p2, p5, p6⟩

/-- C14 (amended), instance: on the `Blocking` engine (two buffers of four bytes) `close()`
leaves the ledger empty, and `open()` returns true with the two initial entries (0, 4) in
the ledger and both counters 0. -/
theorem C14_open_close_reset_witness :
    (close blockingEngine).2.frame_infos.entries = [] ∧
    ∃ d', openOutput blockingEngine = some (true, d') ∧
      d'.play_pos = 0 ∧ d'.processed_remain = 0 ∧
      d'.frame_infos.entries
        = [{ timestamp := 0, data_size := 4 }, { timestamp := 0, data_size := 4 }] := by
  obtain ⟨⟨h1, _, _⟩, r, d', ho, p1, p2, _, p6⟩ := C14_open_close_reset blockingEngine
  have hr : (openOutput blockingEngine).map (fun x => x.1) = some true := rfl
  rw [ho] at hr
  simp only [Option.map_some', Option.some.injEq] at hr
  subst hr
  exact ⟨h1, d', ho, p1, p2, p6 rfl⟩

/-! ## C13 -/

theorem prepareData_unity (d : AudioOutputPrivate) (data : QByteArray) (hm : d.mute = false)
    (hv : d.vol = 1) : prepareData d data = some data := by
  simp [prepareData, isMute, hm, volume, hv, qFuzzyCompare_one]

theorem retireBytes_length_le : ∀ (l : List FrameInfo) (free_bytes : Int),
    (retireBytes free_bytes l).length ≤ l.length := by
  intro l free_bytes
  exact (retireBytes_suffix l free_bytes).length_le

theorem retireBytes_mem (l : List FrameInfo) (free_bytes : Int) (e : FrameInfo)
    (h : e ∈ retireBytes free_bytes l) : e ∈ l :=
  (retireBytes_suffix l free_bytes).subset h

/-- The `PlayedBytes` branch of `waitForNextBuffer` when the reading already covers the
front entry: no wait, the reading is retired from the ledger in bytes. -/
theorem wait_playedBytes_nowait (fuel : Nat) (d : AudioOutputPrivate) (b : AudioOutputBackend)
    (hb : d.backend = some b) (hctl : b.bufferControl = { noControl with PlayedBytes := true })
    (hr : d.frame_infos.front.data_size ≤ b.readings b.queries) :
    waitForNextBuffer (fuel + 1) d
      = some (retire { d with processed_remain := b.query.1, backend := some b.query.2 }
          (-(b.readings b.queries))) := by
  have hq : b.query.1 = b.readings b.queries := rfl
  unfold waitForNextBuffer
  simp only [hb, hctl, noControl, Bool.false_eq_true, if_false, if_true]
  rw [playedBytesLoop, if_neg (by simp only [hq]; omega)]
  rfl

theorem retireBytes_front_covered (e : FrameInfo) (es : List FrameInfo) (r : Int)
    (he : e.data_size = 4096) (hr : 4096 ≤ r) :
    retireBytes r (e :: es) = retireBytes (r - 4096) es := by
  rw [retireBytes, if_pos ⟨by omega, by omega⟩, he]

theorem retireBytes_short (es : List FrameInfo) (r : Int) (hr : r < 4096)
    (hes : ∀ e ∈ es, e.data_size = 4096) : retireBytes r es = es := by
  cases es with
  | nil => rfl
  | cons e t =>
    have := hes e (List.mem_cons_self e t)
    rw [retireBytes, if_neg (by omega)]

/-- One write in the scenario: with a reading of at least 4096 bytes `receiveData` returns
the value of `write` without requesting any sleep, the reading is retired in bytes from
the ledger, the new entry is appended, and the state is again a state of the scenario. -/
theorem playedBytes_write_step (fuel : Nat) (d : AudioOutputPrivate) (b : AudioOutputBackend)
    (data : QByteArray) (pts : ℚ) (hS : PlayedBytesScenario d b) (hlen : data.length = 4096)
    (hr : 4096 ≤ b.readings b.queries) :
    ∃ d', receiveData (fuel + 1) d data pts = some (b.writeResult b.written.length, d') ∧
      PlayedBytesScenario d' { b with queries := b.queries + 1, written := b.written ++ [data] } ∧
      d'.env.sleeps = d.env.sleeps ∧
      d'.frame_infos.entries
        = retireBytes (b.readings b.queries) d.frame_infos.entries
          ++ [{ timestamp := pts, data_size := 4096 }] := by
  obtain ⟨hp, hav, hm, hv, hcap, hlen8, hall, hb, hctl⟩ := hS
  have hprep := prepareData_unity d data hm hv
  have hfront : ({ d with data := data } : AudioOutputPrivate).frame_infos.front.data_size
      ≤ b.readings b.queries := by
    show d.frame_infos.front.data_size ≤ _
    cases he : d.frame_infos.entries with
    | nil => simp only [ring.front, he, List.headD_nil]; omega
    | cons e es =>
      have := hall e (by rw [he]; exact List.mem_cons_self e es)
      simp only [ring.front, he, List.headD_cons]; omega
  have hw := wait_playedBytes_nowait fuel { d with data := data } b hb hctl hfront
  have hneg : -(b.readings b.queries) < 0 := by omega
  have hret : (retireBytes (b.readings b.queries) d.frame_infos.entries).length < 8 := by
    cases he : d.frame_infos.entries with
    | nil => simp [retireBytes]
    | cons e es =>
      have h4 := hall e (by rw [he]; exact List.mem_cons_self e es)
      rw [retireBytes_front_covered e es _ h4 hr]
      have := retireBytes_length_le es (b.readings b.queries - 4096)
      rw [he] at hlen8
      simp only [List.length_cons] at hlen8
      omega
  have hp' : ¬ (d.paused = true) := by simp [hp]
  have hres : receiveData (fuel + 1) d data pts = some (b.writeResult b.written.length,
      { d with
        data := data
        processed_remain := b.readings b.queries
        frame_infos := ({ d.frame_infos with
          entries := retireBytes (b.readings b.queries) d.frame_infos.entries } : ring).push_back
            { timestamp := pts, data_size := (data.length : Int) }
        backend := some { b with queries := b.queries + 1, written := b.written ++ [data] } }) := by
    unfold receiveData
    rw [if_neg hp']
    simp only [hprep, hw, retire, if_pos hneg, neg_neg]
    simp only [isOpen, hav, Bool.not_true, Bool.false_eq_true, if_false,
      AudioOutputBackend.write, AudioOutputBackend.query]
  refine ⟨_, hres, ?_, rfl, ?_⟩
  · refine ⟨hp, hav, hm, hv, hcap, ?_, ?_, rfl, hctl⟩
    · simp only [ring.push_back, hcap]
      rw [List.length_drop, List.length_append, List.length_singleton]
      omega
    · intro e he
      simp only [ring.push_back] at he
      have he2 := List.mem_of_mem_drop he
      rcases List.mem_append.mp he2 with h | h
      · exact hall e (retireBytes_mem _ _ _ h)
      · simp only [List.mem_singleton] at h
        rw [h, hlen]
        rfl
  · simp only [ring.push_back, hcap, hlen]
    have h0 : (retireBytes (b.readings b.queries) d.frame_infos.entries).length + 1 - 8 = 0 := by
      omega
    rw [h0, List.drop_zero]
    rfl

/-- A successful `open()` on an engine without device features: volume and mute fall back
to software, the position state is reset and the initial buffers are written. -/
theorem openOutput_software (d : AudioOutputPrivate) (b : AudioOutputBackend)
    (hb : d.backend = some b) (ho : b.openResult b.opens = true) (hf : d.features = 0) :
    openOutput d = some (true, playInitialData
      { d with
        available := true
        sw_volume := true
        sw_mute := true
        play_pos := 0
        processed_remain := 0
        msecs_ahead := 0
        timer := none
        frame_infos := ring.create d.nb_buffers
        backend := some { b with
          buffer_size := d.buffer_size
          buffer_count := d.nb_buffers
          format := d.format
          opens := b.opens + 1
          opened := true } }) := by
  unfold openOutput
  simp [hb, ho, hf, resetStatus, tryVolume, tryMute, AudioOutputBackend.openDevice, SetVolume,
    SetMute, isMute, bufferSize, bufferCount]

theorem playInitialLoop_backend (buf : QByteArray) (e : FrameInfo) :
    ∀ (count : Nat) (b : AudioOutputBackend) (r : ring),
      (playInitialLoop buf e count b r).1
        = { b with written := b.written ++ List.replicate count buf } := by
  intro count
  induction count with
  | zero => intro b r; simp [playInitialLoop]
  | succ n ih =>
    intro b r
    rw [playInitialLoop, ih]
    simp [AudioOutputBackend.write, List.replicate_succ]

/-- The state after `playInitialData()` on an empty ledger of capacity `nb_buffers`. -/
theorem playInitialData_eq (d : AudioOutputPrivate) (b : AudioOutputBackend)
    (hb : d.backend = some b) (hr : d.frame_infos = ring.create d.nb_buffers) :
    playInitialData d =
      { d with
        backend := some { b with
          written := b.written ++ List.replicate d.nb_buffers
            (List.replicate d.buffer_size.toNat (initialByte d.format))
          plays := b.plays + 1 }
        frame_infos :=
          { capacity := d.nb_buffers
            entries := List.replicate d.nb_buffers { timestamp := 0, data_size := d.buffer_size } } } := by
  obtain ⟨h1, h2⟩ := playInitialLoop_ring
    (List.replicate d.buffer_size.toNat (initialByte d.format))
    { timestamp := 0, data_size := d.buffer_size } d.nb_buffers b d.frame_infos
    (by rw [hr]; simp [ring.create])
  have h3 := playInitialLoop_backend
    (List.replicate d.buffer_size.toNat (initialByte d.format))
    { timestamp := 0, data_size := d.buffer_size } d.nb_buffers b d.frame_infos
  have h4 : (playInitialLoop (List.replicate d.buffer_size.toNat (initialByte d.format))
      { timestamp := 0, data_size := d.buffer_size } d.nb_buffers b d.frame_infos).2
      = { capacity := d.nb_buffers
          entries := List.replicate d.nb_buffers { timestamp := 0, data_size := d.buffer_size } } := by
    rw [hr] at h1 h2
    cases hx : (playInitialLoop (List.replicate d.buffer_size.toNat (initialByte d.format))
      { timestamp := 0, data_size := d.buffer_size } d.nb_buffers b d.frame_infos).2 with
    | mk c es =>
      rw [hr] at hx
      rw [hx] at h1 h2
      simp only [ring.create, List.nil_append] at h1 h2
      rw [h1, h2]
  unfold playInitialData
  rw [hb]
  simp only [h4, h3, AudioOutputBackend.play]

theorem scenario_of_open (readings : Nat → Int) (d : AudioOutputPrivate)
    (b : AudioOutputBackend) (ho : openOutput (scenarioInit readings) = some (true, d))
    (hb : d.backend = some b) :
    scenarioOpened readings = d ∧ scenarioBackend readings = b := by
  have hd : scenarioOpened readings = d := by
    unfold scenarioOpened
    rw [ho]
    rfl
  refine ⟨hd, ?_⟩
  unfold scenarioBackend
  rw [hd, hb]
  rfl

/-- The scenario engine after `open()`: `open()` returns true, the state is a state of the
scenario, and the ledger holds the eight initial entries of 4096 bytes. -/
theorem scenarioOpened_spec (readings : Nat → Int) :
    openOutput (scenarioInit readings) = some (true, scenarioOpened readings) ∧
    PlayedBytesScenario (scenarioOpened readings) (scenarioBackend readings) ∧
    (scenarioOpened readings).frame_infos.entries
      = List.replicate 8 { timestamp := 0, data_size := 4096 } ∧
    (scenarioBackend readings).readings = readings ∧
    (scenarioBackend readings).queries = 0 ∧
    (scenarioOpened readings).format = stereo16 ∧
    (scenarioOpened readings).env.sleeps = [] := by
  have ho := openOutput_software (scenarioInit readings) _ rfl rfl rfl
  rw [playInitialData_eq _ _ rfl rfl] at ho
  obtain ⟨hd, hbk⟩ := scenario_of_open readings _ _ ho rfl
  rw [hbk, hd]
  refine ⟨ho, ⟨rfl, rfl, rfl, rfl, rfl, ?_, ?_, rfl, rfl⟩, rfl, rfl, rfl, rfl, rfl⟩
  · show (List.replicate 8 _).length ≤ 8
    rw [List.length_replicate]
  · intro e he
    rw [List.eq_of_mem_replicate he]
    rfl

/-- C13, as stated, fails. With the readings 4096, 8192, 12288, ... the first
`receiveData` after `open()` retires one of the eight initial entries, but the second
retires two: the ledger, which held eight entries, holds seven after it. -/
theorem C13_counterexample_cumulative_readings :
    openOutput (scenarioInit cumulativeReadings)
      = some (true, scenarioOpened cumulativeReadings) ∧
    cumulativeReadings 0 = 4096 ∧ cumulativeReadings 1 = 8192 ∧ cumulativeReadings 2 = 12288 ∧
    ∃ d1 d2,
      receiveData 1 (scenarioOpened cumulativeReadings) chunk4096 0 = some (true, d1) ∧
      d1.frame_infos.entries
        = List.replicate 7 { timestamp := 0, data_size := 4096 }
          ++ [{ timestamp := 0, data_size := 4096 }] ∧
      receiveData 1 d1 chunk4096 1 = some (true, d2) ∧
      d2.frame_infos.entries
        = List.replicate 5 { timestamp := 0, data_size := 4096 }
          ++ [{ timestamp := 0, data_size := 4096 }, { timestamp := 1, data_size := 4096 }] ∧
      d2.frame_infos.entries ≠ d1.frame_infos.entries.tail ++ [{ timestamp := 1, data_size := 4096 }] := by
  obtain ⟨ho, hS0, he0, hrd, hq0, _, _⟩ := scenarioOpened_spec cumulativeReadings
  refine ⟨ho, rfl, rfl, rfl, ?_⟩
  obtain ⟨d1, h1, hS1, _, he1⟩ := playedBytes_write_step 0 (scenarioOpened cumulativeReadings)
    (scenarioBackend cumulativeReadings) chunk4096 0 hS0 (List.length_replicate _ _)
    (by rw [hrd, hq0]; decide)
  rw [hrd, hq0, he0] at he1
  obtain ⟨d2, h2, _, _, he2⟩ := playedBytes_write_step 0 d1 _ chunk4096 1 hS1
    (List.length_replicate _ _) (by simp only [hrd, hq0]; decide)
  simp only [hrd, hq0, he1] at he2
  have hv1 : d1.frame_infos.entries
      = List.replicate 7 { timestamp := 0, data_size := 4096 }
        ++ [{ timestamp := 0, data_size := 4096 }] := by
    rw [he1]; decide
  have hv2 : d2.frame_infos.entries
      = List.replicate 5 { timestamp := 0, data_size := 4096 }
        ++ [{ timestamp := 0, data_size := 4096 }, { timestamp := 1, data_size := 4096 }] := by
    rw [he2]; decide
  refine ⟨d1, d2, h1, hv1, h2, hv2, ?_⟩
  rw [hv1, hv2]
  decide

/-- C13 (amended): in a state of the scenario whose ledger is not empty, when the reading
of the `PlayedBytes` backend at this tick is at least 4096 and less than 8192 bytes (the
bytes consumed since the previous reading), `receiveData` of a chunk of 4096 bytes returns
the value of `write`, retires exactly the front entry of the ledger, appends the entry of
the chunk and requests no sleep; the state is again a state of the scenario with a
non-empty ledger, so the same holds at every following tick. -/
theorem C13_retires_one_entry_per_tick (fuel : Nat) (d : AudioOutputPrivate)
    (b : AudioOutputBackend) (data : QByteArray) (pts : ℚ)
    (hS : PlayedBytesScenario d b) (hne : d.frame_infos.entries ≠ [])
    (hlen : data.length = 4096)
    (hlo : 4096 ≤ b.readings b.queries) (hhi : b.readings b.queries < 8192) :
    ∃ d', receiveData (fuel + 1) d data pts = some (b.writeResult b.written.length, d') ∧
      d'.frame_infos.entries
        = d.frame_infos.entries.tail ++ [{ timestamp := pts, data_size := 4096 }] ∧
      d'.frame_infos.entries ≠ [] ∧
      d'.env.sleeps = d.env.sleeps ∧
      (∀ ms ∈ d'.env.sleeps.drop d.env.sleeps.length,
        (ms : ℚ) * 1000 ≤ d.format.durationForBytes 4096) ∧
      PlayedBytesScenario d'
        { b with queries := b.queries + 1, written := b.written ++ [data] } := by
  obtain ⟨d', h1, hS', hsl, he⟩ := playedBytes_write_step fuel d b data pts hS hlen hlo
  have hall := hS.2.2.2.2.2.2.1
  have htl : retireBytes (b.readings b.queries) d.frame_infos.entries
      = d.frame_infos.entries.tail := by
    cases hes : d.frame_infos.entries with
    | nil => exact (hne hes).elim
    | cons e es =>
      rw [hes] at hall
      rw [retireBytes_front_covered e es _ (hall e (List.mem_cons_self e es)) hlo]
      exact retireBytes_short es _ (by omega)
        (fun x hx => hall x (List.mem_cons_of_mem e hx))
  rw [htl] at he
  refine ⟨d', h1, he, ?_, hsl, ?_, hS'⟩
  · rw [he]; simp
  · intro ms hms
    rw [hsl, List.drop_length] at hms
    simp at hms

theorem C13_retires_one_entry_per_tick_witness :
    ∃ d', receiveData 1 (scenarioOpened (fun _ => 4096)) chunk4096 0
        = some (true, d') ∧
      d'.frame_infos.entries
        = (scenarioOpened (fun _ => 4096)).frame_infos.entries.tail
          ++ [{ timestamp := 0, data_size := 4096 }] ∧
      d'.frame_infos.entries ≠ [] ∧
      d'.env.sleeps = (scenarioOpened (fun _ => 4096)).env.sleeps ∧
      (∀ ms ∈ d'.env.sleeps.drop (scenarioOpened (fun _ => 4096)).env.sleeps.length,
        (ms : ℚ) * 1000 ≤ (scenarioOpened (fun _ => 4096)).format.durationForBytes 4096) ∧
      PlayedBytesScenario d'
        { scenarioBackend (fun _ => 4096) with
          queries := (scenarioBackend (fun _ => 4096)).queries + 1
          written := (scenarioBackend (fun _ => 4096)).written ++ [chunk4096] } :=
  C13_retires_one_entry_per_tick 0 (scenarioOpened (fun _ => 4096))
    (scenarioBackend (fun _ => 4096)) chunk4096 0
    (scenarioOpened_spec (fun _ => 4096)).2.1
    (by rw [(scenarioOpened_spec (fun _ => 4096)).2.2.1]; decide)
    (List.length_replicate _ _)
    (by rw [(scenarioOpened_spec (fun _ => 4096)).2.2.2.1])
    (by rw [(scenarioOpened_spec (fun _ => 4096)).2.2.2.1]; decide)

/-! ## Samples read back from a scaled buffer -/

theorem leValue_leBytes : ∀ (w x : Nat), leValue (leBytes w x) = x % 256 ^ w := by
  intro w
  induction w with
  | zero => intro x; simp [leBytes, leValue, Nat.mod_one]
  | succ n ih =>
    intro x
    rw [leBytes, leValue, ih, Nat.mod_mod, pow_succ, Nat.mul_comm (256 ^ n) 256, Nat.mod_mul]

theorem leValue_lt : ∀ (l : List Nat), leValue l < 256 ^ l.length := by
  intro l
  induction l with
  | nil => simp [leValue]
  | cons b bs ih =>
    rw [leValue, List.length_cons, pow_succ]
    have := Nat.mod_lt b (show 0 < 256 by decide)
    generalize 256 ^ bs.length = p at ih ⊢
    omega

theorem readSamples_lt (w : Nat) : ∀ (n : Nat) (buf : QByteArray),
    ∀ x ∈ readSamples w n buf, x < 256 ^ w := by
  intro n
  induction n with
  | zero => intro buf x hx; simp [readSamples] at hx
  | succ k ih =>
    intro buf x hx
    rw [readSamples, List.mem_cons] at hx
    rcases hx with h | h
    · rw [h]
      exact lt_of_lt_of_le (leValue_lt _)
        (Nat.pow_le_pow_right (by decide) (by rw [List.length_take]; exact Nat.min_le_left _ _))
    · exact ih _ x h

theorem readSamples_writeSamples (w : Nat) : ∀ (out : List Int) (rest : QByteArray),
    readSamples w out.length (writeSamples w out ++ rest)
      = out.map (fun v => (v % (256 : Int) ^ w).toNat % 256 ^ w) := by
  intro out
  induction out with
  | nil => intro rest; rfl
  | cons v vs ih =>
    intro rest
    have hw : writeSamples w (v :: vs) ++ rest
        = leBytes w (v % (256 : Int) ^ w).toNat ++ (writeSamples w vs ++ rest) := by
      simp [writeSamples]
    rw [hw, List.length_cons, readSamples, List.take_left' (leBytes_length _ _),
      List.drop_left' (leBytes_length _ _), ih, leValue_leBytes]
    rfl

/-- Reading back the samples a scaler stored: the stored values themselves, when each of
them is a value of the sample type. -/
theorem loadSamples_storeSamples (w : Nat) (signed : Bool) (n : Nat) (out : List Int)
    (buf : QByteArray) (hn : out.length = n)
    (hr : ∀ x ∈ out,
      (if signed ∧ (256 : Int) ^ w ≤ 2 * (((x % (256 : Int) ^ w).toNat % 256 ^ w : Nat) : Int)
        then (((x % (256 : Int) ^ w).toNat % 256 ^ w : Nat) : Int) - (256 : Int) ^ w
        else (((x % (256 : Int) ^ w).toNat % 256 ^ w : Nat) : Int)) = x) :
    loadSamples w signed n (storeSamples w n out buf) = out := by
  subst hn
  rw [loadSamples, storeSamples, readSamples_writeSamples, List.map_map]
  exact map_eq_self_of_forall _ _ hr

theorem av_clip_uint8_range (a : Int) : 0 ≤ av_clip_uint8 a ∧ av_clip_uint8 a ≤ 255 := by
  unfold av_clip_uint8 toUInt8
  split <;> omega

theorem av_clip_int16_range (a : Int) : -32768 ≤ av_clip_int16 a ∧ av_clip_int16 a ≤ 32767 := by
  unfold av_clip_int16
  split
  · split <;> omega
  · omega

theorem av_clipl_int32_range (a : Int) :
    -2147483648 ≤ av_clipl_int32 a ∧ av_clipl_int32 a ≤ 2147483647 := by
  unfold av_clipl_int32
  split
  · split <;> omega
  · omega

theorem loadSamples_storeSamples_u8 (n : Nat) (out : List Int) (buf : QByteArray)
    (hn : out.length = n) (hr : ∀ x ∈ out, 0 ≤ x ∧ x ≤ 255) :
    loadSamples 1 false n (storeSamples 1 n out buf) = out := by
  apply loadSamples_storeSamples 1 false n out buf hn
  intro x hx
  have := hr x hx
  simp only [Bool.false_eq_true, false_and, if_false, pow_one]
  omega

theorem loadSamples_storeSamples_s16 (n : Nat) (out : List Int) (buf : QByteArray)
    (hn : out.length = n) (hr : ∀ x ∈ out, -32768 ≤ x ∧ x ≤ 32767) :
    loadSamples 2 true n (storeSamples 2 n out buf) = out := by
  apply loadSamples_storeSamples 2 true n out buf hn
  intro x hx
  have := hr x hx
  have h1 : (256 : Int) ^ 2 = 65536 := by norm_num
  have h2 : (256 : Nat) ^ 2 = 65536 := by norm_num
  simp only [h1, h2, true_and]
  split <;> omega

theorem loadSamples_storeSamples_s32 (n : Nat) (out : List Int) (buf : QByteArray)
    (hn : out.length = n) (hr : ∀ x ∈ out, -2147483648 ≤ x ∧ x ≤ 2147483647) :
    loadSamples 4 true n (storeSamples 4 n out buf) = out := by
  apply loadSamples_storeSamples 4 true n out buf hn
  intro x hx
  have := hr x hx
  have h1 : (256 : Int) ^ 4 = 4294967296 := by norm_num
  have h2 : (256 : Nat) ^ 4 = 4294967296 := by norm_num
  simp only [h1, h2, true_and]
  split <;> omega

theorem loadSamples_u8_range (n : Nat) (buf : QByteArray) :
    ∀ x ∈ loadSamples 1 false n buf, 0 ≤ x ∧ x ≤ 255 := by
  intro x hx
  simp only [loadSamples, List.mem_map] at hx
  obtain ⟨raw, hraw, rfl⟩ := hx
  have := readSamples_lt 1 n buf raw hraw
  simp only [Bool.false_eq_true, false_and, if_false]
  omega

theorem loadSamples_s16_range (n : Nat) (buf : QByteArray) :
    ∀ x ∈ loadSamples 2 true n buf, -32768 ≤ x ∧ x ≤ 32767 := by
  intro x hx
  simp only [loadSamples, List.mem_map] at hx
  obtain ⟨raw, hraw, rfl⟩ := hx
  have := readSamples_lt 2 n buf raw hraw
  have h1 : (256 : Int) ^ 2 = 65536 := by norm_num
  have h2 : (256 : Nat) ^ 2 = 65536 := by norm_num
  rw [h2] at this
  simp only [h1, true_and]
  split <;> omega

theorem loadSamples_s32_range (n : Nat) (buf : QByteArray) :
    ∀ x ∈ loadSamples 4 true n buf, -2147483648 ≤ x ∧ x ≤ 2147483647 := by
  intro x hx
  simp only [loadSamples, List.mem_map] at hx
  obtain ⟨raw, hraw, rfl⟩ := hx
  have := readSamples_lt 4 n buf raw hraw
  have h1 : (256 : Int) ^ 4 = 4294967296 := by norm_num
  have h2 : (256 : Nat) ^ 4 = 4294967296 := by norm_num
  rw [h2] at this
  simp only [h1, true_and]
  split <;> omega

theorem prepareData_fuzzy (d : AudioOutputPrivate) (data : QByteArray) (hm : d.mute = false)
    (hq : qFuzzyCompare (volume d) 1 = true) : prepareData d data = some data := by
  simp [prepareData, isMute, hm, hq]

theorem prepareData_scaler (d : AudioOutputPrivate) (data : QByteArray)
    (f : scale_samples_func) (hm : d.mute = false) (hsw : d.sw_volume = true)
    (hs : d.scale_samples = some f) (hb : d.format.bytesPerSample = sampleSize f)
    (hq : qFuzzyCompare (volume d) 1 = false) :
    prepareData d data
      = some (applyScaler d.env f (data.length / sampleSize f) d.volume_i (volume d) data) := by
  have h0 : sampleSize f ≠ 0 := by cases f <;> decide
  have h1 : ¬ data.length < sampleSize f * (data.length / sampleSize f) :=
    not_lt.mpr (Nat.mul_div_le _ _)
  simp [prepareData, isMute, hm, hq, hsw, hs, hb, h0, h1]

theorem applyScaler_u8 (env : Env) (n : Nat) (vi : Int) (vf : ℚ) (buf : QByteArray) :
    loadSamples 1 false n (applyScaler env .u8 n vi vf buf)
      = scale_samples_u8 (loadSamples 1 false n buf) vi := by
  refine loadSamples_storeSamples_u8 n _ buf (by simp [scale_samples_u8, loadSamples_length]) ?_
  intro x hx
  simp only [scale_samples_u8, List.mem_map] at hx
  obtain ⟨s, _, rfl⟩ := hx
  exact av_clip_uint8_range _

theorem applyScaler_u8_small (env : Env) (n : Nat) (vi : Int) (vf : ℚ) (buf : QByteArray) :
    loadSamples 1 false n (applyScaler env .u8_small n vi vf buf)
      = scale_samples_u8_small (loadSamples 1 false n buf) vi := by
  refine loadSamples_storeSamples_u8 n _ buf
    (by simp [scale_samples_u8_small, loadSamples_length]) ?_
  intro x hx
  simp only [scale_samples_u8_small, List.mem_map] at hx
  obtain ⟨s, _, rfl⟩ := hx
  exact av_clip_uint8_range _

theorem applyScaler_s16 (env : Env) (n : Nat) (vi : Int) (vf : ℚ) (buf : QByteArray) :
    loadSamples 2 true n (applyScaler env .s16 n vi vf buf)
      = scale_samples_s16 (loadSamples 2 true n buf) vi := by
  refine loadSamples_storeSamples_s16 n _ buf (by simp [scale_samples_s16, loadSamples_length]) ?_
  intro x hx
  simp only [scale_samples_s16, List.mem_map] at hx
  obtain ⟨s, _, rfl⟩ := hx
  exact av_clip_int16_range _

theorem applyScaler_s16_small (env : Env) (n : Nat) (vi : Int) (vf : ℚ) (buf : QByteArray) :
    loadSamples 2 true n (applyScaler env .s16_small n vi vf buf)
      = scale_samples_s16_small (loadSamples 2 true n buf) vi := by
  refine loadSamples_storeSamples_s16 n _ buf
    (by simp [scale_samples_s16_small, loadSamples_length]) ?_
  intro x hx
  simp only [scale_samples_s16_small, List.mem_map] at hx
  obtain ⟨s, _, rfl⟩ := hx
  exact av_clip_int16_range _

theorem applyScaler_s32 (env : Env) (n : Nat) (vi : Int) (vf : ℚ) (buf : QByteArray) :
    loadSamples 4 true n (applyScaler env .s32 n vi vf buf)
      = scale_samples_s32 (loadSamples 4 true n buf) vi := by
  refine loadSamples_storeSamples_s32 n _ buf (by simp [scale_samples_s32, loadSamples_length]) ?_
  intro x hx
  simp only [scale_samples_s32, List.mem_map] at hx
  obtain ⟨s, _, rfl⟩ := hx
  exact av_clipl_int32_range _

/-- A write that gets through the wait step: `receiveData` returns the value of `write`,
and the backend's record of writes is extended by the prepared buffer. -/
theorem receiveData_write (fuel : Nat) (d : AudioOutputPrivate) (data : QByteArray)
    (pts : ℚ) (b : AudioOutputBackend) (buf : QByteArray) (d1 : AudioOutputPrivate)
    (hp : d.paused = false) (hb : d.backend = some b) (ho : d.available = true)
    (hprep : prepareData d data = some buf)
    (hw : waitForNextBuffer fuel { d with data := buf } = some (true, d1)) :
    ∃ d2, receiveData fuel d data pts = some (b.writeResult b.written.length, d2) ∧
      writtenOf d2 = b.written ++ [buf] := by
  obtain ⟨hF, _, _⟩ := waitForNextBuffer_frame _ _ _ _ hw
  obtain ⟨_, hav, hd, _, hwr, hres⟩ := hF
  simp only [hb, Option.map_some'] at hwr hres
  simp only at hav hd
  have hp' : ¬ (d.paused = true) := by simp [hp]
  unfold receiveData
  rw [if_neg hp']
  simp only [hprep, hw]
  cases hb1 : d1.backend with
  | none => rw [hb1] at hwr; simp at hwr
  | some b1 =>
    rw [hb1] at hwr hres
    simp only [Option.map_some', Option.some.injEq] at hwr hres
    simp [isOpen, hav, ho, AudioOutputBackend.write, hd, hwr, hres, writtenOf]

/-- The state `setVolume(v)` leaves on an open engine with a bound backend, for a
non-negative `v` different from the current gain. -/
theorem setVolume_open (d : AudioOutputPrivate) (b : AudioOutputBackend) (v : ℚ)
    (hav : d.available = true) (hb : d.backend = some b) (hv : 0 ≤ v) (hne : v ≠ d.vol) :
    ∃ bk : AudioOutputBackend,
      setVolume d v = some
        { d with
          vol := v
          scale_samples := select_scaler d.format.sampleFormat (gain_i v)
          volume_i := gain_i v
          sw_volume := !(decide (d.features &&& SetVolume ≠ 0) && (b.setVolume v).1)
          backend := some bk } ∧
      bk.written = b.written ∧ bk.writeResult = b.writeResult := by
  have h1 : ¬ v < 0 := not_lt.mpr hv
  have h2 : ¬ d.vol = v := fun h => hne h.symm
  unfold setVolume
  rw [if_neg h1, if_neg h2]
  unfold tryVolume
  simp only [updateSampleScaleFunc, get_scaler, hav, hb, Bool.not_true, Bool.false_eq_true,
    if_false]
  by_cases hf : d.features &&& SetVolume ≠ 0
  · rw [if_pos hf]
    cases hr : (b.setVolume v).1
    · exact ⟨((b.setVolume v).2.setVolume 1).2, by simp [hf, hr], rfl, rfl⟩
    · exact ⟨(b.setVolume v).2, by simp [hf, hr], rfl, rfl⟩
  · rw [if_neg hf]
    exact ⟨b, by simp [hf], rfl, rfl⟩

theorem setVolume_open_fields (d : AudioOutputPrivate) (b : AudioOutputBackend) (v : ℚ)
    (hav : d.available = true) (hb : d.backend = some b) (hv : 0 ≤ v) (hne : v ≠ d.vol) :
    ∃ (d' : AudioOutputPrivate) (bk : AudioOutputBackend),
      setVolume d v = some d' ∧
      d'.sw_volume = (!(decide (d.features &&& SetVolume ≠ 0) && (b.setVolume v).1)) ∧
      d'.vol = v ∧
      d'.scale_samples = select_scaler d.format.sampleFormat (gain_i v) ∧
      d'.volume_i = gain_i v ∧
      d'.mute = d.mute ∧ d'.paused = d.paused ∧ d'.available = d.available ∧
      d'.format = d.format ∧
      d'.backend = some bk ∧ bk.written = b.written ∧ bk.writeResult = b.writeResult := by
  obtain ⟨bk, hset, hbw, hbr⟩ := setVolume_open d b v hav hb hv hne
  exact ⟨_, bk, hset, rfl, rfl, rfl, rfl, rfl, rfl, rfl, rfl, rfl, hbw, hbr⟩

/-! ## C16 -/

/-- C17, as stated, fails for a reported gain that differs from the current one by less
than the tolerance of `qFuzzyCompare`: on the `Blocking` engine (gain 1, `sw_volume` true)
the report of the double `1 + 2^-44` differs from the current gain, and `reportVolume`
leaves the engine as it was, the gain still 1 and `sw_volume` still true. -/
theorem C17_counterexample_report_within_tolerance :
    isDouble (17592186044417 / 17592186044416) = true ∧
    (17592186044417 / 17592186044416 : ℚ) ≠ volume blockingEngine ∧
    (17592186044417 / 17592186044416 : ℚ) ≠ blockingEngine.vol ∧
    reportVolume blockingEngine (17592186044417 / 17592186044416) = blockingEngine ∧
    (reportVolume blockingEngine (17592186044417 / 17592186044416)).vol = 1 ∧
    (reportVolume blockingEngine (17592186044417 / 17592186044416)).sw_volume = true := by
  have hv : volume blockingEngine = 1 := by
    simp [volume, blockingEngine, demoEngine]
  have hq : qFuzzyCompare (roundDouble ((17592186044417 / 17592186044416 : ℚ) + 1))
      (roundDouble (volume blockingEngine + 1)) = true := by
    rw [hv]
    apply fuzzy_rounded_true _ _ (by norm_num)
    norm_num [abs_of_pos]
  have hr : reportVolume blockingEngine (17592186044417 / 17592186044416) = blockingEngine := by
    rw [reportVolume, if_pos hq]
  refine ⟨?_, ?_, ?_, hr, ?_, ?_⟩
  · have := isDouble_dyadic 17592186044417 (-44) (by norm_num) (by norm_num) (by norm_num)
    norm_num at this
    exact this
  · rw [hv]; norm_num
  · show (17592186044417 / 17592186044416 : ℚ) ≠ 1
    norm_num
  · rw [hr]; rfl
  · rw [hr]; rfl

/-- C17 (amended): `reportVolume(v)` compares `v + 1.0` with `volume() + 1.0` by
`qFuzzyCompare`, in double arithmetic. When the comparison is false it sets the gain to
`v` and `sw_volume` to false and changes nothing else; when it is true it changes
nothing. The comparison is false whenever `v` differs from `volume()` by at least twice
the tolerance, `|v - volume()|·10^12 ≥ 2·min(|v + 1|, |volume() + 1|)`, and true whenever
it differs by at most half the tolerance, `2·|v - volume()|·10^12 ≤ min(|v + 1|,
|volume() + 1|)`, in particular when `v` is the current `volume()`. `reportMute(m)` with
`m` different from the current flag sets the flag to `m` and `sw_mute` to false and
changes nothing else; with `m` equal to it, it changes nothing. In no case is the backend
called: the backend and its record of `setVolume` and `setMute` calls are as before. -/
theorem C17_reports_update_state (d : AudioOutputPrivate) (v : ℚ) (m : Bool) :
    (qFuzzyCompare (roundDouble (v + 1)) (roundDouble (volume d + 1)) = false →
      reportVolume d v = { d with vol := v, sw_volume := false }) ∧
    (qFuzzyCompare (roundDouble (v + 1)) (roundDouble (volume d + 1)) = true →
      reportVolume d v = d) ∧
    (2 * min |v + 1| |volume d + 1| ≤ |v - volume d| * 1000000000000 →
      reportVolume d v = { d with vol := v, sw_volume := false }) ∧
    (|v - volume d| * 1000000000000 * 2 ≤ min |v + 1| |volume d + 1| →
      reportVolume d v = d) ∧
    (v = volume d → reportVolume d v = d) ∧
    (m ≠ isMute d → reportMute d m = { d with mute := m, sw_mute := false }) ∧
    (m = isMute d → reportMute d m = d) ∧
    (reportVolume d v).backend = d.backend ∧ (reportMute d m).backend = d.backend := by
  have hb : (1 : ℚ) ≤ volume d + 1 := by
    have : (0 : ℚ) ≤ volume d := le_max_right _ _
    linarith
  have hsub : v + 1 - (volume d + 1) = v - volume d := by ring
  have hfalse : qFuzzyCompare (roundDouble (v + 1)) (roundDouble (volume d + 1)) = false →
      reportVolume d v = { d with vol := v, sw_volume := false } := by
    intro h
    rw [reportVolume, h]
    rfl
  have htrue : qFuzzyCompare (roundDouble (v + 1)) (roundDouble (volume d + 1)) = true →
      reportVolume d v = d := by
    intro h
    rw [reportVolume, if_pos h]
  have hnear : |v - volume d| * 1000000000000 * 2 ≤ min |v + 1| |volume d + 1| →
      reportVolume d v = d := by
    intro h
    exact htrue (fuzzy_rounded_true _ _ hb (by rw [hsub]; exact h))
  refine ⟨hfalse, htrue, ?_, hnear, ?_, ?_, ?_, ?_, ?_⟩
  · intro h
    exact hfalse (fuzzy_rounded_false _ _ hb (by rw [hsub]; exact h))
  · intro h
    apply hnear
    rw [h, sub_self, abs_zero]
    simp only [zero_mul, min_self]
    exact abs_nonneg _
  · intro h
    rw [reportMute, if_neg h]
  · intro h
    rw [reportMute, if_pos h]
  · unfold reportVolume
    split <;> rfl
  · unfold reportMute
    split <;> rfl

/-- C17 (amended), instance: on the `Blocking` engine (gain 1, not muted) the reports of
the gain 0.5 and of mute on are taken over, and software handling is switched off. -/
theorem C17_reports_update_state_witness :
    reportVolume blockingEngine (1 / 2)
      = { blockingEngine with vol := 1 / 2, sw_volume := false } ∧
    reportVolume blockingEngine 1 = blockingEngine ∧
    reportMute blockingEngine true = { blockingEngine with mute := true, sw_mute := false } ∧
    reportMute blockingEngine false = blockingEngine :=
  have h := C17_reports_update_state blockingEngine
  ⟨(h (1 / 2) true).2.2.1 (by
      have hv : volume blockingEngine = 1 := by simp [volume, blockingEngine, demoEngine]
      rw [hv]
      norm_num [abs_of_pos, abs_of_neg]),
    (h 1 true).2.2.2.2.1 (by simp [volume, blockingEngine, demoEngine]),
    (h 1 true).2.2.2.2.2.1 (by decide),
    (h 1 false).2.2.2.2.2.2.1 rfl⟩

/-! ## C18 -/

/-- C18: for an encoding that is none of the ten unsigned-8, signed-16, signed-32, float
and double encodings, `get_scaler` returns the null scaling function, whatever the gain.
A non-muted engine whose cached scaler is null prepares the chunk itself, byte for byte,
whatever the gain and the software-volume flag; when the wait step succeeds on an open,
non-paused engine with its backend bound, `receiveData` returns the value of `write` and
the backend's record of writes is extended by exactly the chunk; and whenever
`receiveData` returns, the buffer it holds is the chunk and the backend was handed
nothing else. -/
theorem C18_null_scaler_skips_scaling (fmt : SampleFormat) (vol : ℚ)
    (d : AudioOutputPrivate) (data : QByteArray)
    (hfmt : fmt ∉ [SampleFormat_Unsigned8, SampleFormat_Signed16, SampleFormat_Signed32,
      SampleFormat_Float, SampleFormat_Double, SampleFormat_Unsigned8Planar,
      SampleFormat_Signed16Planar, SampleFormat_Signed32Planar, SampleFormat_FloatPlanar,
      SampleFormat_DoublePlanar])
    (hs : d.scale_samples = none) (hm : d.mute = false) :
    (get_scaler fmt vol).1 = none ∧
    prepareData d data = some data ∧
    (∀ (fuel : Nat) (pts : ℚ) (b : AudioOutputBackend) (d1 : AudioOutputPrivate),
      d.paused = false → d.backend = some b → d.available = true →
      waitForNextBuffer fuel { d with data := data } = some (true, d1) →
      ∃ d2, receiveData fuel d data pts = some (b.writeResult b.written.length, d2) ∧
        writtenOf d2 = b.written ++ [data]) ∧
    (∀ (fuel : Nat) (pts : ℚ) (r : Bool) (d' : AudioOutputPrivate), d.paused = false →
      receiveData fuel d data pts = some (r, d') →
      d'.data = data ∧ (writtenOf d' = writtenOf d ∨ writtenOf d' = writtenOf d ++ [data])) := by
  have hprep : prepareData d data = some data := by
    simp [prepareData, isMute, hm, hs]
  refine ⟨?_, hprep, ?_, ?_⟩
  · cases fmt <;> first | rfl | (exact absurd (by simp) hfmt)
  · intro fuel pts b d1 hp hb ho hw
    exact receiveData_write fuel d data pts b data d1 hp hb ho hprep hw
  · intro fuel pts r d' hp h
    exact receiveData_data fuel d data data pts r d' hp hprep h

/-- C18, instance: the `Blocking` engine on the unknown encoding at gain 0.5 with
software volume on hands the chunk to the backend unmodified. -/
theorem C18_null_scaler_skips_scaling_witness :
    (get_scaler SampleFormat_Unknown (1 / 2)).1 = none ∧
    prepareData unknownFormatEngine [1, 2, 3, 4] = some [1, 2, 3, 4] ∧
    unknownFormatEngine.sw_volume = true ∧
    qFuzzyCompare (volume unknownFormatEngine) 1 = false ∧
    ∃ d2, receiveData 0 unknownFormatEngine [1, 2, 3, 4] 5 = some (true, d2) ∧
      writtenOf d2 = [[1, 2, 3, 4]] := by
  have h := C18_null_scaler_skips_scaling SampleFormat_Unknown (1 / 2) unknownFormatEngine
    [1, 2, 3, 4] (by decide) rfl rfl
  refine ⟨h.1, h.2.1, rfl, ?_, ?_⟩
  · have hv : volume unknownFormatEngine = 1 / 2 := by
      simp [volume, unknownFormatEngine, blockingEngine, demoEngine]
    rw [hv]
    apply qFuzzyCompare_false_of
    norm_num [abs_of_pos, abs_of_neg]
  · exact h.2.2.1 0 5 (fakeBackend { noControl with Blocking := true } 0)
      (retire { unknownFormatEngine with data := [1, 2, 3, 4] } 1).2 rfl rfl rfl rfl

/-! ## C19 -/

theorem probeBackends_none (create : String → Option AudioOutputBackend) :
    ∀ (names : List String),
      (∀ n ∈ names, ∀ b, create n = some b → b.available = false) →
      probeBackends create names = none := by
  intro names
  induction names with
  | nil => intro _; rfl
  | cons n rest ih =>
    intro h
    have hrest := ih (fun x hx => h x (List.mem_cons_of_mem n hx))
    rw [probeBackends]
    cases hc : create n with
    | none => exact hrest
    | some b =>
      have hb := h n (List.mem_cons_self n rest) b hc
      simp [hb, hrest]

theorem probeBackends_first (create : String → Option AudioOutputBackend)
    (name : String) (post : List String) (b : AudioOutputBackend)
    (hc : create name = some b) (ha : b.available = true) :
    ∀ (pre : List String),
      (∀ n ∈ pre, ∀ b', create n = some b' → b'.available = false) →
      probeBackends create (pre ++ name :: post) = some b := by
  intro pre
  induction pre with
  | nil =>
    intro _
    rw [List.nil_append, probeBackends, hc]
    simp [ha]
  | cons n rest ih =>
    intro h
    have hrest := ih (fun x hx => h x (List.mem_cons_of_mem n hx))
    rw [List.cons_append, probeBackends]
    cases hn : create n with
    | none => exact hrest
    | some b' =>
      have hb := h n (List.mem_cons_self n rest) b' hn
      simp [hb, hrest]

/-- What `setBackends` changes when the list differs from the current one: the bound
backend is the one the probe finds, the list is stored; the ledger, the position
counters and the `available` flag are as before. -/
theorem setBackends_fields (create : String → Option AudioOutputBackend)
    (d : AudioOutputPrivate) (names : List String) (h : names ≠ d.backends) :
    (setBackends create d names).backend = probeBackends create names ∧
    (setBackends create d names).backends = names ∧
    (setBackends create d names).frame_infos = d.frame_infos ∧
    (setBackends create d names).play_pos = d.play_pos ∧
    (setBackends create d names).processed_remain = d.processed_remain ∧
    (setBackends create d names).available = d.available := by
  have h' : ¬ d.backends = names := fun e => h e.symm
  unfold setBackends
  rw [if_neg h']
  cases hp : probeBackends create names with
  | none => exact ⟨rfl, rfl, rfl, rfl, rfl, rfl⟩
  | some b =>
    simp only
    unfold setDeviceFeatures
    split <;> exact ⟨rfl, rfl, rfl, rfl, rfl, rfl⟩

/-- C19: `setBackends(names)` with the current list changes nothing. With a list
different from the current one, the bound backend afterwards is the backend created from
the first name of the list, in list order, whose creation succeeds and whose backend
reports itself available; no backend is bound when the list has no such name. -/
theorem C19_setBackends_binds_first_available (create : String → Option AudioOutputBackend)
    (d : AudioOutputPrivate) (names : List String) :
    (names = d.backends → setBackends create d names = d) ∧
    (names ≠ d.backends →
      (∀ (pre : List String) (name : String) (post : List String) (b : AudioOutputBackend),
        names = pre ++ name :: post → create name = some b → b.available = true →
        (∀ n ∈ pre, ∀ b', create n = some b' → b'.available = false) →
        (setBackends create d names).backend = some b) ∧
      ((∀ n ∈ names, ∀ b, create n = some b → b.available = false) →
        (setBackends create d names).backend = none)) := by
  refine ⟨fun h => by rw [setBackends, if_pos h.symm], ?_⟩
  intro h
  have hb := (setBackends_fields create d names h).1
  refine ⟨?_, fun hn => hb.trans (probeBackends_none create names hn)⟩
  intro pre name post b hnames hc ha hpre
  rw [hb, hnames]
  exact probeBackends_first create name post b hc ha pre hpre

/-- C19, instance: on the `Blocking` engine (current list empty) the list
"null", "busy", "alsa", "pulse" binds the backend created for "alsa"; the list
"null", "busy" binds none; the current list changes nothing. -/
theorem C19_setBackends_binds_first_available_witness :
    setBackends demoCreate blockingEngine [] = blockingEngine ∧
    (setBackends demoCreate blockingEngine ["null", "busy", "alsa", "pulse"]).backend
      = some { fakeBackend noControl 0 with name := "alsa" } ∧
    (setBackends demoCreate blockingEngine ["null", "busy"]).backend = none := by
  have hpre : ∀ n ∈ ["null", "busy"], ∀ b', demoCreate n = some b' → b'.available = false := by
    intro n hn b' hb'
    simp only [List.mem_cons, List.mem_singleton, List.not_mem_nil, or_false] at hn
    rcases hn with rfl | rfl
    · simp [demoCreate] at hb'
    · simp [demoCreate] at hb'
      rw [← hb']
  refine ⟨(C19_setBackends_binds_first_available demoCreate blockingEngine []).1 rfl, ?_, ?_⟩
  · exact ((C19_setBackends_binds_first_available demoCreate blockingEngine
      ["null", "busy", "alsa", "pulse"]).2 (by decide)).1 ["null", "busy"] "alsa" ["pulse"]
      { fakeBackend noControl 0 with name := "alsa" } rfl
      (by simp [demoCreate]) rfl hpre
  · exact ((C19_setBackends_binds_first_available demoCreate blockingEngine
      ["null", "busy"]).2 (by decide)).2 hpre

/-! ## C20 -/

/-- C20 fails in the code: `setBackends` with a list different from the current one
replaces the backend and leaves the ledger, `play_pos`, `processed_remain` and the
`available` flag exactly as they were; it does not call `resetStatus()`, which
`close()` does. -/
theorem C20_setBackends_keeps_ledger (create : String → Option AudioOutputBackend)
    (d : AudioOutputPrivate) (names : List String) (h : names ≠ d.backends) :
    (setBackends create d names).frame_infos.entries = d.frame_infos.entries ∧
    (setBackends create d names).play_pos = d.play_pos ∧
    (setBackends create d names).processed_remain = d.processed_remain ∧
    (setBackends create d names).available = d.available ∧
    (close d).2.frame_infos.entries = [] ∧ (close d).2.play_pos = 0 ∧
    (close d).2.processed_remain = 0 := by
  obtain ⟨_, _, h1, h2, h3, h4⟩ := setBackends_fields create d names h
  obtain ⟨c1, c2, c3, _⟩ := close_spec d
  exact ⟨by rw [h1], h2, h3, h4, c1, c2, c3⟩

/-- C20, the failing input: the engine with two pending entries, `play_pos` 6 and
`processed_remain` 2, switched from the empty list to the list "alsa". The ledger still
holds the two entries and the counters are still 6 and 2. -/
theorem C20_setBackends_keeps_ledger_witness :
    (setBackends demoCreate fullLedgerEngine ["alsa"]).backend
      = some { fakeBackend noControl 0 with name := "alsa" } ∧
    (setBackends demoCreate fullLedgerEngine ["alsa"]).frame_infos.entries
      = [{ timestamp := 0, data_size := 4 }, { timestamp := 1, data_size := 4 }] ∧
    (setBackends demoCreate fullLedgerEngine ["alsa"]).play_pos = 6 ∧
    (setBackends demoCreate fullLedgerEngine ["alsa"]).processed_remain = 2 ∧
    (setBackends demoCreate fullLedgerEngine ["alsa"]).available = true := by
  have h := C20_setBackends_keeps_ledger demoCreate fullLedgerEngine ["alsa"] (by decide)
  have hb := (setBackends_fields demoCreate fullLedgerEngine ["alsa"] (by decide)).1
  refine ⟨hb.trans ?_, h.1, h.2.1, h.2.2.1, h.2.2.2.1⟩
  simp [probeBackends, demoCreate, fakeBackend]

/-! ## C21 -/

/-- The feature flags after `setBackends` with a list different from the current one:
the supported features of the backend the probe binds, and the flags as they were before
when the probe binds none. -/
theorem setBackends_features (create : String → Option AudioOutputBackend)
    (d : AudioOutputPrivate) (names : List String) (h : names ≠ d.backends) :
    (∀ b, probeBackends create names = some b →
      (setBackends create d names).features = b.supportedFeatures) ∧
    (probeBackends create names = none → (setBackends create d names).features = d.features) := by
  have h' : ¬ d.backends = names := fun e => h e.symm
  constructor
  · intro b hp
    unfold setBackends
    rw [if_neg h', hp]
    simp only
    unfold setDeviceFeatures
    simp only [supportedDeviceFeatures, Nat.and_self]
    split
    · rename_i hf
      exact hf
    · rfl
  · intro hp
    unfold setBackends
    rw [if_neg h', hp]

/-- C21 fails in the code when no backend can be bound: after `setBackends` with a list
different from the current one the feature flags are the supported features of the newly
bound backend, but when the probe binds no backend the flags are left as they were, not
emptied, although `supportedDeviceFeatures()` is then `NoFeature`. -/
theorem C21_setBackends_keeps_stale_features (create : String → Option AudioOutputBackend)
    (d : AudioOutputPrivate) (names : List String) (h : names ≠ d.backends) :
    (∀ b, probeBackends create names = some b →
      (setBackends create d names).backend = some b ∧
      (setBackends create d names).features = b.supportedFeatures) ∧
    (probeBackends create names = none →
      (setBackends create d names).backend = none ∧
      (setBackends create d names).features = d.features ∧
      supportedDeviceFeatures (setBackends create d names) = 0) := by
  obtain ⟨hb, _⟩ := setBackends_fields create d names h
  obtain ⟨f1, f2⟩ := setBackends_features create d names h
  refine ⟨fun b hp => ⟨hb.trans hp, f1 b hp⟩, fun hp => ⟨hb.trans hp, f2 hp, ?_⟩⟩
  unfold supportedDeviceFeatures
  rw [hb.trans hp]

/-- C21, the failing input: the open engine with the features `SetVolume | SetMute`
enabled, switched from the empty list to the list "null", for which no backend can be
created. No backend is bound and the flags are still 3, not 0. -/
theorem C21_setBackends_keeps_stale_features_witness :
    (setBackends demoCreate failingVolumeEngine ["null"]).backend = none ∧
    (setBackends demoCreate failingVolumeEngine ["null"]).features = 3 ∧
    supportedDeviceFeatures (setBackends demoCreate failingVolumeEngine ["null"]) = 0 ∧
    (3 : Nat) ≠ 0 := by
  have hp : probeBackends demoCreate ["null"] = none := by
    simp [probeBackends, demoCreate]
  have h := (C21_setBackends_keeps_stale_features demoCreate failingVolumeEngine ["null"]
    (by decide)).2 hp
  exact ⟨h.1, h.2.1, h.2.2, by decide⟩

/-! ## C22 -/

theorem sizes_sum_nonneg : ∀ (l : List FrameInfo), (∀ e ∈ l, 0 < e.data_size) →
    0 ≤ (l.map FrameInfo.data_size).sum := by
  intro l
  induction l with
  | nil => intro _; simp
  | cons e es ih =>
    intro h
    have h1 := h e (List.mem_cons_self e es)
    have h2 := ih (fun x hx => h x (List.mem_cons_of_mem e hx))
    simp only [List.map_cons, List.sum_cons]
    omega

/-- The byte retirement loop on entries of positive size: it drops the longest prefix
whose sizes sum to at most the processed amount. -/
theorem retireBytes_greedy : ∀ (l : List FrameInfo) (P : Int),
    (∀ e ∈ l, 0 < e.data_size) → 0 ≤ P →
    ∃ k, k ≤ l.length ∧ retireBytes P l = l.drop k ∧
      ((l.take k).map FrameInfo.data_size).sum ≤ P ∧
      ∀ j, j ≤ l.length → ((l.take j).map FrameInfo.data_size).sum ≤ P → j ≤ k := by
  intro l
  induction l with
  | nil =>
    intro P _ hP
    exact ⟨0, le_refl _, rfl, by simpa using hP, fun j hj _ => hj⟩
  | cons e es ih =>
    intro P h hP
    have he := h e (List.mem_cons_self e es)
    have hes : ∀ x ∈ es, 0 < x.data_size := fun x hx => h x (List.mem_cons_of_mem e hx)
    by_cases hc : P ≥ e.data_size ∧ e.data_size > 0
    · obtain ⟨k, hk, hr, hsum, hmax⟩ := ih (P - e.data_size) hes (by omega)
      refine ⟨k + 1, by simpa using hk, ?_, ?_, ?_⟩
      · rw [retireBytes, if_pos hc, hr]
        rfl
      · simp only [List.take_succ_cons, List.map_cons, List.sum_cons]
        omega
      · intro j hj hjs
        cases j with
        | zero => omega
        | succ i =>
          simp only [List.take_succ_cons, List.map_cons, List.sum_cons] at hjs
          have := hmax i (by simpa using hj) (by omega)
          omega
    · refine ⟨0, Nat.zero_le _, ?_, by simpa using hP, ?_⟩
      · rw [retireBytes, if_neg hc]
        rfl
      · intro j hj hjs
        cases j with
        | zero => exact le_refl _
        | succ i =>
          simp only [List.take_succ_cons, List.map_cons, List.sum_cons] at hjs
          have := sizes_sum_nonneg (es.take i) (fun x hx => hes x (List.mem_of_mem_take hx))
          omega

/-- C22: the retirement step for a processed amount `P > 0` (the value `remove = -P` of
the byte-measured strategies) on a ledger whose entry sizes are all positive returns true
and removes exactly `k` entries from the front, where `k` is the largest number, at most
the number of entries, whose first `k` sizes sum to at most `P`; nothing else changes. -/
theorem C22_byte_retirement_is_greedy (d : AudioOutputPrivate) (P : Int) (hP : 0 < P)
    (hs : ∀ e ∈ d.frame_infos.entries, 0 < e.data_size) :
    ∃ k, k ≤ d.frame_infos.entries.length ∧
      retire d (-P) = (true, { d with frame_infos := { d.frame_infos with
        entries := d.frame_infos.entries.drop k } }) ∧
      ((d.frame_infos.entries.take k).map FrameInfo.data_size).sum ≤ P ∧
      ∀ j, j ≤ d.frame_infos.entries.length →
        ((d.frame_infos.entries.take j).map FrameInfo.data_size).sum ≤ P → j ≤ k := by
  obtain ⟨k, hk, hr, hsum, hmax⟩ := retireBytes_greedy d.frame_infos.entries P hs hP.le
  refine ⟨k, hk, ?_, hsum, hmax⟩
  rw [retire, if_pos (by omega), neg_neg, hr]

/-- C22, instance: on the `PlayedBytes` engine with two pending entries of four bytes the
processed amounts 4 and 7 retire one entry, and 8 retires both; with the reading 4 the
wait step retires one entry. -/
theorem C22_byte_retirement_is_greedy_witness :
    (retire playedBytesEngine (-4)).2.frame_infos.entries = [{ timestamp := 1, data_size := 4 }] ∧
    (retire playedBytesEngine (-7)).2.frame_infos.entries = [{ timestamp := 1, data_size := 4 }] ∧
    (retire playedBytesEngine (-8)).2.frame_infos.entries = [] ∧
    (waitForNextBuffer 1 playedBytesEngine).map (fun r => (r.1, r.2.frame_infos.entries))
      = some (true, [{ timestamp := 1, data_size := 4 }]) ∧
    ∃ k, k ≤ 2 ∧
      retire playedBytesEngine (-7) = (true, { playedBytesEngine with
        frame_infos := { playedBytesEngine.frame_infos with
          entries := playedBytesEngine.frame_infos.entries.drop k } }) ∧
      ((playedBytesEngine.frame_infos.entries.take k).map FrameInfo.data_size).sum ≤ 7 ∧
      ∀ j, j ≤ 2 →
        ((playedBytesEngine.frame_infos.entries.take j).map FrameInfo.data_size).sum ≤ 7 → j ≤ k :=
  ⟨by decide, by decide, by decide, by decide,
    C22_byte_retirement_is_greedy playedBytesEngine 7 (by decide) (by decide)⟩

/-! ## C24 -/

theorem retireCount_zero (l : List FrameInfo) : retireCount 0 l = l := by
  cases l with
  | nil => rfl
  | cons e es => rw [retireCount, if_neg (by omega)]

theorem retireCount_one (l : List FrameInfo) : retireCount 1 l = l.tail := by
  cases l with
  | nil => rfl
  | cons e es =>
    rw [retireCount, if_pos (by omega)]
    exact retireCount_zero es

/-- C24: for a bound backend that declares `Blocking` or `CountCallback`, whatever other
strategy bits it declares, `waitForNextBuffer` returns true for every amount of fuel,
with the front entry of the ledger removed (one entry fewer when the ledger is not empty,
still empty when it is) and nothing else changed: the backend was not queried and no wait
was logged. -/
theorem C24_blocking_retires_one (fuel : Nat) (d : AudioOutputPrivate) (b : AudioOutputBackend)
    (hb : d.backend = some b)
    (hc : b.bufferControl.Blocking = true ∨ b.bufferControl.CountCallback = true) :
    waitForNextBuffer fuel d = some (true, { d with frame_infos := { d.frame_infos with
      entries := d.frame_infos.entries.tail } }) ∧
    (∀ (e : FrameInfo) (es : List FrameInfo), d.frame_infos.entries = e :: es →
      d.frame_infos.entries.tail = es) ∧
    (d.frame_infos.entries = [] → d.frame_infos.entries.tail = []) ∧
    (∀ r d', waitForNextBuffer fuel d = some (r, d') →
      r = true ∧ d'.backend = some b ∧ d'.env.sleeps = d.env.sleeps ∧ d'.env.now = d.env.now) := by
  have hw : waitForNextBuffer fuel d = some (true, { d with frame_infos := { d.frame_infos with
      entries := d.frame_infos.entries.tail } }) := by
    unfold waitForNextBuffer
    simp only [hb]
    have hret : retire d 1 = (true, { d with frame_infos := { d.frame_infos with
        entries := d.frame_infos.entries.tail } }) := by
      rw [retire, if_neg (by omega), retireCount_one]
    rcases hc with h | h
    · rw [if_pos h, hret]
      simp only [hb]
    · by_cases h1 : b.bufferControl.Blocking = true
      · rw [if_pos h1, hret]
        simp only [hb]
      · rw [if_neg h1, if_pos h, hret]
        simp only [hb]
  refine ⟨hw, fun e es h => by rw [h]; rfl, fun h => by rw [h]; rfl, ?_⟩
  intro r d' h
  rw [hw] at h
  simp only [Option.some.injEq, Prod.mk.injEq] at h
  obtain ⟨rfl, rfl⟩ := h
  exact ⟨rfl, hb, rfl, rfl⟩

/-- C24, instance: with no fuel at all, the engine whose backend declares every strategy
but `Blocking` (so `CountCallback` decides) retires one of its two entries, and the
`Blocking` engine with an empty ledger retires none. -/
theorem C24_blocking_retires_one_witness :
    waitForNextBuffer 0 countCallbackEngine = some (true, { countCallbackEngine with
      frame_infos := { countCallbackEngine.frame_infos with
        entries := [{ timestamp := 1, data_size := 4 }] } }) ∧
    waitForNextBuffer 0 closedEngine = some (true, closedEngine) :=
  ⟨(C24_blocking_retires_one 0 countCallbackEngine
      (fakeBackend { allControl with Blocking := false } (-1)) rfl (Or.inr rfl)).1,
    (C24_blocking_retires_one 0 closedEngine
      (fakeBackend { noControl with Blocking := true } 0) rfl (Or.inl rfl)).1⟩

/-! ## C26 -/

/-- Leaving the `BytesCallback` loop through its condition: the increase of the reading
covers `next`, the reading covers the chunk, and the ledger and the chunk are as before. -/
theorem bytesCallbackLoop_exit (processed next : Int) :
    ∀ (fuel : Nat) (last_wait : Int) (b : AudioOutputBackend) (d d3 : AudioOutputPrivate),
      bytesCallbackLoop processed next fuel last_wait b d = some (true, d3) →
      next ≤ d3.processed_remain - processed ∧ (d3.data.length : Int) ≤ d3.processed_remain ∧
      d3.frame_infos = d.frame_infos ∧ d3.data = d.data := by
  intro fuel
  induction fuel with
  | zero => intro l b d d3 h; simp [bytesCallbackLoop] at h
  | succ n ih =>
    intro l b d d3 h
    rw [bytesCallbackLoop] at h
    split at h
    · simp only at h
      split at h
      · simp at h
      · split at h
        · simp at h
        · split at h
          · simp at h
          · obtain ⟨h1, h2, h3, h4⟩ := ih _ _ _ _ h
            exact ⟨h1, h2, h3, h4⟩
    · rename_i hc
      simp only [Option.some.injEq, Prod.mk.injEq, true_and] at h
      subst h
      exact ⟨by omega, by omega, rfl, rfl⟩

/-- A false return from inside the `BytesCallback` loop, with the timer started at
`start`: the last reading is negative, or more than 1000 ms have elapsed since `start`. -/
theorem bytesCallbackLoop_false (processed next : Int) (start : Int) :
    ∀ (fuel : Nat) (last_wait : Int) (b : AudioOutputBackend) (d d3 : AudioOutputPrivate),
      d.timer = some start →
      bytesCallbackLoop processed next fuel last_wait b d = some (false, d3) →
      d3.processed_remain < 0 ∨ d3.env.now - start > 1000 := by
  intro fuel
  induction fuel with
  | zero => intro l b d d3 _ h; simp [bytesCallbackLoop] at h
  | succ n ih =>
    intro l b d d3 ht h
    rw [bytesCallbackLoop] at h
    split at h
    · simp only at h
      split at h
      · rename_i hneg
        simp only [Option.some.injEq, Prod.mk.injEq, true_and] at h
        subst h
        exact Or.inl hneg
      · split at h
        · rename_i hnone
          simp [condWait, ht] at hnone
        · rename_i st hst
          have hst' : st = start := by
            simp only [condWait, ht, Option.some.injEq] at hst
            exact hst.symm
          split at h
          · rename_i hstall
            simp only [Option.some.injEq, Prod.mk.injEq, true_and] at h
            subst h
            rw [hst'] at hstall
            exact Or.inr hstall.2
          · exact ih _ _ _ _ (by simp [condWait, ht]) h
    · simp at h

/-- C26: when `waitForNextBuffer` returns true under the `BytesCallback` strategy on a
ledger whose front entry has positive size, the last `getWritableBytes` reading `R`
exceeds the `processed_remain` stored before the call by at least the front size, the
front entry is retired (the ledger left is what the byte retirement leaves of the entries
behind it with the rest of the increase), so it holds fewer entries than before, and the
`processed_remain` stored is `R` minus the size of the chunk, which is not negative. -/
theorem C26_bytesCallback_success_retires (fuel : Nat) (d d' : AudioOutputPrivate)
    (b : AudioOutputBackend) (e : FrameInfo) (es : List FrameInfo)
    (hb : d.backend = some b) (h1 : b.bufferControl.Blocking = false)
    (h2 : b.bufferControl.CountCallback = false) (h3 : b.bufferControl.BytesCallback = true)
    (he : d.frame_infos.entries = e :: es) (hpos : 0 < e.data_size)
    (hw : waitForNextBuffer fuel d = some (true, d')) :
    ∃ R : Int, e.data_size ≤ R - d.processed_remain ∧
      d'.processed_remain = R - (d.data.length : Int) ∧ 0 ≤ d'.processed_remain ∧
      d'.frame_infos.entries = retireBytes (R - d.processed_remain - e.data_size) es ∧
      d'.frame_infos.entries <:+ es ∧
      d'.frame_infos.entries.length < d.frame_infos.entries.length := by
  unfold waitForNextBuffer at hw
  simp only [hb, h1, h2, h3, Bool.false_eq_true, if_false, if_true] at hw
  split at hw
  · simp at hw
  · split at hw
    · simp at hw
    · simp at hw
    · rename_i d3 hloop
      obtain ⟨x1, x2, x3, x4⟩ := bytesCallbackLoop_exit _ _ _ _ _ _ _ hloop
      have hfront : d.frame_infos.front.data_size = e.data_size := by
        simp [ring.front, he]
      have hnext : d.timerRestart.2.frame_infos.front.data_size = e.data_size := hfront
      have hproc : (d.timerRestart.2).processed_remain = d.processed_remain := rfl
      rw [hnext, hproc] at x1
      have hfi : d3.frame_infos = d.frame_infos := x3
      have hdata : d3.data = d.data := x4
      simp only [Option.some.injEq] at hw
      rw [hproc, retire, if_pos (by omega), neg_neg] at hw
      simp only [Prod.mk.injEq, true_and] at hw
      subst hw
      have hentries : retireBytes (d3.processed_remain - d.processed_remain) d3.frame_infos.entries
          = retireBytes (d3.processed_remain - d.processed_remain - e.data_size) es := by
        rw [hfi, he, retireBytes, if_pos ⟨by omega, hpos⟩]
      refine ⟨d3.processed_remain, x1, ?_, ?_, hentries, ?_, ?_⟩
      · show d3.processed_remain - (d3.data.length : Int) = _
        rw [hdata]
      · show 0 ≤ d3.processed_remain - (d3.data.length : Int)
        omega
      · show retireBytes _ d3.frame_infos.entries <:+ es
        rw [hentries]
        exact retireBytes_suffix _ _
      · show (retireBytes _ d3.frame_infos.entries).length < _
        rw [hentries, he, List.length_cons]
        exact Nat.lt_succ_of_le (retireBytes_suffix _ _).length_le

/-- C26, instance: the `BytesCallback` engine with one pending four-byte entry, a
four-byte chunk and the reading that grows from 0 to 8 during the first wait. -/
theorem C26_bytesCallback_success_retires_witness :
    ∃ d', waitForNextBuffer 2 bytesOnTimeEngine = some (true, d') ∧
      ∃ R : Int, (4 : Int) ≤ R - 0 ∧ d'.processed_remain = R - 4 ∧ 0 ≤ d'.processed_remain ∧
        d'.frame_infos.entries = [] := by
  have hw : ∃ d', waitForNextBuffer 2 bytesOnTimeEngine = some (true, d') := ⟨_, rfl⟩
  obtain ⟨d', hd'⟩ := hw
  obtain ⟨R, r1, r2, r3, r4, _, _⟩ := C26_bytesCallback_success_retires 2 bytesOnTimeEngine d'
    growingBytesBackend { timestamp := 0, data_size := 4 } [] rfl rfl rfl rfl rfl (by decide) hd'
  exact ⟨d', hd', R, r1, r2, r3, by rw [r4]; rfl⟩

/-! ## C25 -/

/-- C25, as stated, fails. On the `BytesCallback` engine with a pending four-byte entry
and a four-byte chunk, the first reading is 0 and the re-measurement after the first wait
is 8: it grew and shows room for the chunk. When that wait lasted 1001 ms the call
returns false all the same (the computed wait of 20 µs is compared with the initial 0);
with the same readings and a wait of 10 ms it returns true. -/
theorem C25_counterexample_late_wake :
    growingBytesBackend.readings 0 = 0 ∧ growingBytesBackend.readings 1 = 8 ∧
    (waitForNextBuffer 2 lateWakeEngine).map
        (fun r => (r.1, r.2.processed_remain, r.2.env.now, r.2.env.sleeps))
      = some (false, 8, 1001, [0]) ∧
    lateWakeEngine.frame_infos.front.data_size ≤ 8 - lateWakeEngine.processed_remain ∧
    (lateWakeEngine.data.length : Int) ≤ 8 ∧
    (waitForNextBuffer 2 bytesOnTimeEngine).map
        (fun r => (r.1, r.2.processed_remain, r.2.env.now, r.2.env.sleeps))
      = some (true, 4, 10, [0]) := by
  refine ⟨rfl, rfl, ?_, by decide, by decide, ?_⟩
  · rfl
  · rfl

/-- One round of the `BytesCallback` loop that has to wait, with the timer started at
`start`: the round returns false when the re-measurement is negative, and when the wait
duration `us` computed before the wait is at least `last_wait` and more than 1000 ms have
elapsed after the wait; otherwise the loop goes on with the re-measurement stored. -/
theorem bytesCallbackLoop_round (processed next : Int) (fuel : Nat) (last_wait : Int)
    (b : AudioOutputBackend) (d : AudioOutputPrivate) (start : Int) (ht : d.timer = some start)
    (hc : d.processed_remain - processed < next ∨ d.processed_remain < (d.data.length : Int)) :
    bytesCallbackLoop processed next (fuel + 1) last_wait b d =
      if b.readings b.queries < 0 ∨
          (d.format.durationForBytes (next - (d.processed_remain - processed)) ≥ last_wait ∧
            d.env.now + d.env.passes d.env.sleeps.length - start > 1000) then
        some (false,
          { d.condWait (Int.tdiv
              (d.format.durationForBytes (next - (d.processed_remain - processed))) 1000) with
            processed_remain := b.readings b.queries, backend := some b.query.2 })
      else
        bytesCallbackLoop processed next fuel
          (d.format.durationForBytes (next - (d.processed_remain - processed))) b.query.2
          { d.condWait (Int.tdiv
              (d.format.durationForBytes (next - (d.processed_remain - processed))) 1000) with
            processed_remain := b.readings b.queries, backend := some b.query.2 } := by
  rw [bytesCallbackLoop, if_pos hc]
  simp only [condWait, ht, elapsed, AudioOutputBackend.query]
  by_cases hneg : b.readings b.queries < 0
  · rw [if_pos hneg, if_pos (Or.inl hneg)]
  · rw [if_neg hneg]
    by_cases hst : d.format.durationForBytes (next - (d.processed_remain - processed)) ≥ last_wait ∧
        d.env.now + d.env.passes d.env.sleeps.length - start > 1000
    · rw [if_pos hst, if_pos (Or.inr hst)]
    · rw [if_neg hst, if_neg (by tauto)]

/-- C25 (amended): under the `BytesCallback` strategy `waitForNextBuffer` returns false
only with a negative `getWritableBytes` reading stored or with more than 1000 ms elapsed
since the wait began. In a round of the wait loop (timer started at `start`, wait
duration `us` computed before the wait from the readings so far, `last_wait` the duration
of the round before, 0 in the first round) a non-negative re-measurement does not make
the call fail when `us < last_wait` or when no more than 1000 ms have elapsed after the
wait: the loop goes on with it. When `us ≥ last_wait` and more than 1000 ms have elapsed
the round returns false whatever the re-measurement is, also when it grew and shows room
for the chunk. -/
theorem C25_bytesCallback_failure_conditions (fuel : Nat) (d : AudioOutputPrivate)
    (b : AudioOutputBackend) (hb : d.backend = some b)
    (h1 : b.bufferControl.Blocking = false) (h2 : b.bufferControl.CountCallback = false)
    (h3 : b.bufferControl.BytesCallback = true) :
    (∀ d', waitForNextBuffer fuel d = some (false, d') →
      d'.processed_remain < 0 ∨ d'.env.now - d.env.now > 1000) ∧
    (∀ (processed next last_wait start : Int) (bl : AudioOutputBackend)
        (dl : AudioOutputPrivate),
      dl.timer = some start →
      (dl.processed_remain - processed < next ∨ dl.processed_remain < (dl.data.length : Int)) →
      0 ≤ bl.readings bl.queries →
      ((dl.format.durationForBytes (next - (dl.processed_remain - processed)) < last_wait ∨
          dl.env.now + dl.env.passes dl.env.sleeps.length - start ≤ 1000) →
        bytesCallbackLoop processed next (fuel + 1) last_wait bl dl =
          bytesCallbackLoop processed next fuel
            (dl.format.durationForBytes (next - (dl.processed_remain - processed))) bl.query.2
            { dl.condWait (Int.tdiv
                (dl.format.durationForBytes (next - (dl.processed_remain - processed))) 1000) with
              processed_remain := bl.readings bl.queries, backend := some bl.query.2 }) ∧
      ((dl.format.durationForBytes (next - (dl.processed_remain - processed)) ≥ last_wait ∧
          dl.env.now + dl.env.passes dl.env.sleeps.length - start > 1000) →
        bytesCallbackLoop processed next (fuel + 1) last_wait bl dl =
          some (false,
            { dl.condWait (Int.tdiv
                (dl.format.durationForBytes (next - (dl.processed_remain - processed))) 1000) with
              processed_remain := bl.readings bl.queries, backend := some bl.query.2 }))) := by
  constructor
  · intro d' hw
    unfold waitForNextBuffer at hw
    simp only [hb, h1, h2, h3, Bool.false_eq_true, if_false, if_true] at hw
    split at hw
    · rename_i hneg
      simp only [Option.some.injEq, Prod.mk.injEq, true_and] at hw
      subst hw
      exact Or.inl hneg
    · split at hw
      · simp at hw
      · rename_i d3 hloop
        simp only [Option.some.injEq, Prod.mk.injEq, true_and] at hw
        subst hw
        exact bytesCallbackLoop_false _ _ d.env.now _ _ _ _ _ rfl hloop
      · simp [retire] at hw
        split at hw <;> simp at hw
  · intro processed next last_wait start bl dl ht hc hr
    have hround := bytesCallbackLoop_round processed next fuel last_wait bl dl start ht hc
    constructor
    · intro hok
      rw [hround, if_neg]
      intro hbad
      rcases hbad with hbad | hbad
      · omega
      · rcases hok with hok | hok <;> omega
    · intro hbad
      rw [hround, if_pos (Or.inr hbad)]

/-- C25 (amended), instance: on the engine whose first wait lasts 1001 ms the call
returns false with more than 1000 ms elapsed, and its first round is the failing round of
the theorem although the re-measurement 8 is not negative. -/
theorem C25_bytesCallback_failure_conditions_witness :
    (∀ d', waitForNextBuffer 2 lateWakeEngine = some (false, d') →
      d'.processed_remain < 0 ∨ d'.env.now - lateWakeEngine.env.now > 1000) ∧
    ∃ d', waitForNextBuffer 2 lateWakeEngine = some (false, d') ∧ d'.env.now = 1001 ∧
      d'.processed_remain = 8 :=
  ⟨(C25_bytesCallback_failure_conditions 2 lateWakeEngine growingBytesBackend rfl rfl rfl rfl).1,
    _, rfl, rfl, rfl⟩

/-! ## C23 -/

theorem wrappedDistance_nonneg (span prev new : Int) (hp : prev < span) (hn : 0 ≤ new) :
    0 ≤ wrappedDistance span prev new := by
  unfold wrappedDistance
  split <;> omega

theorem wrappedSum_nonneg (span : Int) : ∀ (l : List Int) (prev : Int),
    prev < span → (∀ s ∈ l, 0 ≤ s ∧ s < span) → 0 ≤ wrappedSum span prev l := by
  intro l
  induction l with
  | nil => intro prev _ _; simp [wrappedSum]
  | cons s rest ih =>
    intro prev hp h
    have hs := h s (List.mem_cons_self s rest)
    have h1 := wrappedDistance_nonneg span prev s hp hs.1
    have h2 := ih s hs.2 (fun x hx => h x (List.mem_cons_of_mem s hx))
    simp only [wrappedSum]
    omega

theorem nextReadings_mem (b : AudioOutputBackend) (lo hi : Int)
    (h : ∀ k, lo ≤ b.readings k ∧ b.readings k < hi) :
    ∀ (n : Nat) (q : Nat), ∀ s ∈ nextReadings { b with queries := q } n, lo ≤ s ∧ s < hi := by
  intro n
  induction n with
  | zero => intro q s hs; simp [nextReadings] at hs
  | succ m ih =>
    intro q s hs
    simp only [nextReadings, List.mem_cons] at hs
    rcases hs with rfl | hs
    · exact h q
    · exact ih (q + 1) s hs

/-- The wait loop of the `OffsetBytes` branch: the number of re-measurements it makes, and
the processed amount it returns, which is the sum of the wrapped distances added to the
amount it started with whenever that sum stays below the buffer span. -/
theorem offsetBytesLoop_sum (next : Int) :
    ∀ (fuel : Nat) (processed ws : Int) (b : AudioOutputBackend) (d : AudioOutputPrivate)
      (p' : Int) (d' : AudioOutputPrivate),
      offsetBytesLoop next fuel processed ws b d = some (p', d') →
      (∀ k, 0 ≤ b.readings k ∧ b.readings k < d.bufferSizeTotal) →
      0 ≤ d.play_pos → d.play_pos < d.bufferSizeTotal → 0 ≤ processed →
      ∃ n : Nat,
        (n = 0 → d'.backend = d.backend) ∧
        (0 < n → d'.backend = some { b with queries := b.queries + n }) ∧
        d'.processed_remain = d.processed_remain ∧ d'.data = d.data ∧
        d'.frame_infos = d.frame_infos ∧ 0 ≤ p' ∧
        (processed + wrappedSum d.bufferSizeTotal d.play_pos (nextReadings b n)
            < d.bufferSizeTotal →
          p' = processed + wrappedSum d.bufferSizeTotal d.play_pos (nextReadings b n)) := by
  intro fuel
  induction fuel with
  | zero => intro p w b d p' d' h; simp [offsetBytesLoop] at h
  | succ m ih =>
    intro p w b d p' d' h hr hp0 hp1 hproc
    rw [offsetBytesLoop] at h
    split at h
    · simp only at h
      have hs := hr b.queries
      have hspan : (d.uwait (d.format.durationForBytes (next - w))).bufferSizeTotal
          = d.bufferSizeTotal := rfl
      have hpp : (d.uwait (d.format.durationForBytes (next - w))).play_pos = d.play_pos := rfl
      have hq : b.query.1 = b.readings b.queries := rfl
      rw [hspan, hpp, hq] at h
      have hp2 : 0 ≤ (if p + (b.readings b.queries - d.play_pos) < 0
          then p + (b.readings b.queries - d.play_pos) + d.bufferSizeTotal
          else p + (b.readings b.queries - d.play_pos)) := by
        split <;> omega
      obtain ⟨n, _, hb', e1, e2, e3, e4, e5⟩ := ih _ _ _ _ _ _ h
        (fun k => hr k) hs.1 hs.2 hp2
      refine ⟨n + 1, fun h0 => by omega, fun _ => ?_, e1, e2, e3, e4, ?_⟩
      · by_cases hn : n = 0
        · subst hn
          rename_i hb0 _
          rw [hb0 rfl]
          rfl
        · rw [hb' (Nat.pos_of_ne_zero hn)]
          simp only [AudioOutputBackend.query, Nat.add_assoc, Nat.add_comm 1 n]
      · intro hlt
        simp only [nextReadings, wrappedSum] at hlt ⊢
        have hrest : 0 ≤ wrappedSum d.bufferSizeTotal (b.readings b.queries)
            (nextReadings b.query.2 n) :=
          wrappedSum_nonneg _ _ _ hs.2
            (nextReadings_mem b 0 d.bufferSizeTotal hr n (b.queries + 1))
        have hspan2 : ({ d.uwait (d.format.durationForBytes (next - w)) with
            play_pos := b.readings b.queries, backend := some b.query.2 }
            : AudioOutputPrivate).bufferSizeTotal = d.bufferSizeTotal := rfl
        rw [hspan2] at e5
        simp only at e5
        unfold wrappedDistance at hlt ⊢
        by_cases hw : b.readings b.queries < d.play_pos
        · rw [if_pos hw] at hlt ⊢
          by_cases hneg : p + (b.readings b.queries - d.play_pos) < 0
          · rw [if_pos hneg] at e5
            rw [e5 (by omega)]
            omega
          · omega
        · rw [if_neg hw] at hlt ⊢
          rw [if_neg (by omega)] at e5
          rw [e5 (by omega)]
          omega
    · simp only [Option.some.injEq, Prod.mk.injEq] at h
      obtain ⟨rfl, rfl⟩ := h
      exact ⟨0, fun _ => rfl, fun h0 => by omega, rfl, rfl, rfl, hproc,
        fun _ => by simp [nextReadings, wrappedSum]⟩

/-- C23 fails in the code. In a buffer of 8 bytes with the cursor last seen at 0, the
readings 3, 1, 5 have the wrapped distances 3, 6 and 4, which sum to 13; the call
accumulates 3, then 3 + (1 - 3) = 1, which is not negative so that no span is added
although the cursor wrapped, then 1 + (5 - 1) = 5: it stores `processed_remain` =
0 + 5 - 4 = 1 and retires one entry, where the sum 13 would give 9 and retire both. The
initial measurement of the same branch does add the span when the reading is below the
previous one: with the cursor last seen at 6 and now read at 0 the call accounts for the
wrapped distance 2. -/
theorem C23_offsetBytes_loop_misses_wrap :
    wrappedSum wrappingCursorEngine.bufferSizeTotal wrappingCursorEngine.play_pos [3, 1, 5] = 13 ∧
    (waitForNextBuffer 3 wrappingCursorEngine).map
        (fun r => (r.1, r.2.processed_remain, r.2.play_pos, r.2.frame_infos.entries))
      = some (true, 1, 5, [{ timestamp := 1, data_size := 4 }]) ∧
    (1 : Int) ≠ 0 + 13 - 4 ∧
    (retire wrappingCursorEngine (-13)).2.frame_infos.entries = [] ∧
    wrappedSum fullLedgerEngine.bufferSizeTotal fullLedgerEngine.play_pos [0] = 2 ∧
    (waitForNextBuffer 1 fullLedgerEngine).map
        (fun r => r.2.processed_remain - fullLedgerEngine.processed_remain
          + (fullLedgerEngine.data.length : Int))
      = some 2 := by
  refine ⟨by decide, ?_, by decide, by decide, by decide, ?_⟩
  · rfl
  · rfl

theorem retire_fields (d : AudioOutputPrivate) (remove : Int) :
    (retire d remove).2.backend = d.backend ∧
    (retire d remove).2.processed_remain = d.processed_remain := by
  unfold retire
  split <;> exact ⟨rfl, rfl⟩

/-- Where the `OffsetBytes` accumulation agrees with the sum of wrapped distances: with
every cursor reading in `[0, bufferSizeTotal)` and the stored cursor position below
`bufferSizeTotal`, a call of `waitForNextBuffer` that returns has made `n + 1` cursor
readings (the initial measurement and `n` re-measurements) and accumulated a processed
amount `P ≥ 0`, which it adds to `processed_remain` (less the size of the chunk) and
retires from the ledger; whenever the sum of the wrapped distances over the consecutive
pairs of readings is less than `bufferSizeTotal`, `P` is that sum. -/
theorem offsetBytes_processed_sum (fuel : Nat) (d d' : AudioOutputPrivate) (r : Bool)
    (b : AudioOutputBackend) (hb : d.backend = some b)
    (h1 : b.bufferControl.Blocking = false) (h2 : b.bufferControl.CountCallback = false)
    (h3 : b.bufferControl.BytesCallback = false) (h4 : b.bufferControl.PlayedBytes = false)
    (h5 : b.bufferControl.PlayedCount = false) (h6 : b.bufferControl.OffsetBytes = true)
    (hr : ∀ k, 0 ≤ b.readings k ∧ b.readings k < d.bufferSizeTotal)
    (hp1 : d.play_pos < d.bufferSizeTotal)
    (hw : waitForNextBuffer fuel d = some (r, d')) :
    ∃ (n : Nat) (P : Int),
      d'.backend = some { b with queries := b.queries + (n + 1) } ∧
      0 ≤ P ∧
      d'.processed_remain = d.processed_remain + P - (d.data.length : Int) ∧
      d'.frame_infos.entries = (retire d (-P)).2.frame_infos.entries ∧
      (wrappedSum d.bufferSizeTotal d.play_pos (nextReadings b (n + 1)) < d.bufferSizeTotal →
        P = wrappedSum d.bufferSizeTotal d.play_pos (nextReadings b (n + 1))) := by
  unfold waitForNextBuffer at hw
  simp only [hb, h1, h2, h3, h4, h5, h6, Bool.false_eq_true, if_false, if_true] at hw
  split at hw
  · simp at hw
  · rename_i P d2 hloop
    have hs := hr b.queries
    have hq : b.query.1 = b.readings b.queries := rfl
    rw [hq] at hloop
    have hP0 : 0 ≤ (if b.readings b.queries - d.play_pos < 0
        then b.readings b.queries - d.play_pos + d.bufferSizeTotal
        else b.readings b.queries - d.play_pos) := by
      split <;> omega
    obtain ⟨n, hn0, hn1, e1, e2, e3, e4, e5⟩ :=
      offsetBytesLoop_sum _ _ _ _ _ _ _ _ hloop (fun k => hr k) hs.1 hs.2 hP0
    simp only [Option.some.injEq] at hw
    have hd : d' = (retire { d2 with
        processed_remain := d2.processed_remain + P - (d2.data.length : Int) } (-P)).2 := by
      rw [hw]
    subst hd
    refine ⟨n, P, ?_, e4, ?_, ?_, ?_⟩
    · rw [(retire_fields _ _).1]
      by_cases hn : n = 0
      · subst hn
        show d2.backend = _
        rw [hn0 rfl]
        rfl
      · show d2.backend = _
        rw [hn1 (Nat.pos_of_ne_zero hn)]
        simp only [AudioOutputBackend.query, Nat.add_assoc, Nat.add_comm 1 n]
    · rw [(retire_fields _ _).2]
      show d2.processed_remain + P - (d2.data.length : Int) = _
      rw [e1, e2]
    · unfold retire
      split
      · show retireBytes _ d2.frame_infos.entries = retireBytes _ d.frame_infos.entries
        rw [e3]
      · show retireCount _ d2.frame_infos.entries = retireCount _ d.frame_infos.entries
        rw [e3]
    · intro hlt
      simp only [nextReadings, wrappedSum] at hlt ⊢
      have hspan : ({ d with play_pos := b.readings b.queries, backend := some b.query.2 }
          : AudioOutputPrivate).bufferSizeTotal = d.bufferSizeTotal := rfl
      rw [hspan] at e5
      simp only at e5
      unfold wrappedDistance at hlt ⊢
      by_cases hwr : b.readings b.queries < d.play_pos
      · rw [if_pos hwr] at hlt ⊢
        rw [if_pos (by omega)] at e5
        exact e5 hlt
      · rw [if_neg hwr] at hlt ⊢
        rw [if_neg (by omega)] at e5
        exact e5 hlt

/-! ## C27 -/

theorem tryVolume_device (d d' : AudioOutputPrivate) (v : ℚ) (b : AudioOutputBackend)
    (h : tryVolume d v = some d') (hb : d.backend = some b) :
    ∃ (sw : Bool) (bk : AudioOutputBackend),
      d' = { d with sw_volume := sw, backend := some bk } ∧
      bk.written = b.written ∧ bk.opened = b.opened ∧ bk.plays = b.plays := by
  unfold tryVolume at h
  split at h
  · simp only [Option.some.injEq] at h
    subst h
    exact ⟨d.sw_volume, b, by rw [← hb], rfl, rfl, rfl⟩
  · split at h
    · rw [hb] at h
      simp only at h
      split at h <;>
        (simp only [Option.some.injEq] at h; subst h; exact ⟨_, _, rfl, rfl, rfl, rfl⟩)
    · simp only [Option.some.injEq] at h
      subst h
      exact ⟨true, b, by rw [← hb], rfl, rfl, rfl⟩

theorem tryMute_device (d : AudioOutputPrivate) (m : Bool) (b : AudioOutputBackend)
    (hb : d.backend = some b) :
    ∃ (sw : Bool) (bk : AudioOutputBackend),
      tryMute d m = { d with sw_mute := sw, backend := some bk } ∧
      bk.written = b.written ∧ bk.opened = b.opened ∧ bk.plays = b.plays := by
  unfold tryMute
  split
  · exact ⟨d.sw_mute, b, by rw [← hb], rfl, rfl, rfl⟩
  · rw [hb]
    simp only
    split
    · exact ⟨_, _, rfl, rfl, rfl, rfl⟩
    · exact ⟨true, b, by rw [← hb], rfl, rfl, rfl⟩

theorem open_tail_device (d2 d3 : AudioOutputPrivate) (v : ℚ) (b : AudioOutputBackend)
    (hv : tryVolume d2 v = some d3) (hb : d2.backend = some b)
    (hr : d2.frame_infos = ring.create d2.nb_buffers) :
    ∃ b' : AudioOutputBackend,
      (playInitialData (tryMute d3 (isMute d3))).backend = some b' ∧
      b'.written = b.written ++ List.replicate d2.nb_buffers
        (List.replicate d2.buffer_size.toNat (initialByte d2.format)) ∧
      b'.opened = b.opened ∧ b'.plays = b.plays + 1 ∧
      (playInitialData (tryMute d3 (isMute d3))).available = d2.available ∧
      (playInitialData (tryMute d3 (isMute d3))).frame_infos
        = { capacity := d2.nb_buffers
            entries := List.replicate d2.nb_buffers
              { timestamp := 0, data_size := d2.buffer_size } } := by
  obtain ⟨sw, bk, rfl, w1, o1, p1⟩ := tryVolume_device _ _ _ _ hv hb
  obtain ⟨sw2, bk2, hm, w2, o2, p2⟩ := tryMute_device
    ({ d2 with sw_volume := sw, backend := some bk } : AudioOutputPrivate)
    (isMute ({ d2 with sw_volume := sw, backend := some bk } : AudioOutputPrivate)) bk rfl
  have hxb : (tryMute ({ d2 with sw_volume := sw, backend := some bk } : AudioOutputPrivate)
      (isMute ({ d2 with sw_volume := sw, backend := some bk } : AudioOutputPrivate))).backend
      = some bk2 := by rw [hm]
  have hxr : (tryMute ({ d2 with sw_volume := sw, backend := some bk } : AudioOutputPrivate)
      (isMute ({ d2 with sw_volume := sw, backend := some bk } : AudioOutputPrivate))).frame_infos
      = ring.create (tryMute ({ d2 with sw_volume := sw, backend := some bk } : AudioOutputPrivate)
      (isMute ({ d2 with sw_volume := sw, backend := some bk }
        : AudioOutputPrivate))).nb_buffers := by
    rw [hm]; exact hr
  rw [playInitialData_eq _ bk2 hxb hxr, hm]
  refine ⟨_, rfl, ?_, ?_, ?_, rfl, rfl⟩
  · show bk2.written ++ _ = _
    rw [w2, w1]
  · show bk2.opened = _
    rw [o2, o1]
  · show bk2.plays + 1 = _
    rw [p2, p1]

/-- What `open()` returns, case by case. After a failure the engine is closed and the
ledger empty. After a success the backend bound before the call answered true to
`open()`, it has since been handed `nb_buffers` buffers of `buffer_size` bytes of the
silence byte and told to play, the engine is open and the ledger holds `nb_buffers`
entries (0, `buffer_size`) at capacity `nb_buffers`. -/
theorem openOutput_result (d d' : AudioOutputPrivate) (r : Bool)
    (h : openOutput d = some (r, d')) :
    (r = false → d'.available = false ∧ d'.frame_infos.entries = []) ∧
    (r = true → ∃ b b' : AudioOutputBackend,
      d.backend = some b ∧ b.openResult b.opens = true ∧ d'.backend = some b' ∧
      b'.written = b.written ++ List.replicate d.nb_buffers
        (List.replicate d.buffer_size.toNat (initialByte d.format)) ∧
      b'.opened = true ∧ b'.plays = b.plays + 1 ∧
      d'.available = true ∧
      d'.frame_infos = { capacity := d.nb_buffers
                         entries := List.replicate d.nb_buffers
                           { timestamp := 0, data_size := d.buffer_size } }) := by
  unfold openOutput at h
  cases hbk : d.backend with
  | none =>
    simp only [resetStatus, hbk, Option.some.injEq, Prod.mk.injEq] at h
    obtain ⟨rfl, rfl⟩ := h
    exact ⟨fun _ => ⟨rfl, rfl⟩, fun hr => by simp at hr⟩
  | some b =>
    simp only [resetStatus, hbk] at h
    split at h
    · simp only [Option.some.injEq, Prod.mk.injEq] at h
      obtain ⟨rfl, rfl⟩ := h
      exact ⟨fun _ => ⟨rfl, rfl⟩, fun hr => by simp at hr⟩
    · rename_i hopen
      have hopen' : b.openResult b.opens = true := by
        simpa [AudioOutputBackend.openDevice] using hopen
      split at h
      · simp at h
      · rename_i d3 hv
        simp only [Option.some.injEq, Prod.mk.injEq] at h
        obtain ⟨rfl, rfl⟩ := h
        refine ⟨fun hr => by simp at hr, fun _ => ?_⟩
        obtain ⟨b', t1, t2, t3, t4, t5, t6⟩ := open_tail_device _ d3 _ _ hv rfl rfl
        refine ⟨b, b', rfl, hopen', t1, t2, ?_, t4, t5, t6⟩
        rw [t3]
        simpa [AudioOutputBackend.openDevice] using hopen'

/-- C27: `open()` always returns, and `isOpen()` is then the value it returned. After a
failure the ledger is empty. After a success the ledger holds exactly `bufferCount()`
entries, each (0, `bufferSize()`), and is full to its capacity; the backend bound before
the call is still bound, answered true to its `open()`, and has been handed, after what
it had been handed before, `bufferCount()` buffers, each of `bufferSize()` bytes (none
for a negative size), every byte 0x80 on the unsigned-8 encodings and 0 otherwise. -/
theorem C27_open_primes_the_device (d : AudioOutputPrivate) :
    ∃ (r : Bool) (d' : AudioOutputPrivate), openOutput d = some (r, d') ∧ isOpen d' = r ∧
      (r = false → d'.frame_infos.entries = []) ∧
      (r = true →
        d'.frame_infos.entries
          = List.replicate d.nb_buffers { timestamp := 0, data_size := bufferSize d } ∧
        ((d'.frame_infos.entries.length : Nat) : Int) = bufferCount d ∧
        d'.frame_infos.entries.length = d'.frame_infos.capacity ∧
        ∃ b b' : AudioOutputBackend, d.backend = some b ∧ d'.backend = some b' ∧
          b.openResult b.opens = true ∧ b'.opened = true ∧
          ∃ initial : List QByteArray, b'.written = b.written ++ initial ∧
            ((initial.length : Nat) : Int) = bufferCount d ∧
            ∀ buf ∈ initial, buf.length = (bufferSize d).toNat ∧
              (0 ≤ bufferSize d → (buf.length : Int) = bufferSize d) ∧
              ∀ byte ∈ buf, byte = silenceValue d.format.sampleFormat) := by
  obtain ⟨r, d', ho, _, _, hav, _, _, _⟩ := openOutput_spec d
  obtain ⟨hf, ht⟩ := openOutput_result d d' r ho
  refine ⟨r, d', ho, hav, fun hr => (hf hr).2, fun hr => ?_⟩
  obtain ⟨b, b', hb, hop, hb', hw, hopened, _, _, hfi⟩ := ht hr
  rw [hfi]
  refine ⟨rfl, by simp [bufferCount], by simp, b, b', hb, hb', hop, hopened, _, hw,
    by simp [bufferCount], ?_⟩
  intro buf hbuf
  rw [List.eq_of_mem_replicate hbuf]
  refine ⟨List.length_replicate _ _, fun h0 => ?_, fun byte hbyte => ?_⟩
  · rw [List.length_replicate]
    exact Int.toNat_of_nonneg h0
  · rw [List.eq_of_mem_replicate hbyte]
    rfl

/-- C27, instance: `open()` on the unsigned-8 engine with two buffers of four bytes
returns true, the ledger holds the two entries (0, 4) and the backend was handed two
buffers of four bytes 0x80. -/
theorem C27_open_primes_the_device_witness :
    (openOutput mutedEngine).map
        (fun r => (r.1, isOpen r.2, r.2.frame_infos.entries, writtenOf r.2))
      = some (true, true, [{ timestamp := 0, data_size := 4 }, { timestamp := 0, data_size := 4 }],
          [[128, 128, 128, 128], [128, 128, 128, 128]]) ∧
    ∃ (r : Bool) (d' : AudioOutputPrivate), openOutput mutedEngine = some (r, d') ∧
      isOpen d' = r ∧ (r = false → d'.frame_infos.entries = []) :=
  ⟨rfl,
    (C27_open_primes_the_device mutedEngine).imp fun _ h =>
      h.imp fun _ h2 => ⟨h2.1, h2.2.1, h2.2.2.1⟩⟩

/-! ## C30 -/

theorem memcpy_length (q : QByteArray) (offset : Nat) (data : QByteArray)
    (h : offset + data.length ≤ q.length) : (memcpy q offset data).length = q.length := by
  simp only [memcpy, List.length_append, List.length_take, List.length_drop]
  omega

/-- One `write` on a queue buffer of `N > 0` bytes with the write offset in `[0, N)` and
a chunk of at most `N` bytes: the call returns, it copies into one range, which lies
inside `[0, N)`, the buffer keeps its size and the offset is again in `[0, N)`. -/
theorem write_in_bounds (o : AudioOutputOpenSL) (data : QByteArray)
    (h0 : 0 ≤ o.queue_data_write) (h1 : o.queue_data_write < (o.queue_data.length : Int))
    (hlen : data.length ≤ o.queue_data.length) :
    ∃ (r : Bool) (o' : AudioOutputOpenSL) (offset : Int), o.write data = some (r, o') ∧
      o'.queue_data.length = o.queue_data.length ∧
      0 ≤ o'.queue_data_write ∧ o'.queue_data_write < (o.queue_data.length : Int) ∧
      o'.copies = o.copies ++ [(offset, (data.length : Int))] ∧
      0 ≤ offset ∧ offset + (data.length : Int) ≤ (o.queue_data.length : Int) := by
  have hlen' : (data.length : Int) ≤ (o.queue_data.length : Int) := by exact_mod_cast hlen
  unfold AudioOutputOpenSL.write
  simp only
  by_cases hs : min ((o.queue_data.length : Int) - o.queue_data_write) (data.length : Int)
      < (data.length : Int)
  · rw [if_pos hs, if_neg (by omega)]
    have hml : (memcpy o.queue_data (0 : Int).toNat data).length = o.queue_data.length :=
      memcpy_length _ _ _ (by simpa using hlen)
    cases he : o.enqueueResult o.enqueueCalls
    · simp only [Bool.not_false, if_true]
      exact ⟨false, _, 0, rfl, hml, le_refl _, (show (0 : Int) < _ by omega), rfl, le_refl _,
        by omega⟩
    · simp only [Bool.not_true, Bool.false_eq_true, if_false]
      refine ⟨true, _, 0, rfl, hml, ?_, ?_, rfl, le_refl _, by omega⟩
      · show (0 : Int) ≤ (if (0 : Int) + (data.length : Int)
          = ((memcpy o.queue_data (0 : Int).toNat data).length : Int) then (0 : Int)
          else 0 + (data.length : Int))
        split <;> omega
      · show (if (0 : Int) + (data.length : Int)
          = ((memcpy o.queue_data (0 : Int).toNat data).length : Int) then (0 : Int)
          else 0 + (data.length : Int)) < _
        rw [hml]
        split <;> omega
  · rw [if_neg hs]
    have hfit : o.queue_data_write + (data.length : Int) ≤ (o.queue_data.length : Int) := by
      omega
    rw [if_neg (by omega)]
    have hml : (memcpy o.queue_data o.queue_data_write.toNat data).length
        = o.queue_data.length :=
      memcpy_length _ _ _ (by omega)
    cases he : o.enqueueResult o.enqueueCalls
    · simp only [Bool.not_false, if_true]
      exact ⟨false, _, o.queue_data_write, rfl, hml, h0, h1, rfl, h0, hfit⟩
    · simp only [Bool.not_true, Bool.false_eq_true, if_false]
      refine ⟨true, _, o.queue_data_write, rfl, hml, ?_, ?_, rfl, h0, hfit⟩
      · show (0 : Int) ≤ (if o.queue_data_write + (data.length : Int)
          = ((memcpy o.queue_data o.queue_data_write.toNat data).length : Int) then (0 : Int)
          else o.queue_data_write + (data.length : Int))
        split <;> omega
      · show (if o.queue_data_write + (data.length : Int)
          = ((memcpy o.queue_data o.queue_data_write.toNat data).length : Int) then (0 : Int)
          else o.queue_data_write + (data.length : Int)) < _
        rw [hml]
        split <;> omega

theorem resize_length (q : QByteArray) (size : Int) : (resize q size).length = size.toNat := by
  simp only [resize, List.length_append, List.length_take, List.length_replicate]
  omega

/-- After `open()` the queue buffer has `buffer_size * buffer_count` bytes (none for a
product that is not positive); the write offset is not touched. -/
theorem openDevice_queue (o : AudioOutputOpenSL) :
    o.openDevice.2.queue_data.length = (o.buffer_size * o.buffer_count).toNat ∧
    o.openDevice.2.queue_data_write = o.queue_data_write ∧
    o.openDevice.2.copies = o.copies ∧ o.openDevice.2.enqueued = o.enqueued :=
  ⟨resize_length _ _, rfl, rfl, rfl⟩

/-- A sequence of `write` calls on a queue buffer of `N` bytes with the write offset in
`[0, N)`, every chunk of at most `N` bytes: all the calls return, each copies into one
range inside `[0, N)`, and the offset is in `[0, N)` at the end. -/
theorem writes_in_bounds : ∀ (chunks : List QByteArray) (o : AudioOutputOpenSL),
    0 ≤ o.queue_data_write → o.queue_data_write < (o.queue_data.length : Int) →
    (∀ c ∈ chunks, c.length ≤ o.queue_data.length) →
    ∃ (o' : AudioOutputOpenSL) (ranges : List (Int × Int)), o.writes chunks = some o' ∧
      o'.queue_data.length = o.queue_data.length ∧
      0 ≤ o'.queue_data_write ∧ o'.queue_data_write < (o.queue_data.length : Int) ∧
      o'.copies = o.copies ++ ranges ∧
      ranges.map Prod.snd = chunks.map (fun c => (c.length : Int)) ∧
      ∀ r ∈ ranges, 0 ≤ r.1 ∧ r.1 + r.2 ≤ (o.queue_data.length : Int) := by
  intro chunks
  induction chunks with
  | nil =>
    intro o h0 h1 _
    exact ⟨o, [], rfl, rfl, h0, h1, by simp, rfl, by simp⟩
  | cons c rest ih =>
    intro o h0 h1 hc
    obtain ⟨r, o1, offset, hw, hl, w0, w1, hcp, r0, r1⟩ :=
      write_in_bounds o c h0 h1 (hc c (List.mem_cons_self c rest))
    obtain ⟨o', ranges, hws, hl', w0', w1', hcp', hsz, hin⟩ := ih o1 w0 (by rw [hl]; exact w1)
      (fun x hx => by rw [hl]; exact hc x (List.mem_cons_of_mem c hx))
    refine ⟨o', (offset, (c.length : Int)) :: ranges, ?_, hl'.trans hl, w0', ?_, ?_, ?_, ?_⟩
    · show (match o.write c with
        | none => none
        | some r => AudioOutputOpenSL.writes r.2 rest) = some o'
      rw [hw]
      exact hws
    · rw [hl] at w1'
      exact w1'
    · rw [hcp', hcp, List.append_assoc]
      rfl
    · simp only [List.map_cons, hsz]
    · intro x hx
      rw [List.mem_cons] at hx
      rcases hx with rfl | hx
      · exact ⟨r0, r1⟩
      · have := hin x hx
        rw [hl] at this
        exact this

/-- C30, as stated, fails when `open()` runs again without a `close()` in between,
which `AudioOutput::open()` allows: `open()` resizes the queue buffer and does not reset
the write offset. The backend opened with two buffers of four bytes (`N` = 8) takes a
chunk of six bytes, which leaves the offset at 6; opened again with two buffers of two
bytes, its queue buffer has `N` = 4 bytes and the offset before the next `write` is
still 6, not below `N`. -/
theorem C30_counterexample_reopen_keeps_offset :
    ∃ o1 : AudioOutputOpenSL,
      (freshOpenSL 4 2).openDevice.2.writes [[1, 2, 3, 4, 5, 6]] = some o1 ∧
      o1.queue_data_write = 6 ∧
      ({ o1 with buffer_size := 2 } : AudioOutputOpenSL).buffer_size
        * ({ o1 with buffer_size := 2 } : AudioOutputOpenSL).buffer_count = 4 ∧
      ({ o1 with buffer_size := 2 } : AudioOutputOpenSL).openDevice.2.queue_data.length = 4 ∧
      ({ o1 with buffer_size := 2 } : AudioOutputOpenSL).openDevice.2.queue_data_write = 6 ∧
      ¬ (({ o1 with buffer_size := 2 } : AudioOutputOpenSL).openDevice.2.queue_data_write
          < ({ o1 with buffer_size := 2 } : AudioOutputOpenSL).buffer_size
            * ({ o1 with buffer_size := 2 } : AudioOutputOpenSL).buffer_count) :=
  ⟨_, rfl, by decide, by decide, by decide, by decide, by decide⟩

/-- C30 (amended): the OpenSL backend is opened with `N = buffer_size * buffer_count`
while its write offset is in `[0, N)` (it is 0 after construction and after `close()`),
which makes the queue buffer `N` bytes long and leaves the offset as it is. For every
sequence of `write` calls whose chunks are each at most `N` bytes and for every number
`k` of them made so far: the calls return, the buffer still has `N` bytes, the write
offset is in `[0, N)`, and the ranges the `k` calls copied into, one per call and of the
size of its chunk, all lie inside `[0, N)`. -/
theorem C30_opensl_write_stays_in_bounds (o : AudioOutputOpenSL) (chunks : List QByteArray)
    (h0 : 0 ≤ o.queue_data_write) (h1 : o.queue_data_write < o.buffer_size * o.buffer_count)
    (hc : ∀ c ∈ chunks, (c.length : Int) ≤ o.buffer_size * o.buffer_count) :
    ((o.openDevice.2.queue_data.length : Nat) : Int) = o.buffer_size * o.buffer_count ∧
    o.openDevice.2.queue_data_write = o.queue_data_write ∧
    ∀ k, k ≤ chunks.length →
      ∃ (ok : AudioOutputOpenSL) (ranges : List (Int × Int)),
        o.openDevice.2.writes (chunks.take k) = some ok ∧
        ((ok.queue_data.length : Nat) : Int) = o.buffer_size * o.buffer_count ∧
        0 ≤ ok.queue_data_write ∧ ok.queue_data_write < o.buffer_size * o.buffer_count ∧
        ok.copies = o.copies ++ ranges ∧
        ranges.map Prod.snd = (chunks.take k).map (fun c => (c.length : Int)) ∧
        ∀ r ∈ ranges, 0 ≤ r.1 ∧ r.1 + r.2 ≤ o.buffer_size * o.buffer_count := by
  have hN : 0 < o.buffer_size * o.buffer_count := lt_of_le_of_lt h0 h1
  obtain ⟨hq, hw', hcp, _⟩ := openDevice_queue o
  have hlen : ((o.openDevice.2.queue_data.length : Nat) : Int)
      = o.buffer_size * o.buffer_count := by
    rw [hq]
    exact Int.toNat_of_nonneg hN.le
  refine ⟨hlen, hw', fun k _ => ?_⟩
  obtain ⟨ok, ranges, e1, e2, e3, e4, e5, e6, e7⟩ := writes_in_bounds (chunks.take k)
    o.openDevice.2 (by rw [hw']; exact h0) (by rw [hw', hlen]; exact h1)
    (fun c hx => by
      have := hc c (List.mem_of_mem_take hx)
      rw [← hlen] at this
      exact_mod_cast this)
  rw [hlen] at e4 e7
  exact ⟨ok, ranges, e1, by rw [e2, hlen], e3, e4, by rw [e5, hcp], e6, e7⟩

/-- C30 (amended), instance: the constructed backend (offset 0) opened with two buffers of
four bytes (`N` = 8) and chunks of 2, 4 and 4 bytes. The three calls copy into [0, 2),
[2, 6) and [0, 4) and leave the offset at 4. -/
theorem C30_opensl_write_stays_in_bounds_witness :
    ((freshOpenSL 4 2).openDevice.2.writes [[1, 2], [3, 4, 5, 6], [7, 8, 9, 10]]).map
        (fun o => (o.queue_data_write, o.copies, o.queue_data.length))
      = some (4, [(0, 2), (2, 4), (0, 4)], 8) ∧
    ∃ (ok : AudioOutputOpenSL) (ranges : List (Int × Int)),
      (freshOpenSL 4 2).openDevice.2.writes
          (([[1, 2], [3, 4, 5, 6], [7, 8, 9, 10]] : List QByteArray).take 3) = some ok ∧
      ((ok.queue_data.length : Nat) : Int)
        = (freshOpenSL 4 2).buffer_size * (freshOpenSL 4 2).buffer_count ∧
      0 ≤ ok.queue_data_write ∧
      ok.queue_data_write < (freshOpenSL 4 2).buffer_size * (freshOpenSL 4 2).buffer_count ∧
      ok.copies = (freshOpenSL 4 2).copies ++ ranges ∧
      ranges.map Prod.snd
        = (([[1, 2], [3, 4, 5, 6], [7, 8, 9, 10]] : List QByteArray).take 3).map
            (fun c => (c.length : Int)) ∧
      ∀ r ∈ ranges, 0 ≤ r.1 ∧
        r.1 + r.2 ≤ (freshOpenSL 4 2).buffer_size * (freshOpenSL 4 2).buffer_count :=
  ⟨by decide,
    (C30_opensl_write_stays_in_bounds (freshOpenSL 4 2)
      [[1, 2], [3, 4, 5, 6], [7, 8, 9, 10]] (by decide) (by decide) (by decide)).2.2 3
      (by decide)⟩

/-! ## C29 -/

/-- C29 fails in the code for chunks of different sizes. The backend is opened with two
buffers of four bytes (a queue buffer of 8 bytes) and written chunks of 2, 4 and 4 bytes,
none longer than `buffer_size`. The second chunk is enqueued at [2, 6) and is the most
recently enqueued one when the third write finds too little room behind offset 6, goes
back to offset 0 and copies into [0, 4): the bytes at [2, 4) of the second chunk, which
the driver may still have to play, are overwritten. -/
theorem C29_opensl_write_overwrites_queued_chunk :
    (∀ c ∈ ([[1, 2], [3, 4, 5, 6], [7, 8, 9, 10]] : List QByteArray),
      (c.length : Int) ≤ (freshOpenSL 4 2).buffer_size) ∧
    ((freshOpenSL 4 2).openDevice.2.writes [[1, 2], [3, 4, 5, 6]]).map
        (fun o => (o.queue_data, o.queue_data_write, recentlyEnqueued o))
      = some ([1, 2, 3, 4, 5, 6, 0, 0], 6, [(2, 4)]) ∧
    ((freshOpenSL 4 2).openDevice.2.writes [[1, 2], [3, 4, 5, 6], [7, 8, 9, 10]]).map
        (fun o => (o.queue_data, o.copies, o.enqueued))
      = some ([7, 8, 9, 10, 5, 6, 0, 0], [(0, 2), (2, 4), (0, 4)], [(0, 2), (2, 4), (0, 4)]) ∧
    rangesMeet (0, 4) (2, 4) := by
  refine ⟨by decide, by decide, by decide, ?_⟩
  unfold rangesMeet
  decide

/-! ## C28 -/

theorem bytesCallbackLoop_device {α : Type} (f : AudioOutputBackend → α)
    (hf : ∀ b, f b.query.2 = f b) (processed next : Int) :
    ∀ (fuel : Nat) (last_wait : Int) (b : AudioOutputBackend) (d : AudioOutputPrivate)
      (r : Bool) (d1 : AudioOutputPrivate),
      d.backend = some b → bytesCallbackLoop processed next fuel last_wait b d = some (r, d1) →
      d1.backend.map f = some (f b) := by
  intro fuel
  induction fuel with
  | zero => intro last_wait b d r d1 _ h; simp [bytesCallbackLoop] at h
  | succ n ih =>
    intro last_wait b d r d1 hb h
    rw [bytesCallbackLoop] at h
    split at h
    · simp only at h
      split at h
      · simp only [Option.some.injEq, Prod.mk.injEq] at h
        obtain ⟨_, rfl⟩ := h
        simp [hf]
      · split at h
        · simp only [Option.some.injEq, Prod.mk.injEq] at h
          obtain ⟨_, rfl⟩ := h
          simp [hf]
        · split at h
          · simp only [Option.some.injEq, Prod.mk.injEq] at h
            obtain ⟨_, rfl⟩ := h
            simp [hf]
          · rw [ih _ _ _ _ _ rfl h, hf]
    · simp only [Option.some.injEq, Prod.mk.injEq] at h
      obtain ⟨_, rfl⟩ := h
      simp [hb]

theorem playedBytesLoop_device {α : Type} (f : AudioOutputBackend → α)
    (hf : ∀ b, f b.query.2 = f b) (next : Int) :
    ∀ (fuel : Nat) (b : AudioOutputBackend) (d d1 : AudioOutputPrivate),
      d.backend = some b → playedBytesLoop next fuel b d = some d1 →
      d1.backend.map f = some (f b) := by
  intro fuel
  induction fuel with
  | zero => intro b d d1 _ h; simp [playedBytesLoop] at h
  | succ n ih =>
    intro b d d1 hb h
    rw [playedBytesLoop] at h
    split at h
    · rw [ih _ _ _ rfl h, hf]
    · simp only [Option.some.injEq] at h
      subst h
      simp [hb]

theorem playedCountLoop_device {α : Type} (f : AudioOutputBackend → α)
    (hf : ∀ b, f b.query.2 = f b) :
    ∀ (fuel : Nat) (c us : Int) (b : AudioOutputBackend) (d : AudioOutputPrivate)
      (c1 : Int) (d1 : AudioOutputPrivate),
      d.backend = some b → playedCountLoop fuel c us b d = some (c1, d1) →
      d1.backend.map f = some (f b) := by
  intro fuel
  induction fuel with
  | zero => intro c us b d c1 d1 _ h; simp [playedCountLoop] at h
  | succ n ih =>
    intro c us b d c1 d1 hb h
    rw [playedCountLoop] at h
    split at h
    · rw [ih _ _ _ _ _ _ rfl h, hf]
    · simp only [Option.some.injEq, Prod.mk.injEq] at h
      obtain ⟨_, rfl⟩ := h
      simp [hb]

theorem offsetBytesLoop_device {α : Type} (f : AudioOutputBackend → α)
    (hf : ∀ b, f b.query.2 = f b) (next : Int) :
    ∀ (fuel : Nat) (processed ws : Int) (b : AudioOutputBackend) (d : AudioOutputPrivate)
      (p1 : Int) (d1 : AudioOutputPrivate),
      d.backend = some b → offsetBytesLoop next fuel processed ws b d = some (p1, d1) →
      d1.backend.map f = some (f b) := by
  intro fuel
  induction fuel with
  | zero => intro p w b d p1 d1 _ h; simp [offsetBytesLoop] at h
  | succ n ih =>
    intro p w b d p1 d1 hb h
    rw [offsetBytesLoop] at h
    split at h
    · rw [ih _ _ _ _ _ _ rfl h, hf]
    · simp only [Option.some.injEq, Prod.mk.injEq] at h
      obtain ⟨_, rfl⟩ := h
      simp [hb]

theorem offsetIndexLoop_device {α : Type} (f : AudioOutputBackend → α)
    (hf : ∀ b, f b.query.2 = f b) :
    ∀ (fuel : Nat) (processed : Int) (b : AudioOutputBackend) (d : AudioOutputPrivate)
      (p1 : Int) (d1 : AudioOutputPrivate),
      d.backend = some b → offsetIndexLoop fuel processed b d = some (p1, d1) →
      d1.backend.map f = some (f b) := by
  intro fuel
  induction fuel with
  | zero => intro p b d p1 d1 _ h; simp [offsetIndexLoop] at h
  | succ n ih =>
    intro p b d p1 d1 hb h
    rw [offsetIndexLoop] at h
    split at h
    · rw [ih _ _ _ _ _ rfl h, hf]
    · simp only [Option.some.injEq, Prod.mk.injEq] at h
      obtain ⟨_, rfl⟩ := h
      simp [hb]

/-- The wait step changes the bound backend only by querying it: every observation of
the backend that a query leaves alone is as before. -/
theorem waitForNextBuffer_device {α : Type} (f : AudioOutputBackend → α)
    (hf : ∀ b, f b.query.2 = f b) (fuel : Nat) (d : AudioOutputPrivate) (r : Bool)
    (d1 : AudioOutputPrivate) (b : AudioOutputBackend) (hb : d.backend = some b)
    (h : waitForNextBuffer fuel d = some (r, d1)) :
    d1.backend.map f = some (f b) := by
  unfold waitForNextBuffer at h
  rw [hb] at h
  simp only at h
  have hret : ∀ (x : AudioOutputPrivate) (remove : Int),
      (retire x remove).2.backend = x.backend := fun x remove => (retire_fields x remove).1
  split at h
  · simp only [Option.some.injEq] at h
    have := hret d 1
    rw [h] at this
    simp only at this
    rw [this, hb]
    rfl
  · split at h
    · simp only [Option.some.injEq] at h
      have := hret d 1
      rw [h] at this
      simp only at this
      rw [this, hb]
      rfl
    · split at h
      · split at h
        · simp only [Option.some.injEq, Prod.mk.injEq] at h
          obtain ⟨_, rfl⟩ := h
          simp [hf]
        · split at h
          · simp at h
          · rename_i d3 hl
            simp only [Option.some.injEq, Prod.mk.injEq] at h
            obtain ⟨_, rfl⟩ := h
            rw [bytesCallbackLoop_device f hf _ _ _ _ _ _ _ _ rfl hl, hf]
          · rename_i d3 hl
            simp only [Option.some.injEq] at h
            have h3 := bytesCallbackLoop_device f hf _ _ _ _ _ _ _ _ rfl hl
            have := hret { d3 with
              processed_remain := d3.processed_remain - (d3.data.length : Int) }
              (-(d3.processed_remain - d.timerRestart.2.processed_remain))
            rw [h] at this
            simp only at this
            rw [this, h3, hf]
      · split at h
        · split at h
          · simp at h
          · rename_i d2 hl
            simp only [Option.some.injEq] at h
            have h3 := playedBytesLoop_device f hf _ _ _ _ _ rfl hl
            have := hret d2 (-d2.processed_remain)
            rw [h] at this
            simp only at this
            rw [this, h3, hf]
        · split at h
          · split at h
            · simp at h
            · rename_i c d2 hl
              simp only [Option.some.injEq] at h
              have h3 := playedCountLoop_device f hf _ _ _ _ _ _ _ rfl hl
              have := hret d2 c
              rw [h] at this
              simp only at this
              rw [this, h3, hf]
          · split at h
            · split at h
              · simp at h
              · rename_i p2 d2 hl
                simp only [Option.some.injEq] at h
                have h3 := offsetBytesLoop_device f hf _ _ _ _ _ _ _ _ rfl hl
                have := hret { d2 with
                  processed_remain := d2.processed_remain + p2 - (d2.data.length : Int) } (-p2)
                rw [h] at this
                simp only at this
                rw [this, h3, hf]
            · split at h
              · split at h
                · simp at h
                · rename_i p2 d2 hl
                  simp only [Option.some.injEq] at h
                  have h3 := offsetIndexLoop_device f hf _ _ _ _ _ _ rfl hl
                  have := hret d2 p2
                  rw [h] at this
                  simp only at this
                  rw [this, h3, hf]
              · simp at h

theorem probeBackends_some (create : String → Option AudioOutputBackend) :
    ∀ (names : List String) (b : AudioOutputBackend), probeBackends create names = some b →
      ∃ n ∈ names, create n = some b := by
  intro names
  induction names with
  | nil => intro b h; simp [probeBackends] at h
  | cons n rest ih =>
    intro b h
    rw [probeBackends] at h
    split at h
    · obtain ⟨m, hm, hc⟩ := ih b h
      exact ⟨m, List.mem_cons_of_mem n hm, hc⟩
    · rename_i b0 hc0
      split at h
      · simp only [Option.some.injEq] at h
        subst h
        exact ⟨n, List.mem_cons_self n rest, hc0⟩
      · obtain ⟨m, hm, hc⟩ := ih b h
        exact ⟨m, List.mem_cons_of_mem n hm, hc⟩

/-- What `receiveData` leaves of the engine's readiness: the `available` flag is as
before, and so is every observation of the bound backend that neither a query nor a write
changes. -/
theorem receiveData_device {α : Type} (f : AudioOutputBackend → α)
    (hf : ∀ b, f b.query.2 = f b) (hfw : ∀ b data, f (b.write data).2 = f b)
    (fuel : Nat) (d : AudioOutputPrivate) (data : QByteArray) (pts : ℚ) (r : Bool)
    (d' : AudioOutputPrivate) (h : receiveData fuel d data pts = some (r, d')) :
    d'.available = d.available ∧
    ∀ b, d.backend = some b → d'.backend.map f = some (f b) := by
  unfold receiveData at h
  split at h
  · simp only [Option.some.injEq, Prod.mk.injEq] at h
    obtain ⟨_, rfl⟩ := h
    exact ⟨rfl, fun b hb => by simp [hb]⟩
  · split at h
    · simp at h
    · rename_i buf _
      split at h
      · simp at h
      · rename_i d1 hw
        obtain ⟨hF, _, _⟩ := waitForNextBuffer_frame _ _ _ _ hw
        simp only [Option.some.injEq, Prod.mk.injEq] at h
        obtain ⟨_, rfl⟩ := h
        refine ⟨hF.2.1, fun b hb => ?_⟩
        have hdev := waitForNextBuffer_device f hf fuel { d with data := buf } _ d1 b hb hw
        exact hdev
      · rename_i d1 hw
        obtain ⟨hF, _, _⟩ := waitForNextBuffer_frame _ _ _ _ hw
        have hav : d1.available = d.available := hF.2.1
        simp only at h
        split at h
        · rename_i hb1
          simp only [Option.some.injEq, Prod.mk.injEq] at h
          obtain ⟨_, rfl⟩ := h
          refine ⟨hav, fun b hb => ?_⟩
          have := waitForNextBuffer_device f hf fuel { d with data := buf } _ d1 b hb hw
          have hb2 : d1.backend = none := hb1
          rw [hb2] at this
          simp at this
        · rename_i b1 hb1
          have hb2 : d1.backend = some b1 := hb1
          split at h
          · simp only [Option.some.injEq, Prod.mk.injEq] at h
            obtain ⟨_, rfl⟩ := h
            refine ⟨hav, fun b hb => ?_⟩
            have hdev := waitForNextBuffer_device f hf fuel { d with data := buf } _ d1 b hb hw
            exact hdev
          · simp only [Option.some.injEq, Prod.mk.injEq] at h
            obtain ⟨_, rfl⟩ := h
            refine ⟨hav, fun b hb => ?_⟩
            have := waitForNextBuffer_device f hf fuel { d with data := buf } _ d1 b hb hw
            rw [hb2] at this
            simp only [Option.map_some', Option.some.injEq] at this
            simp only [Option.map_some', Option.some.injEq]
            rw [hfw, this]

theorem playInitialData_backends (d : AudioOutputPrivate) :
    (playInitialData d).backends = d.backends ∧
    (playInitialData d).available = d.available := by
  unfold playInitialData
  split <;> exact ⟨rfl, rfl⟩

theorem tryMute_backends (d : AudioOutputPrivate) (m : Bool) :
    (tryMute d m).backends = d.backends := by
  obtain ⟨sw, bk, h, _⟩ := tryMute_shape d m
  rw [h]

theorem tryVolume_backends (d d' : AudioOutputPrivate) (v : ℚ) (h : tryVolume d v = some d') :
    d'.backends = d.backends := by
  obtain ⟨sw, bk, rfl, _⟩ := tryVolume_shape _ _ _ h
  rfl

theorem openOutput_backends (d d' : AudioOutputPrivate) (r : Bool)
    (h : openOutput d = some (r, d')) : d'.backends = d.backends := by
  unfold openOutput at h
  split at h
  · simp only [Option.some.injEq, Prod.mk.injEq] at h
    obtain ⟨_, rfl⟩ := h
    rfl
  · split at h
    · simp only [Option.some.injEq, Prod.mk.injEq] at h
      obtain ⟨_, rfl⟩ := h
      rfl
    · split at h
      · simp at h
      · rename_i d3 hv
        simp only [Option.some.injEq, Prod.mk.injEq] at h
        obtain ⟨_, rfl⟩ := h
        rw [(playInitialData_backends _).1, tryMute_backends, tryVolume_backends _ _ _ hv]
        rfl

/-- C28 fails in the code. `open()`, `close()` and `receiveData` keep the property that
an engine reporting itself open has an open backend bound, and so does `setBackends` on a
closed engine. `setBackends` on an open engine, with a list different from the current
one and a factory whose new backends are not open, breaks it: the `available` flag is
left true (`close()` clears it, `setBackends` does not) while the backend bound
afterwards, if there is one, has never been opened. -/
theorem C28_setBackends_breaks_open_invariant (create : String → Option AudioOutputBackend)
    (d : AudioOutputPrivate) (names : List String) :
    (∀ r d', openOutput d = some (r, d') → OpenMeansDeviceOpen d') ∧
    OpenMeansDeviceOpen (close d).2 ∧
    (OpenMeansDeviceOpen d → ∀ fuel data pts r d',
      receiveData fuel d data pts = some (r, d') → OpenMeansDeviceOpen d') ∧
    (isOpen d = false → OpenMeansDeviceOpen (setBackends create d names)) ∧
    (isOpen d = true → names ≠ d.backends →
      (∀ n b, create n = some b → b.opened = false) →
      isOpen (setBackends create d names) = true ∧
      ¬ OpenMeansDeviceOpen (setBackends create d names)) := by
  refine ⟨?_, ?_, ?_, ?_, ?_⟩
  · intro r d' h hopen
    obtain ⟨hf, ht⟩ := openOutput_result d d' r h
    cases r with
    | false =>
      have := (hf rfl).1
      simp only [isOpen] at hopen
      rw [this] at hopen
      simp at hopen
    | true =>
      obtain ⟨b, b', _, _, hb', _, hop, _⟩ := ht rfl
      exact ⟨b', hb', hop⟩
  · intro hopen
    have := (close_spec d).2.2.2
    simp only [isOpen] at hopen
    rw [this] at hopen
    simp at hopen
  · intro hinv fuel data pts r d' h hopen
    obtain ⟨hav, hdev⟩ := receiveData_device AudioOutputBackend.opened (fun _ => rfl)
      (fun _ _ => rfl) fuel d data pts r d' h
    have hopen' : d'.available = true := hopen
    obtain ⟨b, hb, hop⟩ := hinv (hav.symm.trans hopen')
    have := hdev b hb
    cases hb' : d'.backend with
    | none => rw [hb'] at this; simp at this
    | some b' =>
      rw [hb'] at this
      simp only [Option.map_some', Option.some.injEq] at this
      exact ⟨b', rfl, this.trans hop⟩
  · intro hclosed hopen
    by_cases hn : names = d.backends
    · rw [setBackends, if_pos hn.symm] at hopen
      rw [hclosed] at hopen
      simp at hopen
    · have := (setBackends_fields create d names hn).2.2.2.2.2
      simp only [isOpen] at hopen hclosed
      rw [this, hclosed] at hopen
      simp at hopen
  · intro hopen hn hfresh
    obtain ⟨hb, _, _, _, _, hav⟩ := setBackends_fields create d names hn
    have hop' : isOpen (setBackends create d names) = true := by
      simp only [isOpen] at hopen ⊢
      rw [hav, hopen]
    refine ⟨hop', fun hinv => ?_⟩
    obtain ⟨b, hb', hopened⟩ := hinv hop'
    rw [hb] at hb'
    obtain ⟨n, _, hc⟩ := probeBackends_some create names b hb'
    rw [hfresh n b hc] at hopened
    simp at hopened

/-- C28, the failing input: from the constructed engine, `setBackends` with the list
"alsa", then `open()`, then `setBackends` with the list "pulse". The engine still
reports itself open, and the backend bound is the new one, which was never opened. -/
theorem C28_setBackends_breaks_open_invariant_witness :
    ∃ d', runCalls demoCreate 0 (constructed demoEnv stereo16)
        [.doSetBackends ["alsa"], .doOpen, .doSetBackends ["pulse"]] = some d' ∧
      isOpen d' = true ∧
      d'.backend = some { fakeBackend noControl 0 with name := "pulse" } ∧
      ({ fakeBackend noControl 0 with name := "pulse" } : AudioOutputBackend).opened = false ∧
      ¬ OpenMeansDeviceOpen d' := by
  have halsa : probeBackends demoCreate ["alsa"]
      = some { fakeBackend noControl 0 with name := "alsa" } := by
    simp [probeBackends, demoCreate, fakeBackend]
  have hpulse : probeBackends demoCreate ["pulse"]
      = some { fakeBackend noControl 0 with name := "pulse" } := by
    simp [probeBackends, demoCreate, fakeBackend]
  have hfresh : ∀ n b, demoCreate n = some b → b.opened = false := by
    intro n b h
    unfold demoCreate at h
    split at h
    · simp at h
    · split at h <;> (simp only [Option.some.injEq] at h; rw [← h]; rfl)
  have hn1 : (["alsa"] : List String) ≠ (constructed demoEnv stereo16).backends := by decide
  obtain ⟨hb1, hbs1, _⟩ := setBackends_fields demoCreate (constructed demoEnv stereo16)
    ["alsa"] hn1
  have hf1 := (setBackends_features demoCreate (constructed demoEnv stereo16) ["alsa"] hn1).1
    _ halsa
  obtain ⟨d2, hopen⟩ : ∃ d2, openOutput
      (setBackends demoCreate (constructed demoEnv stereo16) ["alsa"]) = some (true, d2) :=
    ⟨_, openOutput_software (setBackends demoCreate (constructed demoEnv stereo16) ["alsa"])
      _ (hb1.trans halsa) rfl hf1⟩
  obtain ⟨_, _, _, _, _, _, _, _, hav2, _⟩ := (openOutput_result _ d2 _ hopen).2 rfl
  have hn2 : (["pulse"] : List String) ≠ d2.backends := by
    rw [openOutput_backends _ _ _ hopen, hbs1]
    decide
  obtain ⟨hopen3, hbroken⟩ := (C28_setBackends_breaks_open_invariant demoCreate d2
    ["pulse"]).2.2.2.2 hav2 hn2 hfresh
  refine ⟨setBackends demoCreate d2 ["pulse"], ?_, hopen3,
    (setBackends_fields demoCreate d2 ["pulse"] hn2).1.trans hpulse, rfl, hbroken⟩
  simp only [runCalls, applyCall, Option.some_bind, hopen, Option.map_some']

/-! ## C15: volume and mute on an open engine -/

/-- An `open()` on an engine whose backend opens returns true. -/
theorem openOutput_succeeds (d : AudioOutputPrivate) (b : AudioOutputBackend)
    (hb : d.backend = some b) (ho : b.openResult b.opens = true) :
    ∃ d', openOutput d = some (true, d') := by
  unfold openOutput
  split
  · rename_i hnone
    simp [resetStatus, hb] at hnone
  · rename_i b' hb'
    have hbb : b' = b := by
      simp only [resetStatus, hb, Option.some.injEq] at hb'
      exact hb'.symm
    subst hbb
    split
    · rename_i hfail
      simp [AudioOutputBackend.openDevice, ho] at hfail
    · split
      · rename_i hnone
        exact (tryVolume_ne_none _ _ hnone rfl).elim
      · exact ⟨_, rfl⟩

theorem playInitialData_settings (d : AudioOutputPrivate) :
    (playInitialData d).features = d.features ∧ (playInitialData d).vol = d.vol ∧
    (playInitialData d).mute = d.mute := by
  unfold playInitialData
  split <;> exact ⟨rfl, rfl, rfl⟩

theorem tryMute_settings (d : AudioOutputPrivate) (m : Bool) :
    (tryMute d m).features = d.features ∧ (tryMute d m).vol = d.vol ∧
    (tryMute d m).mute = d.mute := by
  obtain ⟨sw, bk, h, _⟩ := tryMute_shape d m
  rw [h]
  exact ⟨rfl, rfl, rfl⟩

theorem tryVolume_settings (d d' : AudioOutputPrivate) (v : ℚ) (h : tryVolume d v = some d') :
    d'.features = d.features ∧ d'.vol = d.vol ∧ d'.mute = d.mute := by
  obtain ⟨sw, bk, rfl, _⟩ := tryVolume_shape _ _ _ h
  exact ⟨rfl, rfl, rfl⟩

theorem setBackends_settings (create : String → Option AudioOutputBackend)
    (d : AudioOutputPrivate) (names : List String) :
    (setBackends create d names).vol = d.vol ∧ (setBackends create d names).mute = d.mute := by
  unfold setBackends
  split
  · exact ⟨rfl, rfl⟩
  · split
    · unfold setDeviceFeatures
      split <;> exact ⟨rfl, rfl⟩
    · exact ⟨rfl, rfl⟩

/-- The settings `open()` does not touch: the feature flags, the gain and the mute flag. -/
theorem openOutput_settings (d d' : AudioOutputPrivate) (r : Bool)
    (h : openOutput d = some (r, d')) :
    d'.features = d.features ∧ d'.vol = d.vol ∧ d'.mute = d.mute := by
  unfold openOutput at h
  split at h
  · simp only [Option.some.injEq, Prod.mk.injEq] at h
    obtain ⟨_, rfl⟩ := h
    exact ⟨rfl, rfl, rfl⟩
  · split at h
    · simp only [Option.some.injEq, Prod.mk.injEq] at h
      obtain ⟨_, rfl⟩ := h
      exact ⟨rfl, rfl, rfl⟩
    · split at h
      · simp at h
      · rename_i d3 hv
        simp only [Option.some.injEq, Prod.mk.injEq] at h
        obtain ⟨_, rfl⟩ := h
        obtain ⟨p1, p2, p3⟩ := playInitialData_settings (tryMute d3 (isMute d3))
        obtain ⟨m1, m2, m3⟩ := tryMute_settings d3 (isMute d3)
        obtain ⟨v1, v2, v3⟩ := tryVolume_settings _ _ _ hv
        exact ⟨p1.trans (m1.trans v1), p2.trans (m2.trans v2), p3.trans (m3.trans v3)⟩

/-- C15 fails in the code on an open engine that has no backend bound while the
`SetVolume` feature is still enabled, the state `setBackends` leaves on an open engine
when its probe binds nothing. There `setVolume(v)` with `v ≥ 0` different from the current
gain calls `setVolume` through the null `backend` pointer and has no result, where the
claim has software scaling switched on; `setMute(m)` with `m` different from the current
flag tests the pointer and switches software muting on. With the feature off, `setVolume`
returns with `sw_volume` true. With a backend bound both calls return, and they leave
`sw_volume`, resp. `sw_mute`, false exactly when the feature is enabled and the backend's
`setVolume(v)`, resp. `setMute(m)`, returned true, and true otherwise. -/
theorem C15_setVolume_calls_missing_backend (d : AudioOutputPrivate) (v : ℚ) (m : Bool)
    (hav : isOpen d = true) (hv : 0 ≤ v) (hne : v ≠ d.vol) (hm : m ≠ d.mute) :
    (d.backend = none → d.features &&& SetVolume ≠ 0 → setVolume d v = none) ∧
    (d.backend = none → d.features &&& SetVolume = 0 →
      ∃ d', setVolume d v = some d' ∧ d'.sw_volume = true) ∧
    (d.backend = none → (setMute d m).sw_mute = true) ∧
    (∀ b, d.backend = some b →
      (∃ d', setVolume d v = some d' ∧
        (d'.sw_volume = false ↔ (d.features &&& SetVolume ≠ 0 ∧ (b.setVolume v).1 = true)) ∧
        (d'.sw_volume = true ↔ ¬ (d.features &&& SetVolume ≠ 0 ∧ (b.setVolume v).1 = true))) ∧
      ((setMute d m).sw_mute = false ↔ (d.features &&& SetMute ≠ 0 ∧ (b.setMute m).1 = true)) ∧
      ((setMute d m).sw_mute = true ↔
        ¬ (d.features &&& SetMute ≠ 0 ∧ (b.setMute m).1 = true))) := by
  have hav' : d.available = true := hav
  have h1 : ¬ v < 0 := not_lt.mpr hv
  have h2 : ¬ d.vol = v := fun h => hne h.symm
  have hm' : ¬ d.mute = m := fun h => hm h.symm
  refine ⟨?_, ?_, ?_, ?_⟩
  · intro hb hf
    unfold setVolume
    rw [if_neg h1, if_neg h2]
    unfold tryVolume
    simp only [updateSampleScaleFunc, hav', hb, Bool.not_true, Bool.false_eq_true, if_false]
    rw [if_pos hf]
  · intro hb hf
    have hf' : ¬ (d.features &&& SetVolume ≠ 0) := fun h => h hf
    unfold setVolume
    rw [if_neg h1, if_neg h2]
    unfold tryVolume
    simp only [updateSampleScaleFunc, hav', hb, Bool.not_true, Bool.false_eq_true, if_false]
    rw [if_neg hf']
    exact ⟨_, rfl, rfl⟩
  · intro hb
    unfold setMute
    rw [if_neg hm']
    unfold tryMute
    simp only [hav', hb, Bool.not_true, Bool.false_eq_true, if_false]
  · intro b hb
    obtain ⟨d', bk, hset, hsw, _⟩ := setVolume_open_fields d b v hav' hb hv hne
    refine ⟨⟨d', hset, ?_, ?_⟩, ?_⟩
    · rw [hsw]; simp
    · rw [hsw]; simp; tauto
    · unfold setMute
      rw [if_neg hm']
      unfold tryMute
      simp only [hav', hb, Bool.not_true, Bool.false_eq_true, if_false]
      by_cases hf : d.features &&& SetMute ≠ 0
      · rw [if_pos hf]
        simp [hf]
      · rw [if_neg hf]
        simp [hf]

/-- C15, the failing input: from the constructed engine, `setBackends` with the list
"OpenSL" (a backend that declares `SetVolume` and `SetMute`), then `open()`, then
`setBackends` with the list "gone", for which the factory creates nothing. The engine
still reports itself open, no backend is bound and the feature flags are still 3;
`setVolume(0.5)` then has no result, and `setMute(true)` switches software muting on. -/
theorem C15_setVolume_calls_missing_backend_witness :
    ∃ d', runCalls hardwareCreate 0 (constructed demoEnv stereo16)
        [.doSetBackends ["OpenSL"], .doOpen, .doSetBackends ["gone"]] = some d' ∧
      isOpen d' = true ∧ d'.backend = none ∧ d'.features = 3 ∧
      setVolume d' (1 / 2) = none ∧ (setMute d' true).sw_mute = true := by
  have hsl : probeBackends hardwareCreate ["OpenSL"]
      = some { fakeBackend noControl 0 with name := "OpenSL", supportedFeatures := 3 } := by
    simp [probeBackends, hardwareCreate, fakeBackend]
  have hgone : probeBackends hardwareCreate ["gone"] = none := by
    simp [probeBackends, hardwareCreate]
  have hn1 : (["OpenSL"] : List String) ≠ (constructed demoEnv stereo16).backends := by decide
  obtain ⟨hb1, hbs1, _⟩ := setBackends_fields hardwareCreate (constructed demoEnv stereo16)
    ["OpenSL"] hn1
  have hf1 := (setBackends_features hardwareCreate (constructed demoEnv stereo16) ["OpenSL"]
    hn1).1 _ hsl
  obtain ⟨d2, hopen⟩ := openOutput_succeeds
    (setBackends hardwareCreate (constructed demoEnv stereo16) ["OpenSL"]) _
    (hb1.trans hsl) rfl
  obtain ⟨_, _, _, _, _, _, _, _, hav2, _⟩ := (openOutput_result _ d2 _ hopen).2 rfl
  obtain ⟨hf2, hvol2, hmu2⟩ := openOutput_settings _ d2 _ hopen
  have hn2 : (["gone"] : List String) ≠ d2.backends := by
    rw [openOutput_backends _ _ _ hopen, hbs1]
    decide
  obtain ⟨hb3, _, _, _, _, hav3⟩ := setBackends_fields hardwareCreate d2 ["gone"] hn2
  have hf3 := (setBackends_features hardwareCreate d2 ["gone"] hn2).2 hgone
  have hvol3 : (setBackends hardwareCreate d2 ["gone"]).vol = 1 := by
    rw [(setBackends_settings _ _ _).1, hvol2, (setBackends_settings _ _ _).1]
    rfl
  have hmu3 : (setBackends hardwareCreate d2 ["gone"]).mute = false := by
    rw [(setBackends_settings _ _ _).2, hmu2, (setBackends_settings _ _ _).2]
    rfl
  have hopen3 : isOpen (setBackends hardwareCreate d2 ["gone"]) = true := by
    show (setBackends hardwareCreate d2 ["gone"]).available = true
    rw [hav3, hav2]
  have hfeat : (setBackends hardwareCreate d2 ["gone"]).features = 3 := by
    rw [hf3, hf2, hf1]
  have hnone : (setBackends hardwareCreate d2 ["gone"]).backend = none := hb3.trans hgone
  have h := C15_setVolume_calls_missing_backend (setBackends hardwareCreate d2 ["gone"])
    (1 / 2) true hopen3 (by norm_num) (by rw [hvol3]; norm_num) (by rw [hmu3]; decide)
  refine ⟨setBackends hardwareCreate d2 ["gone"], ?_, hopen3, hnone, hfeat,
    h.1 hnone (by rw [hfeat]; decide), h.2.2.1 hnone⟩
  simp only [runCalls, applyCall, Option.some_bind, hopen, Option.map_some']

end QtAV
